import Mathlib

/-!
# go-lrpcx: frame codec, framer, envelope, registration, registries, pool, balancers

A shallow embedding of the parts of the RPC runtime that the wire protocol and the
request/response pipeline rest on:

* `codec/codec.go`            : `FrameHeader`, `defaultCodec.Encode`, `defaultCodec.Decode`
* `transport/transport.go`    : `framer`, `NewFramer`, `Resize`, `ReadFrame`
* `transport/server_transport/server_transport.go` : `addRspHeader`
* `client/client.go`          : the response check at the end of `invoke`
* `server.go`                 : `getServiceMethods` (the synthesized handler),
                                `Server.Register`, `checkMethod`
* `serialization`, `selector`, `selector/loadbalance`, `codec` : the name registries
* `client/client.go`, `client/client_options.go` : `Invoke`, `Call`, the options
* `pool/connpool/connection_pool.go` : the `Dial` closure, `sonConnPool.Get`
* `transport/server_transport/server_transport.go` : `handle`, `read`, `write`,
                                `handleConn`
* `selector/loadbalance`      : `roundRobinPicker.pick`, `wRoundRobinPicker.pick`,
                                `getWeightedNode`

Conventions. A Go byte is a `Fin 256`; a Go slice is a `List`; a Go `(value, error)`
pair is a pair of `Option`s (`none` is `nil`); a run-time panic is the `panic`
constructor of `Outcome`. Unsigned conversions are written with an explicit `% 2 ^ w`.
Instants and durations are integers (nanoseconds); a clock reading `time.Now()` is an
argument of the function that takes it.
-/

namespace Lrpcx

/-! ## Shared data model -/

/-- A Go `byte`. -/
abbrev Byte := Fin 256

/-- The byte with value `n mod 256` (the Go conversion `uint8(n)`). -/
def byteOf (n : Nat) : Byte := ⟨n % 256, Nat.mod_lt n (by decide)⟩

/-- The value of Go's `int` (64 bits, two's complement) that an arithmetic operation
leaves when its result in the integers is `x`: `x` reduced modulo `2^64` into the range
`-2^63 .. 2^63 - 1`. -/
def wrapInt (x : Int) : Int := (x + 2 ^ 63) % 2 ^ 64 - 2 ^ 63

/-- Result of a Go call: it returns `v`, panics at run time, or ends the process
through `log.Fatalf`. -/
inductive Outcome (α : Type) where
  | ret (v : α)
  | panic (msg : String)
  | fatal (msg : String)
  deriving DecidableEq, Repr

namespace codes

/-- The error taxonomy of spec section 7. -/
inductive ErrType where
  | Framework
  | Business
  deriving DecidableEq, Repr

/-- Modelled from the spec: the struct `codes.Error` (package `codes` is not part of the
sources at hand). Spec section 7: errors carry a 32-bit code, a message and a type. -/
structure Error where
  Code : Int
  Message : String
  Kind : ErrType
  deriving DecidableEq, Repr

/-- Modelled from the spec: `codes.OK`, the return code of a successful call
(spec 4.10 step 9: `ret_code=0` on success). -/
def OK : Int := 0

/-- Modelled from the spec: `codes.New(code, msg)`, the error `Error{code, message}`
that carries a user (business) code and message (spec 4.5 step 12, section 7). -/
def New (code : Int) (msg : String) : Error :=
  { Code := code, Message := msg, Kind := ErrType.Business }

/-- Modelled from the spec: `codes.NewFrameworkError(code, msg)`, an `Error` of the
framework kind with the given code and message (spec section 7). -/
def NewFrameworkError (code : Int) (msg : String) : Error :=
  { Code := code, Message := msg, Kind := ErrType.Framework }

/-- The constants of package `codes` whose values the sources at hand do not show; the
definitions below take them as a parameter. -/
structure Consts where
  ClientMsgErrorCode : Int
  ServerInternalErrorCode : Int
  ServerInternalErrorMessage : String
  deriving DecidableEq, Repr

end codes

/-- A Go `error` value that is not `nil`. `codes e` is an interface value holding a
`*codes.Error` (the pointer itself may be nil: `e = none`); `other` is any error of
another dynamic type. -/
inductive GoError where
  | EOF
  | ErrUnexpectedEOF
  | codes (e : Option codes.Error)
  | other (msg : String)
  deriving DecidableEq, Repr

/-- A Go `([]byte, error)` result pair; `none` stands for `nil`. -/
abbrev BytesErr := Option (List Byte) × Option GoError

/-! ## codec/codec.go -/

namespace codec

def FrameHeadLen : Nat := 15

def Magic : Nat := 0x11

def Version : Nat := 0

/-- The struct `FrameHeader`; every field holds the value of its unsigned Go type. -/
structure FrameHeader where
  Magic : Nat := 0
  Version : Nat := 0
  MsgType : Nat := 0
  ReqType : Nat := 0
  CompressType : Nat := 0
  StreamID : Nat := 0
  Length : Nat := 0
  Reserved : Nat := 0
  deriving DecidableEq, Repr

/-- Big-endian bytes of a `uint8`. -/
def putUint8 (v : Nat) : List Byte := [byteOf v]

/-- Big-endian bytes of a `uint16`. -/
def putUint16 (v : Nat) : List Byte := [byteOf (v / 2 ^ 8), byteOf v]

/-- Big-endian bytes of a `uint32`. -/
def putUint32 (v : Nat) : List Byte :=
  [byteOf (v / 2 ^ 24), byteOf (v / 2 ^ 16), byteOf (v / 2 ^ 8), byteOf v]

/-- The call `binary.BigEndian.Uint32(b)` on a slice of at least four bytes. -/
def bigEndianUint32 (b : List Byte) : Nat :=
  (b.getD 0 0).val * 2 ^ 24 + (b.getD 1 0).val * 2 ^ 16 + (b.getD 2 0).val * 2 ^ 8
    + (b.getD 3 0).val

/-- The call `binary.Write(buffer, binary.BigEndian, v)` on a `bytes.Buffer`, for a value
of fixed size whose big-endian bytes are `enc`: the bytes are appended and the error is
nil (a `bytes.Buffer` write does not fail). -/
def binaryWrite (buffer : List Byte) (enc : List Byte) : List Byte × Option GoError :=
  (buffer ++ enc, none)

/-- The method `defaultCodec.Encode`. -/
def Encode (data : List Byte) : BytesErr :=
  let buffer : List Byte := []
  let frame : FrameHeader :=
    { Magic := Magic, Version := Version, MsgType := 0x0, ReqType := 0x0,
      CompressType := 0x0, Length := data.length % 2 ^ 32 }
  match binaryWrite buffer (putUint8 frame.Magic) with
  | (_, some err) => (none, some err)
  | (buffer, none) =>
  match binaryWrite buffer (putUint8 frame.Version) with
  | (_, some err) => (none, some err)
  | (buffer, none) =>
  match binaryWrite buffer (putUint8 frame.MsgType) with
  | (_, some err) => (none, some err)
  | (buffer, none) =>
  match binaryWrite buffer (putUint8 frame.ReqType) with
  | (_, some err) => (none, some err)
  | (buffer, none) =>
  match binaryWrite buffer (putUint8 frame.CompressType) with
  | (_, some err) => (none, some err)
  | (buffer, none) =>
  match binaryWrite buffer (putUint16 frame.StreamID) with
  | (_, some err) => (none, some err)
  | (buffer, none) =>
  match binaryWrite buffer (putUint32 frame.Length) with
  | (_, some err) => (none, some err)
  | (buffer, none) =>
  match binaryWrite buffer (putUint32 frame.Reserved) with
  | (_, some err) => (none, some err)
  | (buffer, none) =>
  match binaryWrite buffer data with
  | (_, some err) => (none, some err)
  | (buffer, none) => (some buffer, none)

/-- The method `defaultCodec.Decode`: the slice expression `frame[FrameHeadLen:]`, which
panics on a frame shorter than the header. -/
def Decode (frame : List Byte) : Outcome BytesErr :=
  if FrameHeadLen ≤ frame.length then Outcome.ret (some (frame.drop FrameHeadLen), none)
  else Outcome.panic "slice bounds out of range"

/-- The fifteen header bytes that `Encode` writes in front of a body of `n` bytes. -/
def headerBytes (n : Nat) : List Byte :=
  [0x11, 0, 0, 0, 0, 0, 0,
   byteOf (n / 2 ^ 24), byteOf (n / 2 ^ 16), byteOf (n / 2 ^ 8), byteOf n,
   0, 0, 0, 0]

end codec

/-! ## transport/transport.go -/

namespace transport

def DefaultPayloadLength : Nat := 1024

def MaxPayloadLength : Nat := 4 * 1024 * 1024

/-- The reading side of a `net.Conn`: the bytes that are still to arrive, in order; after
the last of them the peer has closed the stream and a read reports `io.EOF`. -/
abbrev Conn := List Byte

/-- The struct `framer`. -/
structure framer where
  buffer : List Byte
  counter : Int
  deriving DecidableEq, Repr

/-- The constructor `NewFramer`. -/
def NewFramer : framer :=
  { buffer := List.replicate DefaultPayloadLength 0, counter := 0 }

/-- The method `framer.Resize`: a fresh zeroed buffer of twice the length. -/
def framer.Resize (f : framer) : framer :=
  { f with buffer := List.replicate (f.buffer.length * 2) 0 }

/-- What `io.ReadFull(conn, buf)` leaves behind: the contents of `buf`, the number of
bytes read, the error, and the rest of the stream. -/
structure ReadFullResult where
  buf : List Byte
  num : Nat
  err : Option GoError
  conn : Conn
  deriving DecidableEq, Repr

/-- The call `io.ReadFull(conn, buf)`: fills `buf` completely when the stream holds
enough bytes; otherwise it takes what is left and reports `io.EOF` (nothing read) or
`io.ErrUnexpectedEOF` (some bytes read). An empty `buf` reads nothing and succeeds. -/
def ioReadFull (conn : Conn) (buf : List Byte) : ReadFullResult :=
  if buf.length ≤ conn.length then
    { buf := conn.take buf.length, num := buf.length, err := none,
      conn := conn.drop buf.length }
  else if conn.isEmpty then
    { buf := buf, num := 0, err := some GoError.EOF, conn := [] }
  else
    { buf := conn ++ buf.drop conn.length, num := conn.length,
      err := some GoError.ErrUnexpectedEOF, conn := [] }

/-- The loop `for uint32(len(f.buffer)) < length && f.counter <= 12`, with
`Resize` and `counter++` as its body, run for at most `fuel` iterations. -/
def growLoop : Nat → framer → Nat → framer
  | 0, f, _ => f
  | fuel + 1, f, length =>
    if f.buffer.length % 2 ^ 32 < length ∧ f.counter ≤ 12 then
      growLoop fuel { f.Resize with counter := f.counter + 1 } length
    else f

/-- The resize loop of `ReadFrame`. Every iteration increments the counter and the loop
stops once the counter exceeds 12, so `13 - counter` iterations always suffice
(see `grow_unfold`). -/
def framer.grow (f : framer) (length : Nat) : framer :=
  growLoop (13 - f.counter).toNat f length

/-- The method `framer.ReadFrame`: the outcome, the framer afterwards, and the rest of
the stream. -/
def framer.ReadFrame (K : codes.Consts) (f : framer) (conn : Conn) :
    Outcome BytesErr × framer × Conn :=
  let r := ioReadFull conn (List.replicate codec.FrameHeadLen 0)
  if r.num ≠ codec.FrameHeadLen ∨ r.err ≠ none then (Outcome.ret (none, r.err), f, r.conn)
  else
    let frameHeader := r.buf
    let magic := (frameHeader.getD 0 0).val
    if magic ≠ codec.Magic then
      (Outcome.ret (none, some (GoError.codes (some
        (codes.NewFrameworkError K.ClientMsgErrorCode "invalid magic...")))), f, r.conn)
    else
      let length := codec.bigEndianUint32 ((frameHeader.drop 7).take 4)
      if length > MaxPayloadLength then
        (Outcome.ret (none, some (GoError.codes (some
          (codes.NewFrameworkError K.ClientMsgErrorCode "payload too large...")))), f, r.conn)
      else
        let f := f.grow length
        if f.buffer.length < length then
          (Outcome.panic "slice bounds out of range", f, r.conn)
        else
          let r2 := ioReadFull r.conn (f.buffer.take length)
          let f := { f with buffer := r2.buf ++ f.buffer.drop length }
          if r2.num % 2 ^ 32 ≠ length ∨ r2.err ≠ none then
            (Outcome.ret (none, r2.err), f, r2.conn)
          else
            (Outcome.ret (some (frameHeader ++ f.buffer.take length), none), f, r2.conn)

/-- The outcomes of `k` successive `ReadFrame` calls on one framer and one stream, with
the framer and the stream left after the last call. -/
def readFrames (K : codes.Consts) : Nat → framer → Conn →
    List (Outcome BytesErr) × framer × Conn
  | 0, f, conn => ([], f, conn)
  | k + 1, f, conn =>
    let r := f.ReadFrame K conn
    let rs := readFrames K k r.2.1 r.2.2
    (r.1 :: rs.1, rs.2.1, rs.2.2)

/-- The byte stream made of the frames of the given bodies, written back to back. -/
def frameStream : List (List Byte) → Conn
  | [] => []
  | b :: bs => ((codec.Encode b).1.getD []) ++ frameStream bs

/-- The framer invariant: the buffer has been doubled `counter` times from its initial
1024 bytes, at most twelve times. -/
def framer.inv (f : framer) : Prop :=
  ∃ c : Nat, c ≤ 12 ∧ f.counter = (c : Int) ∧ f.buffer.length = 1024 * 2 ^ c

/-- The outcome `payload too large` of `ReadFrame`. -/
def payloadTooLarge (K : codes.Consts) : Outcome BytesErr :=
  Outcome.ret (none, some (GoError.codes (some
    (codes.NewFrameworkError K.ClientMsgErrorCode "payload too large..."))))

end transport

/-! ## The response envelope: server_transport.go and client.go -/

namespace protocol

/-- Modelled from the spec: the response envelope `protocol.Response` (package `protocol`
is generated code that is not part of the sources at hand). Spec section 6:
`Response: { payload: bytes, ret_code: int32, ret_msg: string }`. -/
structure Response where
  Payload : Option (List Byte)
  RetCode : Int
  RetMsg : String
  deriving DecidableEq, Repr

end protocol

namespace server_transport

/-- The function `addRspHeader`. The type assertion `err.(*codes.Error)` succeeds on
every interface value that holds a `*codes.Error`; reading `e.Code` through a nil
pointer panics. -/
def addRspHeader (K : codes.Consts) (payload : Option (List Byte)) (err : Option GoError) :
    Outcome protocol.Response :=
  let response : protocol.Response :=
    { Payload := payload, RetCode := codes.OK, RetMsg := "success" }
  match err with
  | none => Outcome.ret response
  | some (GoError.codes (some e)) =>
    Outcome.ret { response with RetCode := e.Code, RetMsg := e.Message }
  | some (GoError.codes none) => Outcome.panic "nil pointer dereference"
  | some _ =>
    Outcome.ret { response with RetCode := K.ServerInternalErrorCode,
                                RetMsg := K.ServerInternalErrorMessage }

end server_transport

namespace client

/-- The end of `defaultClient.invoke`, from the parsed response envelope on
(client.go, lines 147 to 151): a non-zero `RetCode` is returned as `codes.New`, and
otherwise the result is that of `serialization.Unmarshal(response.Payload, rsp)`, here
the function `Unmarshal`. -/
def invokeResponse (Unmarshal : Option (List Byte) → Option GoError)
    (response : protocol.Response) : Option GoError :=
  if response.RetCode ≠ 0 then
    some (GoError.codes (some (codes.New response.RetCode response.RetMsg)))
  else
    Unmarshal response.Payload

end client

/-! ## server.go and service.go -/

namespace interceptor

/-- The type `interceptor.ServerHandler`: `(ctx, req)` to `(rsp, err)`. -/
abbrev ServerHandler (Ctx Req Resp : Type) := Ctx → Req → Option Resp × Option GoError

/-- The type `interceptor.ServerInterceptor`: `(ctx, req, handler)` to `(rsp, err)`. -/
abbrev ServerInterceptor (Ctx Req Resp : Type) :=
  Ctx → Req → ServerHandler Ctx Req Resp → Option Resp × Option GoError

/-- Modelled from the spec: `interceptor.ServerIntercept` (package `interceptor` is not
part of the sources at hand). Spec 4.9: chain composition is a strict right fold, the
interceptors `[I1, ..., In]` around the terminal operation `T` run as
`I1(ctx, ..., I2(ctx, ..., T))`. -/
def ServerIntercept {Ctx Req Resp : Type} (ctx : Ctx) (req : Req)
    (ceps : List (ServerInterceptor Ctx Req Resp)) (handler : ServerHandler Ctx Req Resp) :
    Option Resp × Option GoError :=
  (ceps.foldr (fun ic next => fun c r => ic c r next) handler) ctx req

end interceptor

/-- The values of `reflect.Kind` that the checked signatures can have. -/
inductive Kind where
  | Ptr
  | Struct
  | Interface
  | Int
  | String
  | Slice
  | Map
  | Func
  deriving DecidableEq, Repr

/-- What `checkMethod` reads of the `reflect.Type` of a parameter or a result. -/
structure paramType where
  Name : String
  Kind : Kind
  ImplementsContext : Bool
  ImplementsError : Bool
  deriving DecidableEq, Repr

/-- The `reflect.Type` of a method: its name and the types of its in-parameters
(receiver first) and of its results. -/
structure methodType where
  Name : String
  In : List paramType
  Out : List paramType
  deriving DecidableEq, Repr

/-- The function `checkMethod`; the result is the error, `none` for nil. The parameter
and result types are read after the arity checks, which keep the indexes in range. -/
def checkMethod (method : methodType) : Option GoError :=
  if hin : method.In.length < 3 then
    some (GoError.other ("method " ++ method.Name ++ " invalid, the number of params < 2"))
  else if hout : method.Out.length ≠ 2 then
    some (GoError.other
      ("method " ++ method.Name ++ " invalid, the number of return values != 2"))
  else
    let ctxType := method.In.get ⟨1, by omega⟩
    if !ctxType.ImplementsContext then
      some (GoError.other ("method " ++ method.Name ++ " invalid, first param is not context"))
    else
      let argType := method.In.get ⟨2, by omega⟩
      if argType.Kind ≠ Kind.Ptr then
        some (GoError.other
          ("method " ++ method.Name ++ " invalid, req type is not a pointer"))
      else
        let replyType := method.Out.get ⟨0, by omega⟩
        if replyType.Kind ≠ Kind.Ptr then
          some (GoError.other
            ("method " ++ method.Name ++ " invalid, reply type is not a pointer"))
        else
          let errType := method.Out.get ⟨1, by omega⟩
          if !errType.ImplementsError then
            some (GoError.other ("method " ++ method.Name ++ " invalid, returns "
              ++ errType.Name ++ " , not error"))
          else none

/-- A method of the service object as reflection shows it (`reflect.Method`): its name,
its type, and what `method.Func.Call` with the receiver, a context and a request gives,
namely the two result values `values[0]` and `values[1]`. `zeroReq` is the fresh request
`reflect.New(reqType.Elem())`. `Call` describes the call for a method type with exactly
three in-parameters; for a method type with more of them, which is not variadic,
`method.Func.Call` with these three values panics, and `Call` says nothing about it. -/
structure reflectMethod (Ctx Req Resp : Type) where
  Name : String
  Typ : methodType
  Call : Ctx → Req → Resp × Option GoError
  zeroReq : Req

/-- The type `Handler` of service.go: context, server object, decode closure and
interceptors to `(rsp, err)`. The decode closure fills the request it is given and
returns its error. -/
abbrev Handler (Ctx Req Resp Svr : Type) :=
  Ctx → Svr → (Req → Req × Option GoError) →
    List (interceptor.ServerInterceptor Ctx Req Resp) → Option Resp × Option GoError

/-- The closure `methodHandler` that `getServiceMethods` builds for a method. -/
def methodHandler {Ctx Req Resp Svr : Type} (method : reflectMethod Ctx Req Resp) :
    Handler Ctx Req Resp Svr :=
  fun ctx _svr dec ceps =>
    let decoded := dec method.zeroReq
    let req := decoded.1
    match decoded.2 with
    | some err => (none, some err)
    | none =>
      if ceps.length = 0 then
        let values := method.Call ctx req
        (some values.1, none)
      else
        let handler : interceptor.ServerHandler Ctx Req Resp := fun ctx _reqbody =>
          let values := method.Call ctx req
          (some values.1, none)
        interceptor.ServerIntercept ctx req ceps handler

/-- The struct `MethodDesc`. -/
structure MethodDesc (H : Type) where
  MethodName : String
  Handler : H

/-- The struct `ServiceDesc`; `Methods` is a slice of pointers, `none` a nil pointer. -/
structure ServiceDesc (S H T : Type) where
  Svr : Option S
  ServiceName : String
  Methods : List (Option (MethodDesc H))
  HandlerType : T

/-- The loop of `getServiceMethods` over the methods of the service type. -/
def getServiceMethodsLoop {Ctx Req Resp Svr : Type} :
    List (reflectMethod Ctx Req Resp) → List (Option (MethodDesc (Handler Ctx Req Resp Svr))) →
      Option (List (Option (MethodDesc (Handler Ctx Req Resp Svr)))) × Option GoError
  | [], methods => (some methods, none)
  | method :: rest, methods =>
    match checkMethod method.Typ with
    | some err => (none, some err)
    | none =>
      getServiceMethodsLoop rest
        (methods ++ [some { MethodName := method.Name, Handler := methodHandler method }])

/-- The function `getServiceMethods`. -/
def getServiceMethods {Ctx Req Resp Svr : Type} (serviceMethods : List (reflectMethod Ctx Req Resp)) :
    Option (List (Option (MethodDesc (Handler Ctx Req Resp Svr)))) × Option GoError :=
  getServiceMethodsLoop serviceMethods []

/-- A Go `map[string]V` as its lookup function. -/
abbrev GoMap (V : Type) := String → Option V

/-- The map `make(map[string]V)`. -/
def GoMap.empty {V : Type} : GoMap V := fun _ => none

/-- The assignment `m[k] = v`. -/
def GoMap.set {V : Type} (m : GoMap V) (k : String) (v : V) : GoMap V :=
  fun k2 => if k2 = k then some v else m k2

/-- The struct `service` (its context and cancel function are left out). -/
structure service (S H O : Type) where
  svr : Option S
  serviceName : String
  handlers : GoMap H
  opts : Option O
  closing : Bool

/-- The struct `Server`. -/
structure Server (S H O P : Type) where
  opts : O
  service : service S H O
  plugins : List P
  closing : Bool

/-- The loop `for _, method := range sd.Methods` of `Server.Register`: every method is
stored under its name; reading through a nil `*MethodDesc` panics. -/
def registerLoop {H : Type} : GoMap H → List (Option (MethodDesc H)) → Outcome (GoMap H)
  | handlers, [] => Outcome.ret handlers
  | _, none :: _ => Outcome.panic "nil pointer dereference"
  | handlers, some method :: rest =>
    registerLoop (handlers.set method.MethodName method.Handler) rest

/-- The method `Server.Register`. `implementsHandlerType ht svr` stands for the
reflection test `reflect.TypeOf(svr).Implements(reflect.TypeOf(sd.HandlerType).Elem())`,
which may itself panic; when it is false, `log.Fatalf` ends the process. -/
def Server.Register {S H O P T : Type} (implementsHandlerType : T → S → Outcome Bool)
    (s : Server S H O P) (sd : Option (ServiceDesc S H T)) (svr : Option S) :
    Outcome (Server S H O P) :=
  match sd, svr with
  | none, _ => Outcome.ret s
  | some _, none => Outcome.ret s
  | some sd, some svr =>
    match implementsHandlerType sd.HandlerType svr with
    | Outcome.panic msg => Outcome.panic msg
    | Outcome.fatal msg => Outcome.fatal msg
    | Outcome.ret false => Outcome.fatal "handlerType not match service"
    | Outcome.ret true =>
      match registerLoop GoMap.empty sd.Methods with
      | Outcome.panic msg => Outcome.panic msg
      | Outcome.fatal msg => Outcome.fatal msg
      | Outcome.ret handlers =>
        Outcome.ret { s with service :=
          { svr := some svr, serviceName := sd.ServiceName, handlers := handlers,
            opts := none, closing := false } }

/-! ## The extension registries -/

/-- The lookup `v, ok := m[name]` in a map variable that may still be nil (`none`):
a nil map has no entries. -/
def GoMap.lookup {V : Type} (m : Option (GoMap V)) (name : String) : Option V :=
  match m with
  | none => none
  | some m => m name

namespace serialization

/-- The implementations of the interface `Serialization`, one name for each object:
the two of this package and any other one a caller may hold. -/
inductive Serialization where
  | pbSerialization
  | MsgpackSerialization
  | custom (id : Nat)
  deriving DecidableEq, Repr

def Protobuf : String := "protobuf"

def MsgPack : String := "msgpack"

def Json : String := "json"

/-- The variable `DefaultSerialization`, the value `&pbSerialization{}` of
`NewSerialization()`. -/
def DefaultSerialization : Serialization := Serialization.pbSerialization

/-- The function `registerSerialization`; the result is the map variable afterwards. -/
def registerSerialization (serializationMap : Option (GoMap Serialization)) (name : String)
    (serialization : Serialization) : Option (GoMap Serialization) :=
  let serializationMap :=
    match serializationMap with
    | none => GoMap.empty
    | some m => m
  some (serializationMap.set name serialization)

/-- The map variable `serializationMap` after package initialization: the variable
initializer `make(map[string]Serialization)`, then the two calls of `init`. -/
def serializationMapAfterInit : Option (GoMap Serialization) :=
  registerSerialization
    (registerSerialization (some GoMap.empty) Protobuf DefaultSerialization)
    MsgPack Serialization.MsgpackSerialization

/-- The function `GetSerialization`. -/
def GetSerialization (serializationMap : Option (GoMap Serialization)) (name : String) :
    Serialization :=
  match GoMap.lookup serializationMap name with
  | some v => v
  | none => DefaultSerialization

end serialization

namespace loadbalance

/-- The implementations of the interface `Balancer`, one name for each object: the four
package variables and any other one a caller may hold. -/
inductive Balancer where
  | RandomBalancer
  | RRBalancer
  | WRRBalancer
  | ConsistHashBalancer
  | custom (id : Nat)
  deriving DecidableEq, Repr

def Random : String := "random"

def RoundRobin : String := "roundRobin"

def WeightedRoundRobin : String := "weightedRoundRobin"

def ConsistentHash : String := "consistentHash"

/-- The function `RegisterBalancer`; the result is the map variable afterwards. -/
def RegisterBalancer (balancerMap : Option (GoMap Balancer)) (name : String)
    (balancer : Balancer) : Option (GoMap Balancer) :=
  let balancerMap :=
    match balancerMap with
    | none => GoMap.empty
    | some m => m
  some (balancerMap.set name balancer)

/-- The map variable `balancerMap` after package initialization. -/
def balancerMapAfterInit : Option (GoMap Balancer) :=
  RegisterBalancer
    (RegisterBalancer
      (RegisterBalancer
        (RegisterBalancer (some GoMap.empty) Random Balancer.RandomBalancer)
        RoundRobin Balancer.RRBalancer)
      WeightedRoundRobin Balancer.WRRBalancer)
    ConsistentHash Balancer.ConsistHashBalancer

/-- The function `GetBalancer`. -/
def GetBalancer (balancerMap : Option (GoMap Balancer)) (name : String) : Balancer :=
  match GoMap.lookup balancerMap name with
  | some balancer => balancer
  | none => Balancer.RandomBalancer

end loadbalance

namespace codec

/-- The implementations of the interface `Codec`, one name for each object. -/
inductive Codec where
  | defaultCodec
  | custom (id : Nat)
  deriving DecidableEq, Repr

/-- The variable `DefaultCodec`, the value `&defaultCodec{}` of `NewCodec()`. -/
def DefaultCodec : Codec := Codec.defaultCodec

/-- The function `RegisterCodec`; the result is the map variable afterwards. -/
def RegisterCodec (codecMap : Option (GoMap Codec)) (name : String) (codec : Codec) :
    Option (GoMap Codec) :=
  let codecMap :=
    match codecMap with
    | none => GoMap.empty
    | some m => m
  some (codecMap.set name codec)

/-- The map variable `codecMap` after package initialization. -/
def codecMapAfterInit : Option (GoMap Codec) :=
  RegisterCodec (some GoMap.empty) "proto" DefaultCodec

/-- The function `GetCodec`. -/
def GetCodec (codecMap : Option (GoMap Codec)) (name : String) : Codec :=
  match GoMap.lookup codecMap name with
  | some codec => codec
  | none => DefaultCodec

end codec

namespace selector

/-- The implementations of the interface `Selector`, one name for each object. -/
inductive Selector where
  | defaultSelector
  | custom (id : Nat)
  deriving DecidableEq, Repr

/-- The variable `DefaultSelector`. -/
def DefaultSelector : Selector := Selector.defaultSelector

/-- The function `RegisterSelector`; the result is the map variable afterwards. -/
def RegisterSelector (selectorMap : Option (GoMap Selector)) (name : String)
    (selector : Selector) : Option (GoMap Selector) :=
  let selectorMap :=
    match selectorMap with
    | none => GoMap.empty
    | some m => m
  some (selectorMap.set name selector)

/-- The map variable `selectorMap` after package initialization. -/
def selectorMapAfterInit : Option (GoMap Selector) :=
  RegisterSelector (some GoMap.empty) "default" DefaultSelector

/-- The function `GetSelector`. -/
def GetSelector (selectorMap : Option (GoMap Selector)) (name : String) : Selector :=
  match GoMap.lookup selectorMap name with
  | some selector => selector
  | none => DefaultSelector

/-- The struct `Node`. -/
structure Node where
  Key : String
  Value : List Byte
  Weight : Int
  deriving DecidableEq, Repr

end selector

/-- The outcome of `ReadFrame` without the fifteen header bytes of a returned frame:
what is left is the body, the error, or the panic. -/
def transport.withoutHeader : Outcome BytesErr → Outcome BytesErr
  | Outcome.ret (some frame, err) => Outcome.ret (some (frame.drop codec.FrameHeadLen), err)
  | o => o

/-- The implementation most recently registered under `name` by the registrations
`regs` (made in list order), if there is one. -/
def lastRegistered {V : Type} (regs : List (String × V)) (name : String) : Option V :=
  (regs.reverse.find? (fun r => r.1 = name)).map (fun r => r.2)

/-! ## Time and contexts (the parts of the Go library the code relies on) -/

namespace time

/-- The least and the greatest `time.Duration`, in nanoseconds. -/
def minDuration : Int := -(2 ^ 63)

def maxDuration : Int := 2 ^ 63 - 1

/-- The method `t.Sub(u)` on instants given in nanoseconds: the difference, saturated
to the range of `time.Duration`. -/
def Sub (t u : Int) : Int :=
  if t - u < minDuration then minDuration
  else if t - u > maxDuration then maxDuration
  else t - u

end time

namespace stream

/-- Modelled from the spec: the per-call carrier `stream.ClientStream` (package `stream`
is not part of the sources at hand). Spec 4.5 step 4: it holds the service name and the
method of the call. -/
structure ClientStream where
  ServiceName : String
  Method : String
  deriving DecidableEq, Repr

end stream

namespace context

/-- What the code reads of a `context.Context`: its deadline in nanoseconds
(`ctx.Deadline()`), its error (`ctx.Err()`, non-nil exactly when `ctx.Done()` is
closed) and the client stream carrier stored in it. -/
structure Context where
  deadline : Option Int
  err : Option GoError
  clientStream : Option stream.ClientStream
  deriving DecidableEq, Repr

/-- The context `context.Background()`. -/
def Background : Context := { deadline := none, err := none, clientStream := none }

/-- The error `context.DeadlineExceeded`. -/
def DeadlineExceeded : GoError := GoError.other "context deadline exceeded"

/-- The context of `context.WithTimeout(parent, timeout)` called at the instant `now`:
its deadline is the earlier of the parent's deadline and `now + timeout`, and it is
done from the start when that deadline has passed. -/
def WithTimeout (parent : Context) (now timeout : Int) : Context :=
  let d : Int :=
    match parent.deadline with
    | some p => min p (now + timeout)
    | none => now + timeout
  { parent with
    deadline := some d,
    err := match parent.err with
      | some e => some e
      | none => if d ≤ now then some DeadlineExceeded else none }

end context

namespace stream

/-- Modelled from the spec: `stream.NewClientStream(ctx)`, which attaches a fresh carrier
to the context (spec 4.5 step 4); deadline and cancellation are those of `ctx`. -/
def NewClientStream (ctx : context.Context) : context.Context :=
  { ctx with clientStream := some { ServiceName := "", Method := "" } }

end stream

/-! ## client/client_options.go and client/client.go: `Invoke` -/

namespace client

/-- The struct `ClientOptions` (without `transportOpts`, which no option sets); `I` is
the type of the client interceptors. -/
structure ClientOptions (I : Type) where
  serviceName : String
  method : String
  target : String
  timeout : Int
  network : String
  protocol : String
  serializationType : String
  interceptors : List I
  selectorName : String

/-- The type `ClientOption`: a Go `func(*ClientOptions)`, which updates the options it
points to, as the function from the options before to the options after. -/
abbrev ClientOption (I : Type) := ClientOptions I → ClientOptions I

def WithServiceName {I : Type} (serviceName : String) : ClientOption I :=
  fun o => { o with serviceName := serviceName }

def WithMethod {I : Type} (method : String) : ClientOption I :=
  fun o => { o with method := method }

def WithTarget {I : Type} (target : String) : ClientOption I :=
  fun o => { o with target := target }

def WithTimeout {I : Type} (timeout : Int) : ClientOption I :=
  fun o => { o with timeout := timeout }

def WithNetwork {I : Type} (network : String) : ClientOption I :=
  fun o => { o with network := network }

def WithProtocol {I : Type} (protocol : String) : ClientOption I :=
  fun o => { o with protocol := protocol }

def WithSerializationType {I : Type} (serializationType : String) : ClientOption I :=
  fun o => { o with serializationType := serializationType }

def WithSelectorName {I : Type} (selectorName : String) : ClientOption I :=
  fun o => { o with selectorName := selectorName }

def WithInterceptor {I : Type} (interceptors : List I) : ClientOption I :=
  fun o => { o with interceptors := o.interceptors ++ interceptors }

/-- The struct `defaultClient`: `opts` is the options object its pointer field refers to,
shared by all calls on the client. -/
structure defaultClient (I : Type) where
  opts : ClientOptions I

/-- The constructor `New`. -/
def New {I : Type} : defaultClient I :=
  { opts := { serviceName := "", method := "", target := "", timeout := 0, network := "",
              protocol := "proto", serializationType := "", interceptors := [],
              selectorName := "" } }

/-- The functions of other packages that `Invoke` calls and the sources at hand do not
show: `utils.ParseServicePath(path)`, giving service name, method and error, and
`interceptor.ClientIntercept(newCtx, req, rsp, c.opts.interceptors, c.invoke)`, whose
result may depend on the context, on the interceptors and, through `c.invoke`, on the
client's options. -/
structure InvokeEnv (I : Type) where
  ParseServicePath : String → String × String × Option GoError
  ClientIntercept : context.Context → List I → ClientOptions I → Option GoError

/-- The method `defaultClient.Invoke`, called at the instant `now`: the error it returns
and the client afterwards. -/
def defaultClient.Invoke {I : Type} (env : InvokeEnv I) (c : defaultClient I)
    (ctx : context.Context) (now : Int) (path : String) (opts : List (ClientOption I)) :
    Option GoError × defaultClient I :=
  let c : defaultClient I := { c with opts := opts.foldl (fun o f => f o) c.opts }
  -- `_, cancel := context.WithTimeout(ctx, c.opts.timeout)`: the derived context is
  -- assigned to the blank identifier
  let _derived : Option context.Context :=
    if c.opts.timeout > 0 then some (context.WithTimeout ctx now c.opts.timeout) else none
  let newCtx := stream.NewClientStream ctx
  let parsed := env.ParseServicePath path
  match parsed.2.2 with
  | some err => (some err, c)
  | none =>
    let c : defaultClient I :=
      { c with opts := WithServiceName parsed.1 (WithMethod parsed.2.1 c.opts) }
    let newCtx : context.Context :=
      { newCtx with clientStream := some { ServiceName := parsed.1, Method := parsed.2.1 } }
    (env.ClientIntercept newCtx c.opts.interceptors c.opts, c)

/-- The method `defaultClient.Call`. -/
def defaultClient.Call {I : Type} (env : InvokeEnv I) (c : defaultClient I)
    (ctx : context.Context) (now : Int) (servicePath : String) (opts : List (ClientOption I)) :
    Option GoError × defaultClient I :=
  let callOpts := opts ++ [WithSerializationType serialization.MsgPack]
  c.Invoke env ctx now servicePath callOpts

end client

/-! ## pool/connpool/connection_pool.go -/

namespace connpool

/-- Modelled from the spec: the struct `PoolConn` (its file is not part of the sources at
hand). Spec 4.7: a wrapped raw connection that can be marked unusable and carries the
time of its last return to the pool; `Conn` is `none` for a nil `net.Conn`. -/
structure PoolConn (C : Type) where
  Conn : Option C
  unusable : Bool
  t : Int
  deriving DecidableEq, Repr

/-- Modelled from the spec: the error variable `ErrConnClosed` (not part of the sources
at hand), the error of a closed pool or connection. -/
def ErrConnClosed : GoError := GoError.other "connection closed"

/-- A buffered Go channel: the values waiting in it, oldest first, and whether it has
been closed. -/
structure chan (α : Type) where
  buf : List α
  closed : Bool
  deriving DecidableEq, Repr

/-- The struct `sonConnPool` (without the embedded `net.Conn`, the mutex and the function
field `Dial`, whose result is a parameter of `Get`); `conns` is `none` for a nil
channel. -/
structure sonConnPool (C : Type) where
  initialCap : Int
  maxCap : Int
  maxIdle : Int
  idleTimeout : Int
  dialTimeout : Int
  conns : Option (chan (Option (PoolConn C)))
  deriving DecidableEq, Repr

/-- Modelled from the spec: the method `wrapConn` (not part of the sources at hand),
called at the instant `now`. Spec 4.7: the returned `PoolConn` wraps the raw socket; a
fresh wrapper is not marked unusable. -/
def sonConnPool.wrapConn {C : Type} (_c : sonConnPool C) (conn : Option C) (now : Int) :
    PoolConn C :=
  { Conn := conn, unusable := false, t := now }

/-- The value of the local variable `timeout` of the `Dial` closure built by
`NewSonConnPool`, for the pool option `dialTimeout`, the context `ctx` and the clock
reading `now`. -/
def dialTimeoutOf (dialTimeout : Int) (ctx : context.Context) (now : Int) : Int :=
  let timeout := dialTimeout
  match ctx.deadline with
  | some t => time.Sub t now
  | none => timeout

/-- The `Dial` closure built by `NewSonConnPool`; `netDialTimeout timeout` stands for
`net.DialTimeout(network, address, timeout)`. -/
def Dial {C : Type} (netDialTimeout : Int → Option C × Option GoError) (dialTimeout : Int)
    (ctx : context.Context) (now : Int) : Option C × Option GoError :=
  match ctx.err with
  | some err => (none, some err)
  | none => netDialTimeout (dialTimeoutOf dialTimeout ctx now)

/-- The method `sonConnPool.Get`, called at the instant `now`: its result pair and the
pool afterwards. `dial` is what `c.Dial(ctx)` returns if it is called. -/
def sonConnPool.Get {C : Type} (c : sonConnPool C) (dial : Option C × Option GoError)
    (now : Int) : (Option (PoolConn C) × Option GoError) × sonConnPool C :=
  match c.conns with
  | none => ((none, some ErrConnClosed), c)
  | some ch =>
    match ch.buf with
    | pc :: rest =>
      let c : sonConnPool C := { c with conns := some { ch with buf := rest } }
      match pc with
      | none => ((none, some ErrConnClosed), c)
      | some pc =>
        if pc.unusable then ((none, some ErrConnClosed), c)
        else ((some pc, none), c)
    | [] =>
      if ch.closed then
        -- a receive from a closed, drained channel yields the nil pointer
        ((none, some ErrConnClosed), c)
      else
        match dial with
        | (_, some err) => ((none, some err), c)
        | (conn, none) => ((some (c.wrapConn conn now), none), c)

end connpool

/-! ## server_transport.go: the per-connection loop -/

namespace server_transport

/-- A connection as `handleConn` sees it (`transport.ConnWrapper`): the bytes still to
arrive, the framer, the errors of the `conn.Write` calls still to come (one entry per
call, `none` for success; when the list is used up the writes succeed), what has been
handed to `conn.Write`, and whether `Close` has been called. -/
structure ConnWrapper where
  input : transport.Conn
  Framer : transport.framer
  writeErrs : List (Option GoError)
  written : List (Option (List Byte))
  closed : Bool
  deriving DecidableEq, Repr

/-- The calls of `handle` into other packages: the business handler
`s.opts.Handler.Handle(ctx, reqbuf)` and `proto.Marshal(response)`. -/
structure HandleEnv where
  Handle : Option (List Byte) → BytesErr
  protoMarshal : protocol.Response → BytesErr

/-- The method `serverTransport.handle`, with the default codec. -/
def handle (K : codes.Consts) (env : HandleEnv) (frame : Option (List Byte)) :
    Outcome BytesErr :=
  match codec.Decode (frame.getD []) with
  | Outcome.panic msg => Outcome.panic msg
  | Outcome.fatal msg => Outcome.fatal msg
  | Outcome.ret (_, some err) => Outcome.ret (none, some err)
  | Outcome.ret (reqbuf, none) =>
    let handled := env.Handle reqbuf
    match addRspHeader K handled.1 handled.2 with
    | Outcome.panic msg => Outcome.panic msg
    | Outcome.fatal msg => Outcome.fatal msg
    | Outcome.ret response =>
      match env.protoMarshal response with
      | (_, some err) => Outcome.ret (none, some err)
      | (rspPb, none) =>
        match codec.Encode (rspPb.getD []) with
        | (_, some err) => Outcome.ret (none, some err)
        | (rspbody, none) => Outcome.ret (rspbody, none)

/-- The method `serverTransport.write`: the error of `conn.Write` is printed, the result
is always nil. -/
def write (conn : ConnWrapper) (rsp : Option (List Byte)) : Option GoError × ConnWrapper :=
  let _err : Option GoError := conn.writeErrs.headD none
  (none, { conn with writeErrs := conn.writeErrs.tail, written := conn.written ++ [rsp] })

/-- The method `serverTransport.read`. -/
def read (K : codes.Consts) (conn : ConnWrapper) :
    Outcome BytesErr × ConnWrapper :=
  let r := conn.Framer.ReadFrame K conn.input
  let conn : ConnWrapper := { conn with Framer := r.2.1, input := r.2.2 }
  match r.1 with
  | Outcome.ret (_, some err) => (Outcome.ret (none, some err), conn)
  | Outcome.ret (frame, none) => (Outcome.ret (frame, none), conn)
  | o => (o, conn)

/-- The `for` loop of `handleConn`, run for at most `fuel` iterations, `none` when they
do not suffice; `i` counts the iterations made before and `ctxErr i` is `ctx.Err()` at
the start of iteration `i` (`none` while `ctx.Done()` is open). -/
def handleConnLoop (K : codes.Consts) (env : HandleEnv) (ctxErr : Nat → Option GoError) :
    Nat → Nat → ConnWrapper → Option (Outcome (Option GoError) × ConnWrapper)
  | 0, _, _ => none
  | fuel + 1, i, conn =>
    match ctxErr i with
    | some err => some (Outcome.ret (some err), conn)
    | none =>
      let r := read K conn
      let conn := r.2
      match r.1 with
      | Outcome.panic msg => some (Outcome.panic msg, conn)
      | Outcome.fatal msg => some (Outcome.fatal msg, conn)
      | Outcome.ret (_, some err) =>
        if err = GoError.EOF then some (Outcome.ret none, conn)
        else some (Outcome.ret (some err), conn)
      | Outcome.ret (frame, none) =>
        match handle K env frame with
        | Outcome.panic msg => some (Outcome.panic msg, conn)
        | Outcome.fatal msg => some (Outcome.fatal msg, conn)
        | Outcome.ret (rsp, _) =>
          let w := write conn rsp
          match w.1 with
          | some err => some (Outcome.ret (some err), w.2)
          | none => handleConnLoop K env ctxErr fuel (i + 1) w.2

/-- The method `serverTransport.handleConn`: the loop, then the deferred `conn.Close()`.
Every iteration that goes on has read a frame of at least fifteen bytes, so
`len(input) + 1` iterations always suffice (see `handleConnLoop_isSome`). -/
def handleConn (K : codes.Consts) (env : HandleEnv) (ctxErr : Nat → Option GoError)
    (conn : ConnWrapper) : Option (Outcome (Option GoError) × ConnWrapper) :=
  match handleConnLoop K env ctxErr (conn.input.length + 1) 0 conn with
  | none => none
  | some (o, conn) => some (o, { conn with closed := true })

end server_transport

/-! ## selector/loadbalance: round robin and weighted round robin -/

namespace loadbalance

/-- The index expression `nodes[i]` for a Go `int` index; `none` when the index is out
of range (a run-time panic). -/
def sliceAt {α : Type} (l : List α) (i : Int) : Option α :=
  if 0 ≤ i then l[i.toNat]? else none

/-- The struct `roundRobinPicker`; instants and durations are in nanoseconds. -/
structure roundRobinPicker where
  length : Int
  lastUpdateTime : Int
  duration : Int
  lastIndex : Int
  deriving DecidableEq, Repr

/-- The method `roundRobinPicker.pick` on a slice of (non-nil) node pointers; `now` and
`now2` are the two readings of `time.Now()`, the one of the refresh test and the one
stored on a refresh. -/
def roundRobinPicker.pick (rp : roundRobinPicker) (nodes : List selector.Node)
    (now now2 : Int) : Outcome (Option selector.Node) × roundRobinPicker :=
  if nodes.length = 0 then (Outcome.ret none, rp)
  else
    let rp : roundRobinPicker :=
      if time.Sub now rp.lastUpdateTime > rp.duration ∨ (nodes.length : Int) ≠ rp.length then
        { rp with length := nodes.length, lastUpdateTime := now2, lastIndex := 0 }
      else rp
    if rp.lastIndex = (nodes.length : Int) - 1 then
      let rp : roundRobinPicker := { rp with lastIndex := 0 }
      match sliceAt nodes 0 with
      | some node => (Outcome.ret (some node), rp)
      | none => (Outcome.panic "index out of range", rp)
    else
      let rp : roundRobinPicker := { rp with lastIndex := rp.lastIndex + 1 }
      match sliceAt nodes rp.lastIndex with
      | some node => (Outcome.ret (some node), rp)
      | none => (Outcome.panic "index out of range", rp)

/-- Successive `pick` calls on one picker with the same node list, one call for each
pair of clock readings: the outcomes in call order and the picker afterwards. -/
def roundRobinPicker.picks (rp : roundRobinPicker) (nodes : List selector.Node) :
    List (Int × Int) → List (Outcome (Option selector.Node)) × roundRobinPicker
  | [] => ([], rp)
  | t :: ts =>
    let r := rp.pick nodes t.1 t.2
    let rs := roundRobinPicker.picks r.2 nodes ts
    (r.1 :: rs.1, rs.2)

/-- The states a `roundRobinPicker` can be in: the cursor is not negative and, unless
it is 0, below the recorded length. -/
def roundRobinPicker.inv (rp : roundRobinPicker) : Prop :=
  0 ≤ rp.lastIndex ∧ (rp.lastIndex < rp.length ∨ rp.lastIndex = 0)

/-- The picker that `roundRobinBalancer.Balance` creates for a service it has not seen,
at the instant `now`, for a balancer with refresh duration `duration`. -/
def newRoundRobinPicker (duration : Int) (nodes : List selector.Node) (now : Int) :
    roundRobinPicker :=
  { lastUpdateTime := now, duration := duration, length := nodes.length, lastIndex := 0 }

/-- The struct `weightedNode`. -/
structure weightedNode where
  node : selector.Node
  weight : Int
  effectiveWeight : Int
  currentWeight : Int
  deriving DecidableEq, Repr

/-- The struct `wRoundRobinPicker`. -/
structure wRoundRobinPicker where
  nodes : List weightedNode
  lastUpdateTime : Int
  duration : Int
  deriving DecidableEq, Repr

/-- The function `getWeightedNode`. -/
def getWeightedNode (nodes : List selector.Node) : List weightedNode :=
  nodes.map (fun node =>
    { node := node, weight := node.Weight, currentWeight := node.Weight,
      effectiveWeight := node.Weight })

/-- The local variables `totalWeight`, `maxWeight` and `index` of
`wRoundRobinPicker.pick`. -/
structure pickVars where
  totalWeight : Int
  maxWeight : Int
  index : Nat
  deriving DecidableEq, Repr

/-- The loop `for i, node := range wr.nodes` of `wRoundRobinPicker.pick` from position
`i` on: the nodes with their new current weights and the variables after the loop. The
two additions are additions of `int` and wrap around. -/
def pickLoop : List weightedNode → Nat → pickVars → List weightedNode × pickVars
  | [], _, vars => ([], vars)
  | node :: rest, i, vars =>
    let node : weightedNode :=
      { node with currentWeight := wrapInt (node.currentWeight + node.weight) }
    let vars : pickVars := { vars with totalWeight := wrapInt (vars.totalWeight + node.weight) }
    let vars : pickVars :=
      if node.currentWeight > vars.maxWeight then
        { vars with maxWeight := node.currentWeight, index := i }
      else vars
    let r := pickLoop rest (i + 1) vars
    (node :: r.1, r.2)

/-- The method `wRoundRobinPicker.pick` together with the value of its local variable
`index`, the position of the weighted node it returns (`none` when it returns before
the loop); `now` and `now2` are the two readings of `time.Now()`. The subtraction
`currentWeight -= totalWeight` is a subtraction of `int` and wraps around. -/
def wRoundRobinPicker.pickAt (wr : wRoundRobinPicker) (nodes : List selector.Node)
    (now now2 : Int) : Option Nat × Outcome (Option selector.Node) × wRoundRobinPicker :=
  if nodes.length = 0 then (none, Outcome.ret none, wr)
  else
    let wr : wRoundRobinPicker :=
      if time.Sub now wr.lastUpdateTime > wr.duration ∨ nodes.length ≠ wr.nodes.length then
        { wr with nodes := getWeightedNode nodes, lastUpdateTime := now2 }
      else wr
    let r := pickLoop wr.nodes 0 { totalWeight := 0, maxWeight := 0, index := 0 }
    let index := r.2.index
    match r.1[index]? with
    | none => (some index, Outcome.panic "index out of range", { wr with nodes := r.1 })
    | some picked =>
      let picked : weightedNode :=
        { picked with currentWeight := wrapInt (picked.currentWeight - r.2.totalWeight) }
      (some index, Outcome.ret (some picked.node), { wr with nodes := r.1.set index picked })

/-- The method `wRoundRobinPicker.pick`. -/
def wRoundRobinPicker.pick (wr : wRoundRobinPicker) (nodes : List selector.Node)
    (now now2 : Int) : Outcome (Option selector.Node) × wRoundRobinPicker :=
  (wr.pickAt nodes now now2).2

/-- Successive `pick` calls on one picker with the same node list, one call for each
pair of clock readings: the index and the outcome of every call, in call order, and the
picker afterwards. -/
def wRoundRobinPicker.picks (wr : wRoundRobinPicker) (nodes : List selector.Node) :
    List (Int × Int) → List (Option Nat × Outcome (Option selector.Node)) × wRoundRobinPicker
  | [] => ([], wr)
  | t :: ts =>
    let r := wr.pickAt nodes t.1 t.2
    let rs := wRoundRobinPicker.picks r.2.2 nodes ts
    ((r.1, r.2.1) :: rs.1, rs.2)

/-- The picker that `weightedRoundRobinBalancer.Balance` creates for a service it has not
seen, at the instant `now`, for a balancer with refresh duration `duration`. -/
def newWRoundRobinPicker (duration : Int) (nodes : List selector.Node) (now : Int) :
    wRoundRobinPicker :=
  { lastUpdateTime := now, duration := duration, nodes := getWeightedNode nodes }

end loadbalance

namespace loadbalance

/-- A weighted node after the first statement of the loop body of `pick`,
`node.currentWeight += node.weight`, when the sum stays in the range of `int`. -/
def weightedNode.addWeight (n : weightedNode) : weightedNode :=
  { n with currentWeight := n.currentWeight + n.weight }

/-- The loop of `pick` computed in the integers, without the wrap-around of `int`. The
loop `pickLoop` agrees with it as long as no sum leaves the range of `int`
(`pickLoop_eq_exact`); it only serves to reason about such runs. -/
def pickLoopExact : List weightedNode → Nat → pickVars → List weightedNode × pickVars
  | [], _, vars => ([], vars)
  | node :: rest, i, vars =>
    let node : weightedNode := { node with currentWeight := node.currentWeight + node.weight }
    let vars : pickVars := { vars with totalWeight := vars.totalWeight + node.weight }
    let vars : pickVars :=
      if node.currentWeight > vars.maxWeight then
        { vars with maxWeight := node.currentWeight, index := i }
      else vars
    let r := pickLoopExact rest (i + 1) vars
    (node :: r.1, r.2)


/-- The sum of the weights of the weighted nodes. -/
def sumWeight (ns : List weightedNode) : Int := (ns.map (fun n => n.weight)).sum

/-- The sum of the current weights of the weighted nodes. -/
def sumCurrent (ns : List weightedNode) : Int := (ns.map (fun n => n.currentWeight)).sum

end loadbalance

namespace loadbalance

/-- The state of the weighted nodes `ns` of a picker for the node list `nodes`, `t` picks
after the current weights were equal to the weights, when these picks returned the
positions `idxs`: nodes and weights are those of `nodes`, the current weights sum to the
sum of the weights, the current weight at position `j` is `(t + 1) * weight` less the
sum of the weights for every time `j` was picked, and no position was picked more often
than its weight. -/
def wrrInv (nodes : List selector.Node) (t : Nat) (idxs : List Nat)
    (ns : List weightedNode) : Prop :=
  ns.map (fun n => n.node) = nodes ∧
  ns.map (fun n => n.weight) = nodes.map (fun n => n.Weight) ∧
  sumCurrent ns = sumWeight ns ∧
  (∀ (j : Nat) (hj : j < ns.length),
    ns[j].currentWeight = ((t : Int) + 1) * ns[j].weight - sumWeight ns * (idxs.count j : Int)) ∧
  (∀ (j : Nat) (hj : j < ns.length), (idxs.count j : Int) ≤ ns[j].weight)

end loadbalance

namespace loadbalance

/-- The struct `weightedRoundRobinBalancer`. The `sync.Map` holds picker pointers, so
the picker found under a service name is the one the last call left there. -/
structure weightedRoundRobinBalancer where
  pickers : GoMap wRoundRobinPicker
  duration : Int

/-- The function `newWeightedRoundRobinBalancer`: `3 * time.Minute` in nanoseconds. -/
def newWeightedRoundRobinBalancer : weightedRoundRobinBalancer :=
  { pickers := GoMap.empty, duration := 3 * 60000000000 }

/-- The method `weightedRoundRobinBalancer.Balance`; `now0` is the reading of
`time.Now()` when a picker is created, `now` and `now2` are the readings inside `pick`. -/
def weightedRoundRobinBalancer.Balance (w : weightedRoundRobinBalancer)
    (serviceName : String) (nodes : List selector.Node) (now0 now now2 : Int) :
    Outcome (Option selector.Node) × weightedRoundRobinBalancer :=
  let picker : wRoundRobinPicker :=
    match w.pickers serviceName with
    | none => { lastUpdateTime := now0, duration := w.duration, nodes := getWeightedNode nodes }
    | some p => p
  let r := picker.pick nodes now now2
  (r.1, { w with pickers := w.pickers.set serviceName r.2 })

end loadbalance

/-! ## plugin/consul/consul.go -/

namespace strings

/-- Go's `strings.Split(s, sep)` for a separator of one character, on the characters of
`s`: the pieces between the separators, in order; a string without the separator gives
one piece, the string itself. -/
def Split (sep : Char) : List Char → List (List Char)
  | [] => [[]]
  | c :: cs =>
    if c = sep then [] :: Split sep cs
    else
      match Split sep cs with
      | [] => [[c]]
      | piece :: pieces => (c :: piece) :: pieces

end strings

namespace consul

/-- A key/value pair of the consul store (`api.KVPair`), as far as `Resolve` reads it. -/
structure KVPair where
  Key : String
  Value : List Byte
  deriving DecidableEq, Repr

/-- The loop of `Consul.Resolve` that turns the pairs listed under a service name into
nodes: `&selector.Node{Key: pair.Key, Value: pair.Value}`, the weight left at its zero
value. -/
def resolveNodes (pairs : List KVPair) : List selector.Node :=
  pairs.map (fun pair => { Key := pair.Key, Value := pair.Value, Weight := 0 })

/-- The function `parseAddrFromNode` on a (non-nil) node. -/
def parseAddrFromNode (node : selector.Node) : Outcome (String × Option GoError) :=
  if node.Key = "" then Outcome.ret ("", some (GoError.other "addr is empty"))
  else
    let strs := strings.Split '/' node.Key.data
    match loadbalance.sliceAt strs ((strs.length : Int) - 1) with
    | some s => Outcome.ret (String.mk s, none)
    | none => Outcome.panic "index out of range"

/-- The key that `Consul.Init` registers for a service:
`fmt.Sprintf("%s/%s", serviceName, c.opts.SvrAddr)`. -/
def nodeName (serviceName svrAddr : String) : String :=
  serviceName ++ "/" ++ svrAddr

end consul

namespace transport

/-- The framer after successive `ReadFrame` calls, the call number `i` on the stream
`conns[i]` (one stream read again and again is the case where every stream is what the
call before left unread). -/
def framerAfter (K : codes.Consts) (f : framer) : List Conn → framer
  | [] => f
  | conn :: conns => framerAfter K (f.ReadFrame K conn).2.1 conns

end transport

namespace server_transport

/-- What one iteration of the accept loop of `serve` meets: the context is done (with
the value of `ctx.Err()`), `AcceptTCP` fails with an error that is a temporary
`net.Error`, it fails with another error, or it returns a connection, on which
`SetKeepAlive(true)` returns `keepAliveErr`. -/
inductive AcceptEvent where
  | ctxDone (err : Option GoError)
  | temporary (err : GoError)
  | failed (err : GoError)
  | accepted (keepAliveErr : Option GoError)
  deriving DecidableEq, Repr

/-- The duration `5 * time.Millisecond`, in nanoseconds. -/
def initialTempDelay : Int := 5 * 1000000

/-- The duration `1 * time.Second`, in nanoseconds. -/
def maxTempDelay : Int := 1 * 1000000000

/-- The update of `tempDelay` on a temporary accept error. The delay never exceeds one
second, so doubling it stays far inside the range of `int64`. -/
def nextTempDelay (tempDelay : Int) : Int :=
  let tempDelay := if tempDelay = 0 then initialTempDelay else tempDelay * 2
  if tempDelay > maxTempDelay then maxTempDelay else tempDelay

/-- The loop `for` of `serve` run on the given iterations, from the given value of
`tempDelay`: the arguments of the `time.Sleep` calls in order, and the value `serve`
returns if it returns during these iterations (`none`: the loop is still running after
them). -/
def serveLoop : List AcceptEvent → Int → List Int × Option (Option GoError)
  | [], _ => ([], none)
  | AcceptEvent.ctxDone err :: _, _ => ([], some err)
  | AcceptEvent.temporary _ :: rest, tempDelay =>
    let tempDelay := nextTempDelay tempDelay
    let r := serveLoop rest tempDelay
    (tempDelay :: r.1, r.2)
  | AcceptEvent.failed err :: _, _ => ([], some (some err))
  | AcceptEvent.accepted (some err) :: _, _ => ([], some (some err))
  | AcceptEvent.accepted none :: rest, tempDelay => serveLoop rest tempDelay

/-- The method `serverTransport.serve`: `networkNotSupported` is the constant
`codes.NetworkNotSupportedError`, `isTCPListener` tells whether the listener is a
`*net.TCPListener`; `tempDelay` starts at its zero value. -/
def serve (networkNotSupported : GoError) (isTCPListener : Bool)
    (events : List AcceptEvent) : List Int × Option (Option GoError) :=
  if isTCPListener then serveLoop events 0
  else ([], some (some networkNotSupported))

end server_transport

/-! ## serialization: Marshal and Unmarshal; service.go: Handle -/

namespace protocol

/-- Modelled from the spec: the request envelope `protocol.Request` (generated code that
is not part of the sources at hand). Spec section 6:
`Request: { service_path: string, payload: bytes, metadata: map<string, bytes> }`. -/
structure Request where
  ServicePath : String
  Payload : Option (List Byte)
  Metadata : Option (GoMap (List Byte))

end protocol

namespace serialization

/-- The library calls behind the serializations, for targets of type `V` and values of
type `R` on which the type assertions of the protobuf serialization succeed: what
`pbSerialization.Unmarshal` does after its guard (reset and decode the target),
`decoder.Decode(v)` of msgpack, the methods of any other implementation, and the same
for marshalling. Decoding gives the target afterwards and the error. -/
structure Library (V R : Type) where
  protoUnmarshal : List Byte → V → V × Option GoError
  msgpackDecode : List Byte → V → V × Option GoError
  customUnmarshal : Nat → Option (List Byte) → V → V × Option GoError
  protoMarshal : R → BytesErr
  msgpackEncode : R → BytesErr
  customMarshal : Nat → Option R → BytesErr

/-- The error `errors.New("unmarshal nil or empty bytes")`. -/
def errUnmarshalEmpty : GoError := GoError.other "unmarshal nil or empty bytes"

/-- The method `pbSerialization.Unmarshal`: the target afterwards and the error. -/
def pbUnmarshal {V R : Type} (L : Library V R) (data : Option (List Byte)) (v : V) :
    V × Option GoError :=
  if data = none ∨ (data.getD []).length = 0 then (v, some errUnmarshalEmpty)
  else L.protoUnmarshal (data.getD []) v

/-- The method `MsgpackSerialization.Unmarshal`: the target afterwards and the error. -/
def msgpackUnmarshal {V R : Type} (L : Library V R) (data : Option (List Byte)) (v : V) :
    V × Option GoError :=
  if data = none ∨ (data.getD []).length = 0 then (v, some errUnmarshalEmpty)
  else L.msgpackDecode (data.getD []) v

/-- The interface method `Serialization.Unmarshal` on each implementation. -/
def Serialization.Unmarshal {V R : Type} (L : Library V R) (s : Serialization)
    (data : Option (List Byte)) (v : V) : V × Option GoError :=
  match s with
  | Serialization.pbSerialization => pbUnmarshal L data v
  | Serialization.MsgpackSerialization => msgpackUnmarshal L data v
  | Serialization.custom id => L.customUnmarshal id data v

/-- The interface method `Serialization.Marshal` on each implementation; `none` is the
nil interface value. -/
def Serialization.Marshal {V R : Type} (L : Library V R) (s : Serialization)
    (v : Option R) : BytesErr :=
  match s with
  | Serialization.pbSerialization =>
    match v with
    | none => (none, some (GoError.other "marshal nil interface\x7b\x7d"))
    | some v => L.protoMarshal v
  | Serialization.MsgpackSerialization =>
    match v with
    | none => (none, some (GoError.other "marshal nil interface\x7b\x7d"))
    | some v => L.msgpackEncode v
  | Serialization.custom id => L.customMarshal id v

end serialization

/-- What `service.Handle` takes from outside service.go: `proto.Unmarshal(reqbuf, request)`
into a fresh request (the request afterwards and the error),
`metadata.WithServerMetadata`, the map variable of package `serialization` and the
library behind it, the three fields of `*ServerOptions` that `Handle` reads (the struct
is declared in a file that is not part of the sources at hand), and
`utils.ParseServicePath`, giving service name, method and error. -/
structure service.HandleEnv (O V R : Type) where
  protoUnmarshal : Option (List Byte) → protocol.Request × Option GoError
  WithServerMetadata : context.Context → Option (GoMap (List Byte)) → context.Context
  serializationMap : Option (GoMap serialization.Serialization)
  library : serialization.Library V R
  serializationType : O → String
  timeout : O → Int
  interceptors : O → List (interceptor.ServerInterceptor context.Context V R)
  ParseServicePath : String → String × String × Option GoError

/-- The closure `dec` of `service.Handle`: `serverSerialization.Unmarshal` of the
payload of the request envelope into the request value it is given. -/
def service.dec {O V R : Type} (env : service.HandleEnv O V R) (opts : O)
    (payload : Option (List Byte)) : V → V × Option GoError :=
  fun req =>
    serialization.Serialization.Unmarshal env.library
      (serialization.GetSerialization env.serializationMap (env.serializationType opts))
      payload req

/-- The end of `service.Handle`, from the call of the handler on: the handler gets the
context, `s.svr`, the closure `dec` and the interceptors; its error is returned as it
is, its response is marshalled with the server's serialization. -/
def service.callHandler {S O V R : Type} (env : service.HandleEnv O V R) (opts : O)
    (svr : Option S) (ctx : context.Context) (payload : Option (List Byte))
    (handler : Handler context.Context V R (Option S)) : BytesErr :=
  let r := handler ctx svr (service.dec env opts payload) (env.interceptors opts)
  match r.2 with
  | some err => (none, some err)
  | none =>
    let m := serialization.Serialization.Marshal env.library
      (serialization.GetSerialization env.serializationMap (env.serializationType opts)) r.1
    match m.2 with
    | some err => (none, some err)
    | none => (m.1, none)

/-- The method `service.Handle`, called at the instant `now`. A handler stored in the
map may be nil (`some none`); reading `s.opts` through a nil pointer panics. -/
def service.Handle {S O V R : Type} (K : codes.Consts) (env : service.HandleEnv O V R)
    (s : service S (Option (Handler context.Context V R (Option S))) O)
    (ctx : context.Context) (now : Int) (reqbuf : Option (List Byte)) : Outcome BytesErr :=
  let parsed := env.protoUnmarshal reqbuf
  match parsed.2 with
  | some err => Outcome.ret (none, some err)
  | none =>
    let request := parsed.1
    let ctx := env.WithServerMetadata ctx request.Metadata
    match s.opts with
    | none => Outcome.panic "nil pointer dereference"
    | some opts =>
      let ctx :=
        if env.timeout opts ≠ 0 then context.WithTimeout ctx now (env.timeout opts) else ctx
      let path := env.ParseServicePath request.ServicePath
      match path.2.2 with
      | some _ =>
        Outcome.ret (none, some (GoError.codes (some
          (codes.New K.ClientMsgErrorCode "method is invalid"))))
      | none =>
        let method := path.2.1
        match s.handlers method with
        | some (some handler) =>
          Outcome.ret (service.callHandler env opts s.svr ctx request.Payload handler)
        | _ => Outcome.ret (none, some (GoError.other "handlers is nil"))

namespace server_transport

/-- Whether an iteration of the accept loop met a temporary accept error. -/
def AcceptEvent.isTemporary : AcceptEvent → Bool
  | AcceptEvent.temporary _ => true
  | _ => false

/-- Whether the accept loop goes on after an iteration: it slept after a temporary accept
error, or it accepted a connection and `SetKeepAlive` returned nil. -/
def AcceptEvent.continues : AcceptEvent → Bool
  | AcceptEvent.temporary _ => true
  | AcceptEvent.accepted none => true
  | _ => false

end server_transport

/-! ## Concrete inputs used by the theorems below -/

/-- The constants of package `codes` with the values of the concrete examples. -/
def exampleConsts : codes.Consts :=
  { ClientMsgErrorCode := 101, ServerInternalErrorCode := 201,
    ServerInternalErrorMessage := "server internal error" }

/-- The type of a method `func (s *Svc) SayHello(ctx context.Context, req *Req)
(*Rsp, error)`. -/
def sayHelloType : methodType :=
  { Name := "SayHello",
    In := [{ Name := "", Kind := Kind.Ptr, ImplementsContext := false, ImplementsError := false },
           { Name := "Context", Kind := Kind.Interface, ImplementsContext := true,
             ImplementsError := false },
           { Name := "", Kind := Kind.Ptr, ImplementsContext := false, ImplementsError := false }],
    Out := [{ Name := "", Kind := Kind.Ptr, ImplementsContext := false, ImplementsError := false },
            { Name := "error", Kind := Kind.Interface, ImplementsContext := false,
              ImplementsError := true }] }

/-- The type of a method `func (s *Svc) SayHello(ctx context.Context, req *Req, n int)
(*Rsp, error)`, with four in-parameters. -/
def sayHelloExtraType : methodType :=
  { sayHelloType with
    In := sayHelloType.In ++
      [{ Name := "int", Kind := Kind.Int, ImplementsContext := false, ImplementsError := false }] }

/-- A service method that fails: it returns a nil `*Rsp` and the business error
`Error{code: 42, message: "nope"}`. Requests and replies are strings, `none` is a nil
reply pointer. -/
def failingMethod : reflectMethod Unit String (Option String) :=
  { Name := "SayHello", Typ := sayHelloType,
    Call := fun _ _ => (none, some (GoError.codes (some (codes.New 42 "nope")))),
    zeroReq := "" }

/-- A server that already holds a registration `old` with the method `Old`. -/
def registeredServer : Server Unit Nat Unit Unit :=
  { opts := (),
    service := { svr := some (), serviceName := "old",
                 handlers := GoMap.empty.set "Old" 7, opts := none, closing := false },
    plugins := [], closing := false }

/-- A service description with three method entries, two of them under the name `A`. -/
def greeterDesc : ServiceDesc Unit Nat Unit :=
  { Svr := some (), ServiceName := "greeter",
    Methods := [some ⟨"A", 1⟩, some ⟨"B", 2⟩, some ⟨"A", 3⟩], HandlerType := () }

/-- An environment of `Invoke` in which the path parses to the service
`helloworld.Greeter` and the method `SayHello` and the call itself succeeds;
interceptors are numbered. -/
def greeterEnv : client.InvokeEnv Nat :=
  { ParseServicePath := fun _ => ("helloworld.Greeter", "SayHello", none),
    ClientIntercept := fun _ _ _ => none }

/-- An open pool whose only idle connection is marked unusable; raw connections are
numbered. -/
def poolWithUnusable : connpool.sonConnPool Nat :=
  { initialCap := 1, maxCap := 1000, maxIdle := 0, idleTimeout := 60000000000,
    dialTimeout := 200000000,
    conns := some { buf := [some { Conn := some 1, unusable := true, t := 0 }],
                    closed := false } }

/-- An open channel holding one idle connection that is not marked unusable. -/
def idleChan : connpool.chan (Option (connpool.PoolConn Nat)) :=
  { buf := [some { Conn := some 1, unusable := false, t := 0 }], closed := false }

/-- An open pool with the idle queue `idleChan`. -/
def poolWithIdle : connpool.sonConnPool Nat :=
  { poolWithUnusable with conns := some idleChan }

/-- A handler environment in which the business handler and the marshalling succeed. -/
def echoEnv : server_transport.HandleEnv :=
  { Handle := fun reqbuf => (reqbuf, none),
    protoMarshal := fun response => (response.Payload, none) }

/-- A connection on which one request frame (body `1, 2, 3`) arrives before the peer
closes, and on which the first `conn.Write` fails. -/
def brokenWriteConn : server_transport.ConnWrapper :=
  { input := transport.frameStream [[1, 2, 3]], Framer := transport.NewFramer,
    writeErrs := [some (GoError.other "write: broken pipe")], written := [],
    closed := false }

/-- Three nodes with the weights 5, 1 and 1. -/
def threeNodes : List selector.Node :=
  [{ Key := "svc/10.0.0.1:8000", Value := [], Weight := 5 },
   { Key := "svc/10.0.0.2:8000", Value := [], Weight := 1 },
   { Key := "svc/10.0.0.3:8000", Value := [], Weight := 1 }]

/-- Two keys of one service as the consul store lists them. -/
def listedPairs : List consul.KVPair :=
  [{ Key := "svc/10.0.0.1:8000", Value := [] }, { Key := "svc/10.0.0.2:8000", Value := [] }]

/-- Two nodes of equal weight. -/
def nodesA : List selector.Node :=
  [{ Key := "svc/10.0.0.1:8000", Value := [], Weight := 1 },
   { Key := "svc/10.0.0.2:8000", Value := [], Weight := 1 }]

/-- Two other nodes of equal weight, none of them in `nodesA`. -/
def nodesB : List selector.Node :=
  [{ Key := "svc/10.0.0.3:8000", Value := [], Weight := 1 },
   { Key := "svc/10.0.0.4:8000", Value := [], Weight := 1 }]

/-- A path parser for the concrete examples, for paths of the form
`/<service>/<method>` with two non-empty segments. -/
def splitServicePath (path : String) : String × String × Option GoError :=
  match strings.Split '/' path.data with
  | [[], service, method] =>
    if service ≠ [] ∧ method ≠ [] then (String.mk service, String.mk method, none)
    else ("", "", some (GoError.other "invalid service path"))
  | _ => ("", "", some (GoError.other "invalid service path"))

/-- An environment of `Handle` in which the request buffer `[1]` is the envelope of a
call of `/a/M` and every other buffer that of a call of `/b/M`, both with the payload
`[7]` and no metadata; options are the unit value, requests and responses are numbers
and the libraries decode a payload to its length and marshal a number to one byte. -/
def pathEnv : service.HandleEnv Unit Nat Nat :=
  { protoUnmarshal := fun reqbuf =>
      ({ ServicePath := if reqbuf = some [1] then "/a/M" else "/b/M",
         Payload := some [7], Metadata := none }, none),
    WithServerMetadata := fun ctx _ => ctx,
    serializationMap := serialization.serializationMapAfterInit,
    library :=
      { protoUnmarshal := fun data _ => (data.length, none),
        msgpackDecode := fun data _ => (data.length, none),
        customUnmarshal := fun _ _ v => (v, none),
        protoMarshal := fun v => (some [byteOf v], none),
        msgpackEncode := fun v => (some [byteOf v], none),
        customMarshal := fun _ _ => (none, none) },
    serializationType := fun _ => "protobuf",
    timeout := fun _ => 0,
    interceptors := fun _ => [],
    ParseServicePath := splitServicePath }

/-- A service registered under the name `a` with one handler, for the method `M`, that
decodes the request and answers with the request plus one. -/
def serviceM : service Unit (Option (Handler context.Context Nat Nat (Option Unit))) Unit :=
  { svr := some (), serviceName := "a",
    handlers := GoMap.set GoMap.empty "M"
      (some (fun _ctx _svr dec _ceps =>
        match (dec 0).2 with
        | some err => (none, some err)
        | none => (some ((dec 0).1 + 1), none))),
    opts := some (), closing := false }

/-- Three nodes with the weights `2^63 - 1`, `2^63 - 1` and `3`. -/
def hugeNodes : List selector.Node :=
  [{ Key := "svc/10.0.0.1:8000", Value := [], Weight := 9223372036854775807 },
   { Key := "svc/10.0.0.2:8000", Value := [], Weight := 9223372036854775807 },
   { Key := "svc/10.0.0.3:8000", Value := [], Weight := 3 }]

/-- Two nodes with the weights `2^63 - 1` and `1`. -/
def maxIntNodes : List selector.Node :=
  [{ Key := "svc/10.0.0.1:8000", Value := [], Weight := 9223372036854775807 },
   { Key := "svc/10.0.0.2:8000", Value := [], Weight := 1 }]

/-- Two nodes of weight 0. -/
def zeroNodesA : List selector.Node :=
  [{ Key := "svc/10.0.0.1:8000", Value := [], Weight := 0 },
   { Key := "svc/10.0.0.2:8000", Value := [], Weight := 0 }]

/-- Two other nodes of weight 0, none of them in `zeroNodesA`. -/
def zeroNodesB : List selector.Node :=
  [{ Key := "svc/10.0.0.3:8000", Value := [], Weight := 0 },
   { Key := "svc/10.0.0.4:8000", Value := [], Weight := 0 }]

/-! ## Theorems -/

theorem byteOf_val (n : Nat) : (byteOf n).val = n % 256 := rfl

theorem byteOf_mod_uint32 (n k : Nat) (hk : k ≤ 24) :
    byteOf (n % 2 ^ 32 / 2 ^ k) = byteOf (n / 2 ^ k) := by
  apply Fin.ext
  simp only [byteOf_val]
  have h1 : n % 2 ^ 32 / 2 ^ k = (n / 2 ^ k) % 2 ^ (32 - k) := by
    have h32 : (2 : Nat) ^ 32 = 2 ^ k * 2 ^ (32 - k) := by
      rw [← pow_add]; congr 1; omega
    rw [h32, Nat.mod_mul_right_div_self]
  rw [h1]
  have h2 : (2 : Nat) ^ (32 - k) = 256 * 2 ^ (24 - k) := by
    have : 32 - k = 8 + (24 - k) := by omega
    rw [this, pow_add]; norm_num
  rw [h2, Nat.mod_mul_right_mod]

theorem codec.Encode_eq (data : List Byte) :
    codec.Encode data = (some (codec.headerBytes data.length ++ data), none) := by
  have h24 := byteOf_mod_uint32 data.length 24 (by decide)
  have h16 := byteOf_mod_uint32 data.length 16 (by decide)
  have h8 := byteOf_mod_uint32 data.length 8 (by decide)
  have h0 := byteOf_mod_uint32 data.length 0 (by decide)
  simp only [pow_zero, Nat.div_one] at h0
  simp only [codec.Encode, codec.binaryWrite, codec.putUint8, codec.putUint16,
    codec.putUint32, codec.headerBytes, h24, h16, h8, h0]
  rfl


theorem transport.ioReadFull_of_append (d rest buf : List Byte) (h : buf.length = d.length) :
    transport.ioReadFull (d ++ rest) buf
      = { buf := d, num := d.length, err := none, conn := rest } := by
  unfold transport.ioReadFull
  rw [if_pos (by simp [h])]
  simp [h]

/-- The loop equation of the resize loop. -/
theorem transport.grow_unfold (f : transport.framer) (length : Nat) :
    f.grow length =
      if f.buffer.length % 2 ^ 32 < length ∧ f.counter ≤ 12 then
        transport.framer.grow { f.Resize with counter := f.counter + 1 } length
      else f := by
  unfold transport.framer.grow
  by_cases hc : f.counter ≤ 12
  · obtain ⟨n, hn⟩ : ∃ n, (13 - f.counter).toNat = n + 1 := ⟨(12 - f.counter).toNat, by omega⟩
    have hn2 : (13 - (f.counter + 1)).toNat = n := by omega
    simp only [hn, transport.growLoop, hn2]
  · have : (13 - f.counter).toNat = 0 := by omega
    simp [this, transport.growLoop, hc]

theorem transport.NewFramer_inv : transport.NewFramer.inv :=
  ⟨0, by decide, rfl, by
    simp only [transport.NewFramer, List.length_replicate, transport.DefaultPayloadLength,
      pow_zero, mul_one]⟩

theorem transport.growLoop_inv (length : Nat) (hl : length ≤ transport.MaxPayloadLength) :
    ∀ (fuel : Nat) (f : transport.framer), f.inv → (13 - f.counter).toNat ≤ fuel →
      (transport.growLoop fuel f length).inv ∧
        length ≤ (transport.growLoop fuel f length).buffer.length := by
  have hmax : transport.MaxPayloadLength = 4194304 := by decide
  intro fuel
  induction fuel with
  | zero =>
    intro f ⟨c, hc, hcnt, _⟩ hfuel
    omega
  | succ fuel ih =>
    intro f ⟨c, hc, hcnt, hbuf⟩ hfuel
    have hpow : 2 ^ c ≤ 2 ^ 12 := Nat.pow_le_pow_right (by decide) hc
    have hpow12 : (2 : Nat) ^ 12 = 4096 := by norm_num
    simp only [transport.growLoop]
    split
    · rename_i hcond
      have hc12 : c ≠ 12 := by
        intro h12
        rw [h12] at hbuf
        omega
      apply ih
      · refine ⟨c + 1, by omega, by simp [hcnt], ?_⟩
        simp [transport.framer.Resize, hbuf, pow_succ]
        omega
      · simp only []
        omega
    · rename_i hcond
      refine ⟨⟨c, hc, hcnt, hbuf⟩, ?_⟩
      have : ¬ f.buffer.length % 2 ^ 32 < length := fun h => hcond ⟨h, by omega⟩
      omega

theorem transport.grow_inv (f : transport.framer) (length : Nat) (hf : f.inv)
    (hl : length ≤ transport.MaxPayloadLength) :
    (f.grow length).inv ∧ length ≤ (f.grow length).buffer.length :=
  transport.growLoop_inv length hl _ f hf (le_refl _)

theorem codec.bigEndianUint32_putUint32 (n : Nat) :
    codec.bigEndianUint32
      [byteOf (n / 2 ^ 24), byteOf (n / 2 ^ 16), byteOf (n / 2 ^ 8), byteOf n] = n % 2 ^ 32 := by
  simp only [codec.bigEndianUint32, List.getD_cons_zero, List.getD_cons_succ, byteOf_val]
  norm_num
  omega

/-- Reading a frame whose fifteen header bytes are all there: the header read succeeds
and the rest of `ReadFrame` runs on the bytes after the header. -/
theorem transport.ReadFrame_header (K : codes.Consts) (f : transport.framer)
    (hdr rest : List Byte) (hlen : hdr.length = 15) :
    f.ReadFrame K (hdr ++ rest) =
      if (hdr.getD 0 0).val ≠ codec.Magic then
        (Outcome.ret (none, some (GoError.codes (some
          (codes.NewFrameworkError K.ClientMsgErrorCode "invalid magic...")))), f, rest)
      else if codec.bigEndianUint32 ((hdr.drop 7).take 4) > transport.MaxPayloadLength then
        (Outcome.ret (none, some (GoError.codes (some
          (codes.NewFrameworkError K.ClientMsgErrorCode "payload too large...")))), f, rest)
      else if (f.grow (codec.bigEndianUint32 ((hdr.drop 7).take 4))).buffer.length
          < codec.bigEndianUint32 ((hdr.drop 7).take 4) then
        (Outcome.panic "slice bounds out of range",
          f.grow (codec.bigEndianUint32 ((hdr.drop 7).take 4)), rest)
      else
        let length := codec.bigEndianUint32 ((hdr.drop 7).take 4)
        let g := f.grow length
        let r2 := transport.ioReadFull rest (g.buffer.take length)
        let g2 : transport.framer := { g with buffer := r2.buf ++ g.buffer.drop length }
        if r2.num % 2 ^ 32 ≠ length ∨ r2.err ≠ none then
          (Outcome.ret (none, r2.err), g2, r2.conn)
        else
          (Outcome.ret (some (hdr ++ g2.buffer.take length), none), g2, r2.conn) := by
  have hr : transport.ioReadFull (hdr ++ rest) (List.replicate codec.FrameHeadLen 0)
      = { buf := hdr, num := hdr.length, err := none, conn := rest } :=
    transport.ioReadFull_of_append hdr rest _ (by simp [codec.FrameHeadLen, hlen])
  simp only [transport.framer.ReadFrame, hr]
  simp [hlen, codec.FrameHeadLen]

theorem transport.ioReadFull_err_ne_codes (conn buf : List Byte) (e : Option codes.Error) :
    (transport.ioReadFull conn buf).err ≠ some (GoError.codes e) := by
  unfold transport.ioReadFull
  split
  · simp
  · split <;> simp

/-- Reading one encoded frame from a framer that satisfies the invariant. -/
theorem transport.ReadFrame_frame (K : codes.Consts) (f : transport.framer) (hf : f.inv)
    (b rest : List Byte) (hb : b.length ≤ transport.MaxPayloadLength) :
    ∃ g : transport.framer, g.inv ∧
      f.ReadFrame K (codec.headerBytes b.length ++ b ++ rest)
        = (Outcome.ret (some (codec.headerBytes b.length ++ b), none), g, rest) := by
  have hmax : transport.MaxPayloadLength = 4194304 := by decide
  have hlenb : codec.bigEndianUint32 (((codec.headerBytes b.length).drop 7).take 4)
      = b.length := by
    have := codec.bigEndianUint32_putUint32 b.length
    simp only [codec.headerBytes, List.drop_succ_cons, List.drop_zero, List.take_succ_cons,
      List.take_zero]
    rw [this]
    omega
  obtain ⟨hg, hgl⟩ := transport.grow_inv f b.length hf hb
  have hr2 : transport.ioReadFull (b ++ rest) ((f.grow b.length).buffer.take b.length)
      = { buf := b, num := b.length, err := none, conn := rest } :=
    transport.ioReadFull_of_append b rest _ (by simp; omega)
  refine ⟨{ f.grow b.length with buffer := b ++ (f.grow b.length).buffer.drop b.length }, ?_, ?_⟩
  · obtain ⟨c, hc, hcnt, hbuf⟩ := hg
    refine ⟨c, hc, hcnt, ?_⟩
    simp only [List.length_append, List.length_drop]
    omega
  · rw [List.append_assoc, transport.ReadFrame_header K f _ _ (by simp [codec.headerBytes])]
    rw [hlenb]
    have hm : ((codec.headerBytes b.length).getD 0 0).val = codec.Magic := by
      simp [codec.headerBytes, codec.Magic]
      rfl
    simp only [hm, ne_eq, not_true_eq_false, if_false, hr2]
    rw [if_neg (by omega), if_neg (by omega)]
    have h32 : b.length % 2 ^ 32 = b.length := by omega
    simp [h32]
    omega

theorem transport.frameStream_cons (b : List Byte) (bs : List (List Byte)) :
    transport.frameStream (b :: bs)
      = codec.headerBytes b.length ++ b ++ transport.frameStream bs := by
  simp [transport.frameStream, codec.Encode_eq]

theorem transport.frameStream_append (as bs : List (List Byte)) :
    transport.frameStream (as ++ bs) = transport.frameStream as ++ transport.frameStream bs := by
  induction as with
  | nil => simp [transport.frameStream]
  | cons a as ih => simp [transport.frameStream_cons, ih]

theorem transport.frameStream_length (bs : List (List Byte)) :
    (transport.frameStream bs).length = (bs.map (fun b => 15 + b.length)).sum := by
  induction bs with
  | nil => simp [transport.frameStream]
  | cons b bs ih =>
    simp only [transport.frameStream_cons, List.length_append, ih, List.map_cons, List.sum_cons,
      codec.headerBytes, List.length_cons, List.length_nil]

/-- Reading as many frames as were written, from a framer that satisfies the invariant
and with further bytes `rest` behind the frames. -/
theorem transport.readFrames_frameStream (K : codes.Consts) :
    ∀ (bs : List (List Byte)) (f : transport.framer) (rest : List Byte), f.inv →
      (∀ b ∈ bs, b.length ≤ transport.MaxPayloadLength) →
      (transport.readFrames K bs.length f (transport.frameStream bs ++ rest)).1
          = bs.map (fun b => Outcome.ret (codec.Encode b)) ∧
        (transport.readFrames K bs.length f (transport.frameStream bs ++ rest)).2.2 = rest := by
  intro bs
  induction bs with
  | nil =>
    intro f rest _ _
    simp [transport.readFrames, transport.frameStream]
  | cons b bs ih =>
    intro f rest hf hbs
    obtain ⟨g, hg, hread⟩ := transport.ReadFrame_frame K f hf b
      (transport.frameStream bs ++ rest) (hbs b (List.mem_cons_self b bs))
    have ih2 := ih g rest hg (fun x hx => hbs x (List.mem_cons_of_mem b hx))
    rw [transport.frameStream_cons, List.length_cons, List.append_assoc]
    simp only [transport.readFrames, hread, List.map_cons, ih2.1, ih2.2, codec.Encode_eq,
      and_self]

/-- C1: for every byte slice `b` (in particular every `b` of at most `MaxPayloadLength`
bytes), `defaultCodec.Encode(b)` succeeds with a nil error, and `defaultCodec.Decode` of
the encoded frame returns exactly `b` with a nil error. -/
theorem C1_frame_round_trip (b : List Byte) :
    ∃ frame : List Byte, codec.Encode b = (some frame, none) ∧
      codec.Decode frame = Outcome.ret (some b, none) := by
  refine ⟨codec.headerBytes b.length ++ b, codec.Encode_eq b, ?_⟩
  have hl : codec.FrameHeadLen ≤ (codec.headerBytes b.length ++ b).length := by
    simp [codec.FrameHeadLen, codec.headerBytes]
  have hd : (codec.headerBytes b.length ++ b).drop codec.FrameHeadLen = b := by
    simp [codec.FrameHeadLen, codec.headerBytes]
  simp only [codec.Decode, if_pos hl, hd]

/-- C2: for every body, `defaultCodec.Encode(body)` returns a nil error and a frame of
`15 + len(body)` bytes; its first fifteen bytes are
`[0x11, 0, 0, 0, 0, 0, 0, L3, L2, L1, L0, 0, 0, 0, 0]`, where `L3 L2 L1 L0` are the bytes
of `uint32(len(body))` in big-endian order (read back as a big-endian `uint32` they give
`len(body) mod 2^32`), and the bytes from offset 15 on are the body itself. -/
theorem C2_encode_layout (body : List Byte) :
    ∃ frame : List Byte, codec.Encode body = (some frame, none) ∧
      frame.length = 15 + body.length ∧
      frame.take 15 =
        [0x11, 0, 0, 0, 0, 0, 0,
         byteOf (body.length / 2 ^ 24), byteOf (body.length / 2 ^ 16),
         byteOf (body.length / 2 ^ 8), byteOf body.length,
         0, 0, 0, 0] ∧
      codec.bigEndianUint32
        [byteOf (body.length / 2 ^ 24), byteOf (body.length / 2 ^ 16),
         byteOf (body.length / 2 ^ 8), byteOf body.length] = body.length % 2 ^ 32 ∧
      frame.drop 15 = body := by
  refine ⟨codec.headerBytes body.length ++ body, codec.Encode_eq body, ?_, ?_,
    codec.bigEndianUint32_putUint32 body.length, ?_⟩
  · simp only [List.length_append, codec.headerBytes, List.length_cons, List.length_nil]
  · simp [codec.headerBytes]
  · simp [codec.headerBytes]

/-- C3: let the stream be the frames `Encode(b_1) ++ ... ++ Encode(b_k)` of bodies of at
most 4 MiB each. Then for every `i ≤ k`, the first `i` `ReadFrame` calls on a framer
made by `NewFramer` return `Encode(b_1), ..., Encode(b_i)` in this order, what is left
of the stream after them is exactly the frames of `b_(i+1), ..., b_k` (nothing for
`i = k`), and the bytes consumed so far number `(15 + len b_1) + ... + (15 + len b_i)`:
the `i`-th call consumes exactly `15 + len(b_i)` bytes. -/
theorem C3_framer_composition (K : codes.Consts) (bs : List (List Byte))
    (hbs : ∀ b ∈ bs, b.length ≤ transport.MaxPayloadLength) (i : Nat) (hi : i ≤ bs.length) :
    (transport.readFrames K i transport.NewFramer (transport.frameStream bs)).1
        = (bs.take i).map (fun b => Outcome.ret (codec.Encode b)) ∧
      (transport.readFrames K i transport.NewFramer (transport.frameStream bs)).2.2
        = transport.frameStream (bs.drop i) ∧
      (transport.readFrames K i transport.NewFramer (transport.frameStream bs)).2.2.length
          + ((bs.take i).map (fun b => 15 + b.length)).sum
        = (transport.frameStream bs).length := by
  have hsplit : transport.frameStream bs
      = transport.frameStream (bs.take i) ++ transport.frameStream (bs.drop i) := by
    rw [← transport.frameStream_append, List.take_append_drop]
  have hlen : (bs.take i).length = i := by simp [hi]
  have h := transport.readFrames_frameStream K (bs.take i) transport.NewFramer
    (transport.frameStream (bs.drop i)) transport.NewFramer_inv
    (fun b hb => hbs b (List.mem_of_mem_take hb))
  rw [hlen, ← hsplit] at h
  refine ⟨h.1, h.2, ?_⟩
  rw [h.2, hsplit, List.length_append, transport.frameStream_length (bs.take i)]
  omega

/-- Witness for C3: three frames (bodies of 3, 0 and 1 bytes) read by three calls. -/
theorem C3_framer_composition_witness :
    (∀ b ∈ ([[1, 2, 3], [], [9]] : List (List Byte)), b.length ≤ transport.MaxPayloadLength) ∧
      3 ≤ ([[1, 2, 3], [], [9]] : List (List Byte)).length ∧
      (transport.readFrames exampleConsts 3 transport.NewFramer
          (transport.frameStream [[1, 2, 3], [], [9]])).1
        = (([[1, 2, 3], [], [9]] : List (List Byte)).take 3).map
            (fun b => Outcome.ret (codec.Encode b)) ∧
      (transport.readFrames exampleConsts 3 transport.NewFramer
          (transport.frameStream [[1, 2, 3], [], [9]])).2.2
        = transport.frameStream (([[1, 2, 3], [], [9]] : List (List Byte)).drop 3) ∧
      (transport.readFrames exampleConsts 3 transport.NewFramer
          (transport.frameStream [[1, 2, 3], [], [9]])).2.2.length
          + ((([[1, 2, 3], [], [9]] : List (List Byte)).take 3).map
              (fun b => 15 + b.length)).sum
        = (transport.frameStream [[1, 2, 3], [], [9]]).length :=
  ⟨by decide, by decide,
    C3_framer_composition exampleConsts [[1, 2, 3], [], [9]]
      (by decide) 3 (by decide)⟩

/-- C4: if the first byte of the first fifteen bytes of the stream is not `0x11`, then
`ReadFrame` fails with the framework error `invalid magic...`, the stream has lost
exactly these fifteen bytes and the framer is unchanged, whatever the other header
bytes are (a declared length above 4 MiB included). -/
theorem C4_magic_rejection (K : codes.Consts) (f : transport.framer) (hdr rest : List Byte)
    (hlen : hdr.length = 15) (hmagic : hdr.getD 0 0 ≠ 0x11) :
    f.ReadFrame K (hdr ++ rest) =
      (Outcome.ret (none, some (GoError.codes (some
        (codes.NewFrameworkError K.ClientMsgErrorCode "invalid magic...")))), f, rest) := by
  rw [transport.ReadFrame_header K f hdr rest hlen]
  have hm : (hdr.getD 0 0).val ≠ codec.Magic := by
    intro h
    apply hmagic
    apply Fin.ext
    rw [h]
    rfl
  rw [if_pos hm]

/-- Witness for C4: magic `0x22` and a declared length of `0xffffffff`. -/
theorem C4_magic_rejection_witness :
    ([0x22, 0, 0, 0, 0, 0, 0, 0xff, 0xff, 0xff, 0xff, 0, 0, 0, 0] : List Byte).length = 15 ∧
      ([0x22, 0, 0, 0, 0, 0, 0, 0xff, 0xff, 0xff, 0xff, 0, 0, 0, 0] : List Byte).getD 0 0
        ≠ 0x11 ∧
      transport.NewFramer.ReadFrame exampleConsts
          ([0x22, 0, 0, 0, 0, 0, 0, 0xff, 0xff, 0xff, 0xff, 0, 0, 0, 0] ++ [7, 7]) =
        (Outcome.ret (none, some (GoError.codes (some
          (codes.NewFrameworkError 101 "invalid magic...")))), transport.NewFramer, [7, 7]) :=
  ⟨by decide, by decide,
    C4_magic_rejection exampleConsts transport.NewFramer
      [0x22, 0, 0, 0, 0, 0, 0, 0xff, 0xff, 0xff, 0xff, 0, 0, 0, 0] [7, 7]
      (by decide) (by decide)⟩

/-- C5: on a stream that starts with a fifteen-byte header of magic `0x11`, `ReadFrame`
fails with `payload too large...` if and only if the big-endian 32-bit value of header
bytes 7..10 is greater than 4194304; and when it is, the stream has lost the header
only and the framer (buffer and counter) is unchanged. -/
theorem C5_length_cap (K : codes.Consts) (f : transport.framer) (hdr rest : List Byte)
    (hlen : hdr.length = 15) (hmagic : hdr.getD 0 0 = 0x11) :
    ((f.ReadFrame K (hdr ++ rest)).1 = transport.payloadTooLarge K ↔
        codec.bigEndianUint32 ((hdr.drop 7).take 4) > 4194304) ∧
      (codec.bigEndianUint32 ((hdr.drop 7).take 4) > 4194304 →
        f.ReadFrame K (hdr ++ rest) = (transport.payloadTooLarge K, f, rest)) := by
  have hmax : transport.MaxPayloadLength = 4194304 := by decide
  have hm : ¬ (hdr.getD 0 0).val ≠ codec.Magic := by
    rw [hmagic]
    decide
  rw [transport.ReadFrame_header K f hdr rest hlen, if_neg hm, hmax]
  by_cases hbig : codec.bigEndianUint32 ((hdr.drop 7).take 4) > 4194304
  · rw [if_pos hbig]
    exact ⟨⟨fun _ => hbig, fun _ => rfl⟩, fun _ => rfl⟩
  · rw [if_neg hbig]
    refine ⟨⟨fun h => ?_, fun h => absurd h hbig⟩, fun h => absurd h hbig⟩
    exfalso
    revert h
    simp only [transport.payloadTooLarge]
    split
    · simp
    · split
      · intro h
        simp only [Outcome.ret.injEq, Prod.mk.injEq, true_and] at h
        exact transport.ioReadFull_err_ne_codes _ _ _ h
      · simp

/-- Witness for C5: a valid magic and a declared length of 8 MiB. -/
theorem C5_length_cap_witness :
    ([0x11, 0, 0, 0, 0, 0, 0, 0, 0x80, 0, 0, 0, 0, 0, 0] : List Byte).length = 15 ∧
      ([0x11, 0, 0, 0, 0, 0, 0, 0, 0x80, 0, 0, 0, 0, 0, 0] : List Byte).getD 0 0 = 0x11 ∧
      (((transport.NewFramer.ReadFrame exampleConsts
            ([0x11, 0, 0, 0, 0, 0, 0, 0, 0x80, 0, 0, 0, 0, 0, 0] ++ [7, 7])).1
          = transport.payloadTooLarge exampleConsts ↔
        codec.bigEndianUint32
          ((([0x11, 0, 0, 0, 0, 0, 0, 0, 0x80, 0, 0, 0, 0, 0, 0] : List Byte).drop 7).take 4)
            > 4194304) ∧
      (codec.bigEndianUint32
          ((([0x11, 0, 0, 0, 0, 0, 0, 0, 0x80, 0, 0, 0, 0, 0, 0] : List Byte).drop 7).take 4)
            > 4194304 →
        transport.NewFramer.ReadFrame exampleConsts
            ([0x11, 0, 0, 0, 0, 0, 0, 0, 0x80, 0, 0, 0, 0, 0, 0] ++ [7, 7])
          = (transport.payloadTooLarge exampleConsts,
              transport.NewFramer, [7, 7]))) :=
  ⟨by decide, by decide,
    C5_length_cap exampleConsts transport.NewFramer
      [0x11, 0, 0, 0, 0, 0, 0, 0, 0x80, 0, 0, 0, 0, 0, 0] [7, 7] (by decide) (by decide)⟩


/-- C6: `addRspHeader(payload, err)` returns an envelope with the given payload and with
`(ret_code, ret_msg)` equal to `(0, "success")` when `err` is nil, to
`(e.Code, e.Message)` when `err` holds a `*codes.Error` pointing to `e`, and to
`(ServerInternalErrorCode, ServerInternalError.Message)` for every non-nil error of
another type (`io.EOF`, `io.ErrUnexpectedEOF`, any other error). -/
theorem C6_addRspHeader (K : codes.Consts) (payload : Option (List Byte)) :
    server_transport.addRspHeader K payload none
        = Outcome.ret { Payload := payload, RetCode := 0, RetMsg := "success" } ∧
      (∀ e : codes.Error,
        server_transport.addRspHeader K payload (some (GoError.codes (some e)))
          = Outcome.ret { Payload := payload, RetCode := e.Code, RetMsg := e.Message }) ∧
      server_transport.addRspHeader K payload (some GoError.EOF)
        = Outcome.ret { Payload := payload, RetCode := K.ServerInternalErrorCode,
                        RetMsg := K.ServerInternalErrorMessage } ∧
      server_transport.addRspHeader K payload (some GoError.ErrUnexpectedEOF)
        = Outcome.ret { Payload := payload, RetCode := K.ServerInternalErrorCode,
                        RetMsg := K.ServerInternalErrorMessage } ∧
      (∀ msg : String,
        server_transport.addRspHeader K payload (some (GoError.other msg))
          = Outcome.ret { Payload := payload, RetCode := K.ServerInternalErrorCode,
                          RetMsg := K.ServerInternalErrorMessage }) :=
  ⟨rfl, fun _ => rfl, rfl, rfl, fun _ => rfl⟩

/-- C7: when the server-side `Handle` fails with an `Error` of code `code ≠ 0` and
message `message`, `addRspHeader` builds an envelope on which the response check of the
client's `invoke` returns the error `codes.New(code, message)`, which carries exactly
that code and message, whatever the deserializer would do with the payload (it is not
run); and on every envelope with `ret_code = 0` the check returns what deserializing
the payload returns. -/
theorem C7_business_error_pass_through (K : codes.Consts) (payload : Option (List Byte))
    (e : codes.Error) (Unmarshal : Option (List Byte) → Option GoError)
    (hcode : e.Code ≠ 0) :
    (∃ response : protocol.Response,
        server_transport.addRspHeader K payload (some (GoError.codes (some e)))
          = Outcome.ret response ∧
        client.invokeResponse Unmarshal response
          = some (GoError.codes (some (codes.New e.Code e.Message))) ∧
        (codes.New e.Code e.Message).Code = e.Code ∧
        (codes.New e.Code e.Message).Message = e.Message) ∧
      (∀ response : protocol.Response, response.RetCode = 0 →
        client.invokeResponse Unmarshal response = Unmarshal response.Payload) := by
  refine ⟨⟨{ Payload := payload, RetCode := e.Code, RetMsg := e.Message }, rfl, ?_, rfl, rfl⟩,
    ?_⟩
  · simp [client.invokeResponse, hcode]
  · intro response h0
    simp [client.invokeResponse, h0]

/-- Witness for C7: the handler error `Error{code: 42, message: "nope"}`. -/
theorem C7_business_error_pass_through_witness :
    (42 : Int) ≠ 0 ∧
      ((∃ response : protocol.Response,
        server_transport.addRspHeader exampleConsts none
            (some (GoError.codes (some ⟨42, "nope", codes.ErrType.Business⟩)))
          = Outcome.ret response ∧
        client.invokeResponse (fun _ => some (GoError.other "unmarshal failed")) response
          = some (GoError.codes (some (codes.New 42 "nope"))) ∧
        (codes.New 42 "nope").Code = 42 ∧
        (codes.New 42 "nope").Message = "nope") ∧
      (∀ response : protocol.Response, response.RetCode = 0 →
        client.invokeResponse (fun _ => some (GoError.other "unmarshal failed")) response
          = (fun _ => some (GoError.other "unmarshal failed")) response.Payload)) :=
  ⟨by decide,
    C7_business_error_pass_through exampleConsts none
      ⟨42, "nope", codes.ErrType.Business⟩ (fun _ => some (GoError.other "unmarshal failed"))
      (by decide)⟩

/-- C8 fails on the code: for the service method `failingMethod`, which returns a nil
reply and the error `Error{42, "nope"}`, `getServiceMethods` accepts the method, and the
handler it builds returns the reply `values[0]` with a nil error, both without
interceptors and under a pass-through interceptor: the method's error `values[1]` is
never read. -/
theorem C8_handler_drops_method_error :
    (failingMethod.Call () "hello").2 = some (GoError.codes (some (codes.New 42 "nope"))) ∧
      (getServiceMethods [failingMethod] :
          Option (List (Option (MethodDesc (Handler Unit String (Option String) Unit))))
            × Option GoError)
        = (some [some { MethodName := "SayHello", Handler := methodHandler failingMethod }],
            none) ∧
      (methodHandler failingMethod : Handler Unit String (Option String) Unit)
          () () (fun _ => ("hello", none)) []
        = (some none, none) ∧
      (methodHandler failingMethod : Handler Unit String (Option String) Unit)
          () () (fun _ => ("hello", none)) [fun c r next => next c r]
        = (some none, none) :=
  ⟨rfl, rfl, rfl, rfl⟩

theorem registerLoop_map_some {H : Type} (ms : List (MethodDesc H)) :
    ∀ handlers : GoMap H, ∃ result : GoMap H,
      registerLoop handlers (ms.map some) = Outcome.ret result ∧
      ∀ name : String, result name =
        match (ms.reverse.find? (fun m => m.MethodName = name)) with
        | some m => some m.Handler
        | none => handlers name := by
  induction ms with
  | nil =>
    intro handlers
    exact ⟨handlers, rfl, fun name => by simp⟩
  | cons m ms ih =>
    intro handlers
    obtain ⟨result, hres, hlook⟩ := ih (handlers.set m.MethodName m.Handler)
    refine ⟨result, by simpa [registerLoop] using hres, fun name => ?_⟩
    rw [hlook name, List.reverse_cons, List.find?_append]
    cases hfind : ms.reverse.find? (fun m => m.MethodName = name) with
    | some m2 => simp
    | none =>
      by_cases hname : m.MethodName = name
      · simp [GoMap.set, hname]
      · have hname2 : ¬ name = m.MethodName := fun h => hname h.symm
        simp [GoMap.set, hname, hname2]

/-- C9: when `Server.Register` accepts a non-nil `sd` and a non-nil `svr` (the handler
type test holds and no method pointer is nil), it returns with the server's service
replaced by a new one for `svr` and `sd.ServiceName` whose handler table maps every
name to the handler of the last entry of `sd.Methods` with that name: the table holds
exactly the method names of `sd.Methods` and nothing of the service registered before.
When `sd` or `svr` is nil the server is returned unchanged. -/
theorem C9_register_replaces {S H O P T : Type}
    (implementsHandlerType : T → S → Outcome Bool) (s : Server S H O P) :
    (∀ (sd : ServiceDesc S H T) (svr : S) (ms : List (MethodDesc H)),
      implementsHandlerType sd.HandlerType svr = Outcome.ret true →
      sd.Methods = ms.map some →
      ∃ s2 : Server S H O P,
        s.Register implementsHandlerType (some sd) (some svr) = Outcome.ret s2 ∧
        s2.opts = s.opts ∧ s2.plugins = s.plugins ∧ s2.closing = s.closing ∧
        s2.service.svr = some svr ∧ s2.service.serviceName = sd.ServiceName ∧
        (∀ name : String, s2.service.handlers name
          = (ms.reverse.find? (fun m => m.MethodName = name)).map (fun m => m.Handler)) ∧
        (∀ name : String, (s2.service.handlers name).isSome = true
          ↔ name ∈ ms.map (fun m => m.MethodName))) ∧
      (∀ svr : Option S, s.Register implementsHandlerType (none : Option (ServiceDesc S H T)) svr
        = Outcome.ret s) ∧
      (∀ sd : Option (ServiceDesc S H T), s.Register implementsHandlerType sd none
        = Outcome.ret s) := by
  refine ⟨?_, fun svr => rfl, fun sd => ?_⟩
  · intro sd svr ms himpl hms
    obtain ⟨result, hres, hlook⟩ := registerLoop_map_some ms (GoMap.empty : GoMap H)
    have hlook2 : ∀ name : String, result name
        = (ms.reverse.find? (fun m => m.MethodName = name)).map (fun m => m.Handler) := by
      intro name
      rw [hlook name]
      cases ms.reverse.find? (fun m => m.MethodName = name) <;> simp [GoMap.empty]
    refine ⟨{ s with service :=
        { svr := some svr, serviceName := sd.ServiceName, handlers := result,
          opts := none, closing := false } }, ?_, rfl, rfl, rfl, rfl, rfl, hlook2, ?_⟩
    · simp only [Server.Register, himpl, hms, hres]
    · intro name
      show (result name).isSome = true ↔ _
      rw [hlook2 name]
      cases hfind : ms.reverse.find? (fun m => m.MethodName = name) with
      | some m =>
        have hm := List.mem_of_find?_eq_some hfind
        have hp := List.find?_some hfind
        simp only [Option.map_some', Option.isSome_some, List.mem_map, true_iff]
        exact ⟨m, List.mem_reverse.mp hm, by simpa using hp⟩
      | none =>
        simp only [Option.map_none', Option.isSome_none, List.mem_map]
        refine ⟨fun h => absurd h (by decide), ?_⟩
        rintro ⟨m, hm, hname⟩
        have := List.find?_eq_none.mp hfind m (List.mem_reverse.mpr hm)
        simp [hname] at this
  · cases sd <;> rfl

/-- Witness for C9: `greeterDesc` registered on `registeredServer`. -/
theorem C9_register_replaces_witness :
    ∃ s2 : Server Unit Nat Unit Unit,
      registeredServer.Register (fun _ _ => Outcome.ret true) (some greeterDesc) (some ())
        = Outcome.ret s2 ∧
      s2.opts = registeredServer.opts ∧ s2.plugins = registeredServer.plugins ∧
      s2.closing = registeredServer.closing ∧
      s2.service.svr = some () ∧ s2.service.serviceName = greeterDesc.ServiceName ∧
      (∀ name : String, s2.service.handlers name
        = (([⟨"A", 1⟩, ⟨"B", 2⟩, ⟨"A", 3⟩] : List (MethodDesc Nat)).reverse.find?
            (fun m => m.MethodName = name)).map (fun m => m.Handler)) ∧
      (∀ name : String, (s2.service.handlers name).isSome = true
        ↔ name ∈ ([⟨"A", 1⟩, ⟨"B", 2⟩, ⟨"A", 3⟩] : List (MethodDesc Nat)).map
            (fun m => m.MethodName)) :=
  (C9_register_replaces (fun (_ : Unit) (_ : Unit) => Outcome.ret true) registeredServer).1
    greeterDesc () [⟨"A", 1⟩, ⟨"B", 2⟩, ⟨"A", 3⟩] rfl rfl

/-- C10 as stated fails on the code: the method type `sayHelloExtraType` has four
in-parameters, not three, and `checkMethod` accepts it. -/
theorem C10_four_params_accepted :
    sayHelloExtraType.In.length ≠ 3 ∧ checkMethod sayHelloExtraType = none := by
  decide

/-- C10, amended: `checkMethod` accepts a method type if and only if it has at least 3
in-parameters (receiver included), exactly 2 out-parameters, its first non-receiver
parameter implements `context.Context`, its request parameter (the one after it) is a
pointer, its first result is a pointer and its last result implements `error`; so every
method type with fewer than 3 in-parameters is rejected. -/
theorem C10_checkMethod_accepts_iff (method : methodType) :
    (checkMethod method = none ↔
        3 ≤ method.In.length ∧ method.Out.length = 2 ∧
        (method.In[1]?).map (fun t => t.ImplementsContext) = some true ∧
        (method.In[2]?).map (fun t => t.Kind) = some Kind.Ptr ∧
        (method.Out[0]?).map (fun t => t.Kind) = some Kind.Ptr ∧
        (method.Out[1]?).map (fun t => t.ImplementsError) = some true) ∧
      ¬ (method.In.length < 3 ∧ checkMethod method = none) := by
  have key : checkMethod method = none ↔
      3 ≤ method.In.length ∧ method.Out.length = 2 ∧
        (method.In[1]?).map (fun t => t.ImplementsContext) = some true ∧
        (method.In[2]?).map (fun t => t.Kind) = some Kind.Ptr ∧
        (method.Out[0]?).map (fun t => t.Kind) = some Kind.Ptr ∧
        (method.Out[1]?).map (fun t => t.ImplementsError) = some true := by
    unfold checkMethod
    by_cases hin : method.In.length < 3
    · rw [dif_pos hin]
      constructor
      · intro h
        exact absurd h (by simp)
      · intro h
        omega
    · by_cases hout : method.Out.length ≠ 2
      · rw [dif_neg hin, dif_pos hout]
        constructor
        · intro h
          exact absurd h (by simp)
        · intro h
          exact absurd h.2.1 hout
      · rw [dif_neg hin, dif_neg hout]
        have h1 : 1 < method.In.length := by omega
        have h2 : 2 < method.In.length := by omega
        have o0 : 0 < method.Out.length := by omega
        have o1 : 1 < method.Out.length := by omega
        simp only [List.get_eq_getElem,
          List.getElem?_eq_getElem h1, List.getElem?_eq_getElem h2,
          List.getElem?_eq_getElem o0, List.getElem?_eq_getElem o1, Option.map_some']
        by_cases c1 : method.In[1].ImplementsContext = true <;>
        by_cases c2 : method.In[2].Kind = Kind.Ptr <;>
        by_cases c3 : method.Out[0].Kind = Kind.Ptr <;>
        by_cases c4 : method.Out[1].ImplementsError = true <;>
        simp [c1, c2, c3, c4]
        all_goals omega
  exact ⟨key, fun h => by have := key.mp h.2; omega⟩

/-- C13 as stated fails on the code: after package initialization the registry has no
entry under `json`, and `GetSerialization("json")` is the protobuf serialization, the
same object as `GetSerialization("protobuf")`. -/
theorem C13_json_is_protobuf :
    GoMap.lookup serialization.serializationMapAfterInit serialization.Json = none ∧
      serialization.GetSerialization serialization.serializationMapAfterInit serialization.Json
        = serialization.Serialization.pbSerialization ∧
      serialization.GetSerialization serialization.serializationMapAfterInit serialization.Json
        = serialization.GetSerialization serialization.serializationMapAfterInit
            serialization.Protobuf := by
  decide

/-- C13, amended: after package initialization the serialization registry has an entry
for `protobuf`, the protobuf serialization, and one for `msgpack`, the msgpack
serialization, and no other entry; `GetSerialization` returns these two for their names
and the default, the protobuf serialization, for every other name, `json` included. -/
theorem C13_registry_after_init :
    GoMap.lookup serialization.serializationMapAfterInit "protobuf"
        = some serialization.Serialization.pbSerialization ∧
      GoMap.lookup serialization.serializationMapAfterInit "msgpack"
        = some serialization.Serialization.MsgpackSerialization ∧
      (∀ name : String, name ≠ "protobuf" → name ≠ "msgpack" →
        GoMap.lookup serialization.serializationMapAfterInit name = none) ∧
      serialization.GetSerialization serialization.serializationMapAfterInit "protobuf"
        = serialization.Serialization.pbSerialization ∧
      serialization.GetSerialization serialization.serializationMapAfterInit "msgpack"
        = serialization.Serialization.MsgpackSerialization ∧
      (∀ name : String, name ≠ "protobuf" → name ≠ "msgpack" →
        serialization.GetSerialization serialization.serializationMapAfterInit name
          = serialization.Serialization.pbSerialization) ∧
      serialization.GetSerialization serialization.serializationMapAfterInit "json"
        = serialization.Serialization.pbSerialization := by
  refine ⟨by decide, by decide, ?_, by decide, by decide, ?_, by decide⟩
  · intro name h1 h2
    simp [serialization.serializationMapAfterInit, serialization.registerSerialization,
      GoMap.lookup, GoMap.set, GoMap.empty, serialization.Protobuf, serialization.MsgPack, h1, h2]
  · intro name h1 h2
    simp [serialization.GetSerialization, serialization.serializationMapAfterInit,
      serialization.registerSerialization, GoMap.lookup, GoMap.set, GoMap.empty,
      serialization.Protobuf, serialization.MsgPack, serialization.DefaultSerialization, h1, h2]

theorem GoMap.lookup_foldl_set {V : Type} (regs : List (String × V)) :
    ∀ (m : Option (GoMap V)) (name : String),
      GoMap.lookup (regs.foldl (fun m r => some ((m.getD GoMap.empty).set r.1 r.2)) m) name
        = match lastRegistered regs name with
          | some v => some v
          | none => GoMap.lookup m name := by
  induction regs with
  | nil =>
    intro m name
    simp [lastRegistered]
  | cons r regs ih =>
    intro m name
    rw [List.foldl_cons, ih]
    simp only [lastRegistered, List.reverse_cons, List.find?_append]
    cases hfind : regs.reverse.find? (fun r => r.1 = name) with
    | some r2 => simp
    | none =>
      by_cases hname : r.1 = name
      · simp [GoMap.lookup, GoMap.set, hname]
      · have hname2 : ¬ name = r.1 := fun h => hname h.symm
        cases m <;> simp [GoMap.lookup, GoMap.set, GoMap.empty, hname, hname2]

theorem serialization.registerSerialization_eq (m : Option (GoMap serialization.Serialization))
    (name : String) (v : serialization.Serialization) :
    serialization.registerSerialization m name v = some ((m.getD GoMap.empty).set name v) := by
  cases m <;> rfl

theorem loadbalance.RegisterBalancer_eq (m : Option (GoMap loadbalance.Balancer))
    (name : String) (v : loadbalance.Balancer) :
    loadbalance.RegisterBalancer m name v = some ((m.getD GoMap.empty).set name v) := by
  cases m <;> rfl

theorem codec.RegisterCodec_eq (m : Option (GoMap codec.Codec))
    (name : String) (v : codec.Codec) :
    codec.RegisterCodec m name v = some ((m.getD GoMap.empty).set name v) := by
  cases m <;> rfl

theorem selector.RegisterSelector_eq (m : Option (GoMap selector.Selector))
    (name : String) (v : selector.Selector) :
    selector.RegisterSelector m name v = some ((m.getD GoMap.empty).set name v) := by
  cases m <;> rfl

/-- C14: in each of the four registries (serialization, balancer, codec, selector),
after any registrations `regs` made in order on any map, a lookup of `name` returns the
implementation most recently registered under `name` by `regs`, and when `regs` has none
under that name, what the lookup returned before; on a map without entries (nil or
empty) every lookup returns the default: the protobuf serialization, `RandomBalancer`,
`DefaultCodec`, `DefaultSelector`. So a later registration under a name overwrites the
earlier one and leaves the other names as they were. -/
theorem C14_registry_lookup :
    ((∀ (m : Option (GoMap serialization.Serialization))
        (regs : List (String × serialization.Serialization)) (name : String),
        serialization.GetSerialization
            (regs.foldl (fun m r => serialization.registerSerialization m r.1 r.2) m) name
          = (lastRegistered regs name).getD (serialization.GetSerialization m name)) ∧
      (∀ name : String, serialization.GetSerialization none name
          = serialization.Serialization.pbSerialization) ∧
      (∀ name : String, serialization.GetSerialization (some GoMap.empty) name
          = serialization.Serialization.pbSerialization)) ∧
    ((∀ (m : Option (GoMap loadbalance.Balancer))
        (regs : List (String × loadbalance.Balancer)) (name : String),
        loadbalance.GetBalancer
            (regs.foldl (fun m r => loadbalance.RegisterBalancer m r.1 r.2) m) name
          = (lastRegistered regs name).getD (loadbalance.GetBalancer m name)) ∧
      (∀ name : String, loadbalance.GetBalancer none name
          = loadbalance.Balancer.RandomBalancer) ∧
      (∀ name : String, loadbalance.GetBalancer (some GoMap.empty) name
          = loadbalance.Balancer.RandomBalancer)) ∧
    ((∀ (m : Option (GoMap codec.Codec)) (regs : List (String × codec.Codec)) (name : String),
        codec.GetCodec (regs.foldl (fun m r => codec.RegisterCodec m r.1 r.2) m) name
          = (lastRegistered regs name).getD (codec.GetCodec m name)) ∧
      (∀ name : String, codec.GetCodec none name = codec.DefaultCodec) ∧
      (∀ name : String, codec.GetCodec (some GoMap.empty) name = codec.DefaultCodec)) ∧
    ((∀ (m : Option (GoMap selector.Selector)) (regs : List (String × selector.Selector))
        (name : String),
        selector.GetSelector (regs.foldl (fun m r => selector.RegisterSelector m r.1 r.2) m) name
          = (lastRegistered regs name).getD (selector.GetSelector m name)) ∧
      (∀ name : String, selector.GetSelector none name = selector.DefaultSelector) ∧
      (∀ name : String, selector.GetSelector (some GoMap.empty) name
          = selector.DefaultSelector)) := by
  refine ⟨⟨?_, fun _ => rfl, fun _ => rfl⟩, ⟨?_, fun _ => rfl, fun _ => rfl⟩,
    ⟨?_, fun _ => rfl, fun _ => rfl⟩, ⟨?_, fun _ => rfl, fun _ => rfl⟩⟩
  · intro m regs name
    simp only [serialization.GetSerialization, serialization.registerSerialization_eq,
      GoMap.lookup_foldl_set]
    cases lastRegistered regs name <;> rfl
  · intro m regs name
    simp only [loadbalance.GetBalancer, loadbalance.RegisterBalancer_eq,
      GoMap.lookup_foldl_set]
    cases lastRegistered regs name <;> rfl
  · intro m regs name
    simp only [codec.GetCodec, codec.RegisterCodec_eq, GoMap.lookup_foldl_set]
    cases lastRegistered regs name <;> rfl
  · intro m regs name
    simp only [selector.GetSelector, selector.RegisterSelector_eq, GoMap.lookup_foldl_set]
    cases lastRegistered regs name <;> rfl

/-- C15 as stated fails on the code: a call `Invoke` with the options
`WithTarget("127.0.0.1:8000")` and `WithInterceptor(7)` on a new client leaves the
client's stored target and interceptor list changed, and a later `Invoke` without
options on the same client runs with that target and that interceptor. -/
theorem C15_options_persist :
    ((client.New : client.defaultClient Nat).Invoke greeterEnv context.Background 0
        "/helloworld.Greeter/SayHello"
        [client.WithTarget "127.0.0.1:8000", client.WithInterceptor [7]]).2.opts.target
      ≠ (client.New : client.defaultClient Nat).opts.target ∧
    ((client.New : client.defaultClient Nat).Invoke greeterEnv context.Background 0
        "/helloworld.Greeter/SayHello"
        [client.WithTarget "127.0.0.1:8000", client.WithInterceptor [7]]).2.opts.interceptors
      ≠ (client.New : client.defaultClient Nat).opts.interceptors ∧
    ((((client.New : client.defaultClient Nat).Invoke greeterEnv context.Background 0
        "/helloworld.Greeter/SayHello"
        [client.WithTarget "127.0.0.1:8000", client.WithInterceptor [7]]).2).Invoke greeterEnv
        context.Background 1 "/helloworld.Greeter/SayHello" []).2.opts.interceptors = [7] ∧
    ((((client.New : client.defaultClient Nat).Invoke greeterEnv context.Background 0
        "/helloworld.Greeter/SayHello"
        [client.WithTarget "127.0.0.1:8000", client.WithInterceptor [7]]).2).Invoke greeterEnv
        context.Background 1 "/helloworld.Greeter/SayHello" []).2.opts.target
      = "127.0.0.1:8000" := by
  decide

/-- C15, amended: `Invoke` applies the call's options to the client's stored options
themselves. After `Invoke` the stored options are the stored options before with every
option of the call applied in order and, when the path parses, with the service name and
the method of the path; the interceptors handed to the chain are the stored list after
the options, to which `WithInterceptor` appends. What one call sets stays set for the
next call. -/
theorem C15_invoke_updates_stored_options {I : Type} (env : client.InvokeEnv I)
    (c : client.defaultClient I) (ctx : context.Context) (now : Int) (path : String)
    (opts : List (client.ClientOption I)) :
    (c.Invoke env ctx now path opts).2.opts
        = (match (env.ParseServicePath path).2.2 with
          | some _ => opts.foldl (fun o f => f o) c.opts
          | none =>
            { opts.foldl (fun o f => f o) c.opts with
              serviceName := (env.ParseServicePath path).1,
              method := (env.ParseServicePath path).2.1 }) ∧
      (c.Invoke env ctx now path opts).2.opts.target
        = (opts.foldl (fun o f => f o) c.opts).target ∧
      (c.Invoke env ctx now path opts).2.opts.serializationType
        = (opts.foldl (fun o f => f o) c.opts).serializationType ∧
      (c.Invoke env ctx now path opts).2.opts.selectorName
        = (opts.foldl (fun o f => f o) c.opts).selectorName ∧
      (c.Invoke env ctx now path opts).2.opts.interceptors
        = (opts.foldl (fun o f => f o) c.opts).interceptors ∧
      (∀ (o : client.ClientOptions I) (is : List I),
        (client.WithInterceptor is o).interceptors = o.interceptors ++ is) := by
  unfold client.defaultClient.Invoke
  cases h : (env.ParseServicePath path).2.2 <;>
    simp [h, client.WithServiceName, client.WithMethod, client.WithInterceptor]

/-- C16 fails on the code: on a new client called with `WithTimeout(10ms)` at instant 0
and the background context, `Invoke` returns what the interceptor chain returns for a
context without any deadline: the context derived by `context.WithTimeout`, whose
deadline would be `0 + 10ms`, is not the one handed on. -/
theorem C16_timeout_context_dropped
    (ClientIntercept : context.Context → List Nat → client.ClientOptions Nat → Option GoError) :
    ((client.New : client.defaultClient Nat).Invoke
        { ParseServicePath := greeterEnv.ParseServicePath, ClientIntercept := ClientIntercept }
        context.Background 0 "/helloworld.Greeter/SayHello"
        [client.WithTimeout 10000000]).2.opts.timeout = 10000000 ∧
    ((client.New : client.defaultClient Nat).Invoke
        { ParseServicePath := greeterEnv.ParseServicePath, ClientIntercept := ClientIntercept }
        context.Background 0 "/helloworld.Greeter/SayHello"
        [client.WithTimeout 10000000]).1
      = ClientIntercept
          { deadline := none, err := none,
            clientStream := some { ServiceName := "helloworld.Greeter", Method := "SayHello" } }
          []
          { serviceName := "helloworld.Greeter", method := "SayHello", target := "",
            timeout := 10000000, network := "", protocol := "proto", serializationType := "",
            interceptors := [], selectorName := "" } ∧
    (context.WithTimeout context.Background 0 10000000).deadline = some 10000000 :=
  ⟨rfl, rfl, rfl⟩

/-- C17 as stated fails on the code: with `dial_timeout = 200ms` and a context whose
deadline is 10 s after the clock reading, the timeout of the dial is 10 s, which is
neither `min(dial_timeout, deadline - now)` nor at most `dial_timeout`. -/
theorem C17_deadline_overrides_dial_timeout :
    connpool.dialTimeoutOf 200000000
        { deadline := some 10000000000, err := none, clientStream := none } 0 = 10000000000 ∧
      connpool.dialTimeoutOf 200000000
        { deadline := some 10000000000, err := none, clientStream := none } 0
        ≠ min 200000000 (10000000000 - 0) ∧
      ¬ (connpool.dialTimeoutOf 200000000
        { deadline := some 10000000000, err := none, clientStream := none } 0 ≤ 200000000) := by
  decide

/-- C17, amended: the timeout used by the `Dial` closure is `deadline.Sub(now)` when the
context has a deadline, whatever `dial_timeout` is (for instants less than `2^63` ns
apart this is `deadline - now`), and `dial_timeout` when the context has none; a context
that is already done is not dialed at all but answered with its error. -/
theorem C17_dial_timeout {C : Type} (netDialTimeout : Int → Option C × Option GoError)
    (dialTimeout : Int) (ctx : context.Context) (now : Int) :
    (ctx.deadline = none → connpool.dialTimeoutOf dialTimeout ctx now = dialTimeout) ∧
      (∀ t : Int, ctx.deadline = some t →
        connpool.dialTimeoutOf dialTimeout ctx now = time.Sub t now ∧
        (-(2 ^ 63) ≤ t - now → t - now ≤ 2 ^ 63 - 1 →
          connpool.dialTimeoutOf dialTimeout ctx now = t - now)) ∧
      (ctx.err = none → connpool.Dial netDialTimeout dialTimeout ctx now
        = netDialTimeout (connpool.dialTimeoutOf dialTimeout ctx now)) ∧
      (∀ err : GoError, ctx.err = some err →
        connpool.Dial netDialTimeout dialTimeout ctx now = (none, some err)) := by
  refine ⟨fun h => ?_, fun t h => ⟨?_, fun h1 h2 => ?_⟩, fun h => ?_, fun err h => ?_⟩
  · simp [connpool.dialTimeoutOf, h]
  · simp [connpool.dialTimeoutOf, h]
  · simp only [connpool.dialTimeoutOf, h, time.Sub, time.minDuration, time.maxDuration]
    rw [if_neg (by omega), if_neg (by omega)]
  · simp [connpool.Dial, h]
  · simp [connpool.Dial, h]

/-- C18 as stated fails on the code: on the open pool `poolWithUnusable`, whose dequeued
connection is marked unusable, `Get` returns no connection and the error
`ErrConnClosed`, whatever a dial would give; it does not return a new wrapped
connection. -/
theorem C18_unusable_gives_error :
    poolWithUnusable.conns
        = some { buf := [some { Conn := some 1, unusable := true, t := 0 }], closed := false } ∧
      (∀ dial : Option Nat × Option GoError,
        (poolWithUnusable.Get dial 5).1 = (none, some connpool.ErrConnClosed)) ∧
      (poolWithUnusable.Get (some 2, none) 5).1
        ≠ (some (poolWithUnusable.wrapConn (some 2) 5), none) := by
  refine ⟨rfl, fun dial => rfl, by decide⟩

/-- C18, amended: on an open pool, `Get` takes the oldest idle connection off the queue
if there is one and returns it when it is not marked unusable; when it is marked
unusable (or is a nil pointer) `Get` returns `ErrConnClosed` without dialing; when the
queue is empty `Get` dials and returns the new wrapped connection, or the error of the
dial. In no case does it return a connection whose unusable flag is set. -/
theorem C18_get_cases {C : Type} (c : connpool.sonConnPool C)
    (ch : connpool.chan (Option (connpool.PoolConn C)))
    (dial : Option C × Option GoError) (now : Int)
    (hopen : c.conns = some ch) (hnotclosed : ch.closed = false) :
    (∀ (pc : connpool.PoolConn C) (rest : List (Option (connpool.PoolConn C))),
        ch.buf = some pc :: rest → pc.unusable = false →
        c.Get dial now = ((some pc, none), { c with conns := some { ch with buf := rest } })) ∧
      (∀ (pc : connpool.PoolConn C) (rest : List (Option (connpool.PoolConn C))),
        ch.buf = some pc :: rest → pc.unusable = true →
        c.Get dial now = ((none, some connpool.ErrConnClosed),
          { c with conns := some { ch with buf := rest } })) ∧
      (∀ rest : List (Option (connpool.PoolConn C)), ch.buf = none :: rest →
        c.Get dial now = ((none, some connpool.ErrConnClosed),
          { c with conns := some { ch with buf := rest } })) ∧
      (ch.buf = [] → dial.2 = none →
        c.Get dial now = ((some (c.wrapConn dial.1 now), none), c)) ∧
      (∀ err : GoError, ch.buf = [] → dial.2 = some err →
        c.Get dial now = ((none, some err), c)) ∧
      (∀ pc : connpool.PoolConn C, (c.Get dial now).1.1 = some pc → pc.unusable = false) := by
  obtain ⟨conn, derr⟩ := dial
  refine ⟨?_, ?_, ?_, ?_, ?_, ?_⟩
  · intro pc rest hbuf hu
    simp [connpool.sonConnPool.Get, hopen, hbuf, hu]
  · intro pc rest hbuf hu
    simp [connpool.sonConnPool.Get, hopen, hbuf, hu]
  · intro rest hbuf
    simp [connpool.sonConnPool.Get, hopen, hbuf]
  · intro hbuf hd
    simp only at hd
    simp [connpool.sonConnPool.Get, hopen, hbuf, hnotclosed, hd]
  · intro err hbuf hd
    simp only at hd
    simp [connpool.sonConnPool.Get, hopen, hbuf, hnotclosed, hd]
  · intro pc hpc
    simp only [connpool.sonConnPool.Get, hopen] at hpc
    cases hbuf : ch.buf with
    | nil =>
      cases derr with
      | none =>
        simp [hbuf, hnotclosed] at hpc
        rw [← hpc]
        rfl
      | some e => simp [hbuf, hnotclosed] at hpc
    | cons x rest =>
      cases x with
      | none => simp [hbuf] at hpc
      | some pc2 =>
        by_cases hu : pc2.unusable = true
        · simp [hbuf, hu] at hpc
        · simp [hbuf, hu] at hpc
          rw [← hpc]
          simpa using hu

/-- Witness for C18: an open pool with one usable idle connection. -/
theorem C18_get_cases_witness :
    poolWithIdle.conns = some idleChan ∧ idleChan.closed = false ∧
      poolWithIdle.Get (some 2, none) 5
        = ((some { Conn := some 1, unusable := false, t := 0 }, none),
            { poolWithIdle with conns := some { idleChan with buf := [] } }) :=
  ⟨rfl, rfl,
    (C18_get_cases poolWithIdle idleChan (some 2, none) 5 rfl rfl).1
      { Conn := some 1, unusable := false, t := 0 } [] rfl rfl⟩

theorem transport.ioReadFull_conn_length (conn buf : List Byte) :
    (transport.ioReadFull conn buf).conn.length ≤ conn.length := by
  unfold transport.ioReadFull
  split
  · simp
  · split <;> simp

theorem transport.ioReadFull_err_none (conn buf : List Byte)
    (h : (transport.ioReadFull conn buf).err = none) :
    buf.length ≤ conn.length ∧
      (transport.ioReadFull conn buf).conn = conn.drop buf.length := by
  unfold transport.ioReadFull at h ⊢
  split
  · rename_i hle
    exact ⟨hle, rfl⟩
  · rename_i hle
    rw [if_neg hle] at h
    split at h <;> simp at h

/-- A `ReadFrame` that returns without error has taken at least the fifteen header bytes
off the stream. -/
theorem transport.ReadFrame_consumes (K : codes.Consts) (f : transport.framer)
    (conn : List Byte) (frame : Option (List Byte))
    (h : (f.ReadFrame K conn).1 = Outcome.ret (frame, none)) :
    (f.ReadFrame K conn).2.2.length + 15 ≤ conn.length := by
  unfold transport.framer.ReadFrame at h ⊢
  simp only [] at h ⊢
  split at h
  · rename_i hbad
    simp only [Outcome.ret.injEq, Prod.mk.injEq] at h
    have h15 := transport.ioReadFull_err_none conn (List.replicate codec.FrameHeadLen 0) h.2
    exfalso
    rcases hbad with hnum | herr
    · apply hnum
      unfold transport.ioReadFull
      rw [if_pos h15.1]
      simp
    · exact herr h.2
  · rename_i hgood
    rw [if_neg hgood]
    have herr : (transport.ioReadFull conn (List.replicate codec.FrameHeadLen 0)).err = none := by
      by_contra hne
      exact hgood (Or.inr hne)
    obtain ⟨hle0, hconn0⟩ := transport.ioReadFull_err_none conn _ herr
    have hle : 15 ≤ conn.length := by
      simpa [codec.FrameHeadLen] using hle0
    have hconn : (transport.ioReadFull conn (List.replicate codec.FrameHeadLen 0)).conn
        = conn.drop 15 := by
      rw [hconn0]
      simp [codec.FrameHeadLen]
    split at h
    · simp at h
    · rename_i hm
      rw [if_neg hm]
      split at h
      · simp at h
      · rename_i hbig
        rw [if_neg hbig]
        split at h
        · simp at h
        · rename_i hpanic
          rw [if_neg hpanic]
          have hlen2 := transport.ioReadFull_conn_length
            (transport.ioReadFull conn (List.replicate codec.FrameHeadLen 0)).conn
            (List.take (codec.bigEndianUint32 (List.take 4 (List.drop 7
              (transport.ioReadFull conn (List.replicate codec.FrameHeadLen 0)).buf)))
              (f.grow (codec.bigEndianUint32 (List.take 4 (List.drop 7
                (transport.ioReadFull conn (List.replicate codec.FrameHeadLen 0)).buf)))).buffer)
          rw [hconn, List.length_drop] at hlen2
          split <;> simp only [] <;> rw [hconn] <;> omega

theorem server_transport.handleConnLoop_isSome (K : codes.Consts)
    (env : server_transport.HandleEnv) (ctxErr : Nat → Option GoError) :
    ∀ (fuel i : Nat) (conn : server_transport.ConnWrapper), conn.input.length < fuel →
      (server_transport.handleConnLoop K env ctxErr fuel i conn).isSome = true := by
  intro fuel
  induction fuel with
  | zero =>
    intro i conn h
    omega
  | succ fuel ih =>
    intro i conn h
    simp only [server_transport.handleConnLoop]
    cases ctxErr i with
    | some err => rfl
    | none =>
      simp only []
      cases hr : (conn.Framer.ReadFrame K conn.input).1 with
      | panic msg => simp [server_transport.read, hr]
      | fatal msg => simp [server_transport.read, hr]
      | ret v =>
        obtain ⟨frame, err⟩ := v
        cases err with
        | some e =>
          simp only [server_transport.read, hr]
          split <;> rfl
        | none =>
          have hcons := transport.ReadFrame_consumes K conn.Framer conn.input frame hr
          simp only [server_transport.read, hr]
          cases server_transport.handle K env frame with
          | panic msg => rfl
          | fatal msg => rfl
          | ret v2 =>
            simp only [server_transport.write]
            apply ih
            simp only []
            omega

/-- The loop of `handleConn` always ends: the model returns a result on every input. -/
theorem server_transport.handleConn_isSome (K : codes.Consts)
    (env : server_transport.HandleEnv) (ctxErr : Nat → Option GoError)
    (conn : server_transport.ConnWrapper) :
    (server_transport.handleConn K env ctxErr conn).isSome = true := by
  have h := server_transport.handleConnLoop_isSome K env ctxErr (conn.input.length + 1) 0 conn
    (Nat.lt_succ_self _)
  unfold server_transport.handleConn
  cases hl : server_transport.handleConnLoop K env ctxErr (conn.input.length + 1) 0 conn with
  | none => simp [hl] at h
  | some r => rfl

set_option maxRecDepth 100000 in
/-- C19 fails on the code: on `brokenWriteConn` one request frame is read, the
`conn.Write` of its response fails, and yet `handleConn` goes on with the loop, meets
end of stream at the next read and returns nil; the failed write is among the calls
made and the connection is closed on exit. -/
theorem C19_write_failure_returns_nil :
    brokenWriteConn.writeErrs = [some (GoError.other "write: broken pipe")] ∧
      (server_transport.handleConn exampleConsts echoEnv (fun _ => none) brokenWriteConn).map
          (fun r => (r.1, r.2.input, r.2.writeErrs, r.2.written, r.2.closed))
        = some (Outcome.ret none, [], [],
            [some [0x11, 0, 0, 0, 0, 0, 0, 0, 0, 0, 3, 0, 0, 0, 0, 1, 2, 3]], true) :=
  ⟨rfl, rfl⟩

theorem loadbalance.newRoundRobinPicker_inv (duration : Int) (nodes : List selector.Node)
    (now : Int) : (loadbalance.newRoundRobinPicker duration nodes now).inv :=
  ⟨le_refl _, Or.inr rfl⟩

/-- The picker after a `pick`, whatever node the call returns. -/
theorem loadbalance.roundRobinPicker.pick_snd (rp : loadbalance.roundRobinPicker)
    (nodes : List selector.Node) (now now2 : Int) :
    (rp.pick nodes now now2).2
      = if nodes.length = 0 then rp
        else if time.Sub now rp.lastUpdateTime > rp.duration ∨ (nodes.length : Int) ≠ rp.length then
          (if (0 : Int) = (nodes.length : Int) - 1 then
            { length := nodes.length, lastUpdateTime := now2, duration := rp.duration,
              lastIndex := 0 }
          else
            { length := nodes.length, lastUpdateTime := now2, duration := rp.duration,
              lastIndex := 0 + 1 })
        else
          (if rp.lastIndex = (nodes.length : Int) - 1 then { rp with lastIndex := 0 }
          else { rp with lastIndex := rp.lastIndex + 1 }) := by
  unfold loadbalance.roundRobinPicker.pick
  by_cases hne : nodes.length = 0
  · simp [hne]
  · rw [if_neg hne, if_neg hne]
    by_cases hr : time.Sub now rp.lastUpdateTime > rp.duration ∨ (nodes.length : Int) ≠ rp.length
    · simp only [if_pos hr]
      split
      · cases loadbalance.sliceAt nodes 0 <;> rfl
      · cases loadbalance.sliceAt nodes (0 + 1) <;> rfl
    · simp only [if_neg hr]
      split
      · cases loadbalance.sliceAt nodes 0 <;> rfl
      · cases loadbalance.sliceAt nodes (rp.lastIndex + 1) <;> rfl

/-- Every `pick` keeps the picker in the states described by `inv`, whatever the node
list and the clock readings are. -/
theorem loadbalance.roundRobinPicker.pick_inv (rp : loadbalance.roundRobinPicker)
    (nodes : List selector.Node) (now now2 : Int) (h : rp.inv) :
    (rp.pick nodes now now2).2.inv := by
  obtain ⟨h0, h1⟩ := h
  rw [loadbalance.roundRobinPicker.pick_snd]
  by_cases hne : nodes.length = 0
  · rw [if_pos hne]
    exact ⟨h0, h1⟩
  · rw [if_neg hne]
    by_cases hr : time.Sub now rp.lastUpdateTime > rp.duration ∨ (nodes.length : Int) ≠ rp.length
    · rw [if_pos hr]
      split
      · exact ⟨le_refl _, Or.inr rfl⟩
      · rename_i hlast
        refine ⟨by simp only []; omega, Or.inl ?_⟩
        simp only []
        omega
    · rw [if_neg hr]
      have hlen : (nodes.length : Int) = rp.length := by
        by_contra hc
        exact hr (Or.inr hc)
      split
      · exact ⟨le_refl _, Or.inr rfl⟩
      · rename_i hlast
        refine ⟨by simp only []; omega, Or.inl ?_⟩
        simp only []
        rcases h1 with h1 | h1 <;> omega

/-- One `pick` without refresh, on a picker whose cursor is in range, moves the cursor
to the next position cyclically and returns the node there. -/
theorem loadbalance.roundRobinPicker.pick_step (rp : loadbalance.roundRobinPicker)
    (nodes : List selector.Node) (now now2 : Int) (l : Nat)
    (hl : rp.lastIndex = (l : Int)) (hlt : l < nodes.length)
    (hlen : rp.length = (nodes.length : Int))
    (hno : time.Sub now rp.lastUpdateTime ≤ rp.duration) :
    rp.pick nodes now now2
      = (Outcome.ret nodes[(l + 1) % nodes.length]?,
          { rp with lastIndex := (((l + 1) % nodes.length : Nat) : Int) }) := by
  have hne : ¬ nodes.length = 0 := by omega
  have hnr : ¬ (time.Sub now rp.lastUpdateTime > rp.duration ∨ (nodes.length : Int) ≠ rp.length) := by
    intro h
    rcases h with h | h
    · omega
    · exact h hlen.symm
  unfold loadbalance.roundRobinPicker.pick
  rw [if_neg hne]
  simp only [if_neg hnr]
  by_cases hlast : l + 1 = nodes.length
  · have hmod : (l + 1) % nodes.length = 0 := by
      rw [hlast]
      exact Nat.mod_self _
    rw [if_pos (by omega), hmod]
    have h0 : loadbalance.sliceAt nodes 0 = nodes[0]? := by
      simp [loadbalance.sliceAt]
    rw [h0]
    have hsome : nodes[0]? = some (nodes[0]) := List.getElem?_eq_getElem (by omega)
    simp [hsome]
  · have hmod : (l + 1) % nodes.length = l + 1 := Nat.mod_eq_of_lt (by omega)
    rw [if_neg (by omega), hmod]
    have h1 : loadbalance.sliceAt nodes (rp.lastIndex + 1) = nodes[l + 1]? := by
      have : (rp.lastIndex + 1).toNat = l + 1 := by omega
      simp only [loadbalance.sliceAt, this]
      rw [if_pos (by omega)]
    simp only [h1]
    have hsome : nodes[l + 1]? = some (nodes[l + 1]) := List.getElem?_eq_getElem (by omega)
    simp [hsome, hl]

theorem loadbalance.roundRobinPicker.picks_norefresh (nodes : List selector.Node) :
    ∀ (times : List (Int × Int)) (rp : loadbalance.roundRobinPicker) (l : Nat),
      rp.lastIndex = (l : Int) → l < nodes.length → rp.length = (nodes.length : Int) →
      (∀ t ∈ times, time.Sub t.1 rp.lastUpdateTime ≤ rp.duration) →
      (rp.picks nodes times).1
        = (List.range times.length).map
            (fun j => Outcome.ret nodes[(l + 1 + j) % nodes.length]?) := by
  intro times
  induction times with
  | nil =>
    intro rp l _ _ _ _
    rfl
  | cons t ts ih =>
    intro rp l hl hlt hlen hno
    have hstep := loadbalance.roundRobinPicker.pick_step rp nodes t.1 t.2 l hl hlt hlen
      (hno t (List.mem_cons_self t ts))
    have hlt2 : (l + 1) % nodes.length < nodes.length := Nat.mod_lt _ (by omega)
    have ih2 := ih { rp with lastIndex := (((l + 1) % nodes.length : Nat) : Int) }
      ((l + 1) % nodes.length) rfl hlt2 hlen
      (fun x hx => hno x (List.mem_cons_of_mem t hx))
    simp only [loadbalance.roundRobinPicker.picks, hstep, ih2, List.length_cons,
      List.range_succ_eq_map, List.map_cons, List.map_map, Nat.add_zero]
    congr 1
    apply List.map_congr_left
    intro j _
    simp only [Function.comp]
    have : ((l + 1) % nodes.length + 1 + j) % nodes.length
        = (l + 1 + (j + 1)) % nodes.length := by
      rw [Nat.add_assoc, Nat.mod_add_mod]
      congr 1
      omega
    rw [this]

theorem loadbalance.cyclic_indexes_perm (n a : Nat) :
    ((List.range n).map (fun j => (a + j) % n)).Perm (List.range n) := by
  have h : (List.range n).map (fun j => (a + j) % n) = (List.range n).rotate a := by
    apply List.ext_getElem
    · simp
    · intro j h1 h2
      simp only [List.length_map, List.length_range] at h1
      rw [List.getElem_rotate]
      simp [Nat.add_comm]
  rw [h]
  exact List.rotate_perm _ _

/-- C11: let the node list have `n ≥ 1` nodes and let `n` consecutive `pick` calls on it
be made without a refresh (the picker's recorded length is `n` and at none of the calls
has the refresh duration elapsed), from any state a picker can be in. Then the calls
return the nodes at positions `idxs[0], ..., idxs[n-1]`, where `idxs` is a permutation
of `0, ..., n-1`: every index is returned exactly once. -/
theorem C11_round_robin_coverage (rp : loadbalance.roundRobinPicker)
    (nodes : List selector.Node) (times : List (Int × Int))
    (hn : 1 ≤ nodes.length) (hinv : rp.inv) (hlen : rp.length = (nodes.length : Int))
    (htimes : times.length = nodes.length)
    (hno : ∀ t ∈ times, time.Sub t.1 rp.lastUpdateTime ≤ rp.duration) :
    ∃ idxs : List Nat,
      (rp.picks nodes times).1 = idxs.map (fun i => Outcome.ret nodes[i]?) ∧
      idxs.Perm (List.range nodes.length) ∧
      (∀ i : Nat, i < nodes.length → idxs.count i = 1) := by
  obtain ⟨h0, h1⟩ := hinv
  have hlt : rp.lastIndex.toNat < nodes.length := by
    rcases h1 with h1 | h1 <;> omega
  have hl : rp.lastIndex = ((rp.lastIndex.toNat : Nat) : Int) := by omega
  have hperm := loadbalance.cyclic_indexes_perm nodes.length (rp.lastIndex.toNat + 1)
  refine ⟨(List.range nodes.length).map (fun j => (rp.lastIndex.toNat + 1 + j) % nodes.length),
    ?_, hperm, ?_⟩
  · rw [loadbalance.roundRobinPicker.picks_norefresh nodes times rp rp.lastIndex.toNat hl hlt
      hlen hno, htimes, List.map_map]
    rfl
  · intro i hi
    rw [hperm.count_eq]
    exact List.count_eq_one_of_mem (List.nodup_range _) (List.mem_range.mpr hi)

/-- Witness for C11: three picks on three nodes from the picker that `Balance` creates. -/
theorem C11_round_robin_coverage_witness :
    1 ≤ threeNodes.length ∧
      ∃ idxs : List Nat,
        ((loadbalance.newRoundRobinPicker 180000000000 threeNodes 0).picks threeNodes
            [(1, 1), (2, 2), (3, 3)]).1
          = idxs.map (fun i => Outcome.ret threeNodes[i]?) ∧
        idxs.Perm (List.range threeNodes.length) ∧
        (∀ i : Nat, i < threeNodes.length → idxs.count i = 1) :=
  ⟨by decide,
    C11_round_robin_coverage (loadbalance.newRoundRobinPicker 180000000000 threeNodes 0)
      threeNodes [(1, 1), (2, 2), (3, 3)] (by decide)
      (loadbalance.newRoundRobinPicker_inv 180000000000 threeNodes 0) rfl rfl (by decide)⟩

theorem loadbalance.pickLoopExact_fst (ns : List loadbalance.weightedNode) :
    ∀ (i : Nat) (vars : loadbalance.pickVars),
      (loadbalance.pickLoopExact ns i vars).1 = ns.map loadbalance.weightedNode.addWeight := by
  induction ns with
  | nil => intro i vars; rfl
  | cons n ns ih =>
    intro i vars
    simp only [loadbalance.pickLoopExact, ih, List.map_cons]
    rfl

theorem loadbalance.pickLoopExact_totalWeight (ns : List loadbalance.weightedNode) :
    ∀ (i : Nat) (vars : loadbalance.pickVars),
      (loadbalance.pickLoopExact ns i vars).2.totalWeight
        = vars.totalWeight + loadbalance.sumWeight ns := by
  induction ns with
  | nil => intro i vars; simp [loadbalance.pickLoopExact, loadbalance.sumWeight]
  | cons n ns ih =>
    intro i vars
    simp only [loadbalance.pickLoopExact, ih, loadbalance.sumWeight, List.map_cons, List.sum_cons]
    split <;> simp only [] <;> omega

/-- What the loop of `pick` leaves in `maxWeight` and `index`: `maxWeight` bounds the
start value and all new current weights; either both variables are untouched, or `index`
is the first position whose new current weight is `maxWeight`, and that is more than the
start value. -/
theorem loadbalance.pickLoopExact_max (ns : List loadbalance.weightedNode) :
    ∀ (i : Nat) (vars : loadbalance.pickVars),
      vars.maxWeight ≤ (loadbalance.pickLoopExact ns i vars).2.maxWeight ∧
      (∀ (j : Nat) (hj : j < ns.length),
        ns[j].currentWeight + ns[j].weight ≤ (loadbalance.pickLoopExact ns i vars).2.maxWeight) ∧
      (((loadbalance.pickLoopExact ns i vars).2.maxWeight = vars.maxWeight ∧
          (loadbalance.pickLoopExact ns i vars).2.index = vars.index) ∨
        (∃ (j : Nat) (hj : j < ns.length),
          (loadbalance.pickLoopExact ns i vars).2.index = i + j ∧
          ns[j].currentWeight + ns[j].weight = (loadbalance.pickLoopExact ns i vars).2.maxWeight ∧
          vars.maxWeight < (loadbalance.pickLoopExact ns i vars).2.maxWeight ∧
          (∀ (j2 : Nat) (hj2 : j2 < ns.length), j2 < j →
            ns[j2].currentWeight + ns[j2].weight
              < (loadbalance.pickLoopExact ns i vars).2.maxWeight))) := by
  induction ns with
  | nil =>
    intro i vars
    refine ⟨le_refl _, fun j hj => absurd hj (by simp), Or.inl ⟨rfl, rfl⟩⟩
  | cons n ns ih =>
    intro i vars
    simp only [loadbalance.pickLoopExact]
    by_cases hgt : n.currentWeight + n.weight > vars.maxWeight
    · simp only [if_pos hgt]
      obtain ⟨h1, h2, h3⟩ := ih (i + 1)
        { totalWeight := vars.totalWeight + n.weight,
          maxWeight := n.currentWeight + n.weight, index := i }
      simp only [] at h1 h2 h3
      refine ⟨by omega, ?_, Or.inr ?_⟩
      · intro j hj
        cases j with
        | zero => simpa using h1
        | succ j => simpa using h2 j (by simpa using hj)
      · rcases h3 with ⟨hm, hi⟩ | ⟨j, hj, hi, hv, hlt, hfirst⟩
        · refine ⟨0, by simp, by simpa using hi, by simpa using hm.symm, by omega, ?_⟩
          intro j2 _ hlt
          omega
        · refine ⟨j + 1, by simpa using hj, by omega, by simpa using hv, by omega, ?_⟩
          intro j2 hj2 hlt2
          cases j2 with
          | zero =>
            simp only [List.getElem_cons_zero]
            omega
          | succ j2 =>
            simpa using hfirst j2 (by simpa using hj2) (by omega)
    · simp only [if_neg hgt]
      obtain ⟨h1, h2, h3⟩ := ih (i + 1)
        { totalWeight := vars.totalWeight + n.weight,
          maxWeight := vars.maxWeight, index := vars.index }
      simp only [] at h1 h2 h3
      refine ⟨h1, ?_, ?_⟩
      · intro j hj
        cases j with
        | zero =>
          simp only [List.getElem_cons_zero]
          omega
        | succ j => simpa using h2 j (by simpa using hj)
      · rcases h3 with ⟨hm, hi⟩ | ⟨j, hj, hi, hv, hlt, hfirst⟩
        · exact Or.inl ⟨hm, hi⟩
        · refine Or.inr ⟨j + 1, by simpa using hj, by omega, by simpa using hv, hlt, ?_⟩
          intro j2 hj2 hlt2
          cases j2 with
          | zero =>
            simp only [List.getElem_cons_zero]
            omega
          | succ j2 =>
            simpa using hfirst j2 (by simpa using hj2) (by omega)

theorem loadbalance.exists_pos_of_sum_pos (l : List Int) (h : 0 < l.sum) :
    ∃ (j : Nat) (hj : j < l.length), 0 < l[j] := by
  induction l with
  | nil => simp at h
  | cons a l ih =>
    by_cases ha : 0 < a
    · exact ⟨0, by simp, by simpa using ha⟩
    · have hl : 0 < l.sum := by
        simp only [List.sum_cons] at h
        omega
      obtain ⟨j, hj, hpos⟩ := ih hl
      exact ⟨j + 1, by simpa using hj, by simpa using hpos⟩

theorem loadbalance.eq_of_le_of_sum_eq :
    ∀ (a b : List Int), a.length = b.length →
      (∀ (j : Nat) (ha : j < a.length) (hb : j < b.length), a[j] ≤ b[j]) → a.sum = b.sum →
      ∀ (j : Nat) (ha : j < a.length) (hb : j < b.length), a[j] = b[j] := by
  intro a
  induction a with
  | nil => intro b _ _ _ j ha; simp at ha
  | cons x a ih =>
    intro b hlen hle hsum j ha hb
    cases b with
    | nil => simp at hlen
    | cons y b =>
      have hxy : x ≤ y := by simpa using hle 0 (by simp) (by simp)
      have hle2 : ∀ (j : Nat) (ha : j < a.length) (hb : j < b.length), a[j] ≤ b[j] := by
        intro j ha hb
        simpa using hle (j + 1) (by simpa using ha) (by simpa using hb)
      have hsum_le : a.sum ≤ b.sum := by
        apply List.Forall₂.sum_le_sum
        rw [List.forall₂_iff_get]
        refine ⟨by simpa using hlen, fun i h1 h2 => ?_⟩
        simpa using hle2 i h1 h2
      simp only [List.sum_cons] at hsum
      have hx : x = y := by omega
      have hs : a.sum = b.sum := by omega
      cases j with
      | zero => simpa using hx
      | succ j =>
        simpa using ih b (by simpa using hlen) hle2 hs j (by simpa using ha) (by simpa using hb)

theorem loadbalance.sum_addWeight (ns : List loadbalance.weightedNode) :
    (ns.map (fun n => n.currentWeight + n.weight)).sum
      = loadbalance.sumCurrent ns + loadbalance.sumWeight ns := by
  induction ns with
  | nil => rfl
  | cons n ns ih =>
    simp only [List.map_cons, List.sum_cons, ih, loadbalance.sumCurrent, loadbalance.sumWeight]
    omega

theorem wrapInt_of_range (x : Int) (h1 : -2 ^ 63 ≤ x) (h2 : x < 2 ^ 63) : wrapInt x = x := by
  unfold wrapInt
  norm_num at h1 h2 ⊢
  omega

/-- As long as no sum leaves the range of `int`, the loop of `pick` computes what the
same loop computes in the integers: it suffices that no weight is negative, that every
new current weight is in range, and that the total weight is. -/
theorem loadbalance.pickLoop_eq_exact (ns : List loadbalance.weightedNode) :
    ∀ (i : Nat) (vars : loadbalance.pickVars),
      (∀ n ∈ ns, 0 ≤ n.weight ∧ -2 ^ 63 ≤ n.currentWeight + n.weight ∧
        n.currentWeight + n.weight < 2 ^ 63) →
      0 ≤ vars.totalWeight →
      vars.totalWeight + loadbalance.sumWeight ns < 2 ^ 63 →
      loadbalance.pickLoop ns i vars = loadbalance.pickLoopExact ns i vars := by
  induction ns with
  | nil => intro i vars _ _ _; rfl
  | cons n ns ih =>
    intro i vars hr h0 hS
    obtain ⟨hw, hlo, hhi⟩ := hr n (List.mem_cons_self n ns)
    have hrest : ∀ m ∈ ns, 0 ≤ m.weight ∧ -2 ^ 63 ≤ m.currentWeight + m.weight ∧
        m.currentWeight + m.weight < 2 ^ 63 :=
      fun m hm => hr m (List.mem_cons_of_mem n hm)
    have hnn : 0 ≤ loadbalance.sumWeight ns := by
      unfold loadbalance.sumWeight
      apply List.sum_nonneg
      intro x hx
      obtain ⟨m, hm, rfl⟩ := List.mem_map.mp hx
      exact (hrest m hm).1
    have hsum : loadbalance.sumWeight (n :: ns) = n.weight + loadbalance.sumWeight ns := by
      simp only [loadbalance.sumWeight, List.map_cons, List.sum_cons]
    rw [hsum] at hS
    have e1 : wrapInt (n.currentWeight + n.weight) = n.currentWeight + n.weight :=
      wrapInt_of_range _ hlo hhi
    have e2 : wrapInt (vars.totalWeight + n.weight) = vars.totalWeight + n.weight :=
      wrapInt_of_range _ (by norm_num; omega) (by omega)
    simp only [loadbalance.pickLoop, loadbalance.pickLoopExact, e1, e2]
    split
    · rw [ih (i + 1) _ hrest (by simp only []; omega) (by simp only []; omega)]
    · rw [ih (i + 1) _ hrest (by simp only []; omega) (by simp only []; omega)]

/-- One `pick` without refresh, when the current weights and the weights together sum
to more than 0 and no value leaves the range of `int`: the loop adds every weight to its
current weight, `index` is the first position where the new current weight is greatest,
that weight is positive, and the sum of the weights is taken off at that position. -/
theorem loadbalance.wRoundRobinPicker.pickAt_norefresh (wr : loadbalance.wRoundRobinPicker)
    (nodes : List selector.Node) (now now2 : Int)
    (hlen : nodes.length = wr.nodes.length) (hne : nodes.length ≠ 0)
    (hno : time.Sub now wr.lastUpdateTime ≤ wr.duration)
    (hpos : 0 < loadbalance.sumCurrent wr.nodes + loadbalance.sumWeight wr.nodes)
    (hw0 : ∀ n ∈ wr.nodes, 0 ≤ n.weight)
    (hS : loadbalance.sumWeight wr.nodes < 2 ^ 63)
    (hrange : ∀ n ∈ wr.nodes,
      -2 ^ 63 ≤ n.currentWeight + n.weight - loadbalance.sumWeight wr.nodes ∧
        n.currentWeight + n.weight < 2 ^ 63) :
    ∃ (idx : Nat) (hidx : idx < wr.nodes.length),
      (∀ (j : Nat) (hj : j < wr.nodes.length),
        wr.nodes[j].currentWeight + wr.nodes[j].weight
          ≤ wr.nodes[idx].currentWeight + wr.nodes[idx].weight) ∧
      0 < wr.nodes[idx].currentWeight + wr.nodes[idx].weight ∧
      (∀ (j : Nat) (hj : j < wr.nodes.length), j < idx →
        wr.nodes[j].currentWeight + wr.nodes[j].weight
          < wr.nodes[idx].currentWeight + wr.nodes[idx].weight) ∧
      wr.pickAt nodes now now2
        = (some idx, Outcome.ret (some wr.nodes[idx].node),
            { wr with nodes := ((wr.nodes.map loadbalance.weightedNode.addWeight).set idx
                ({ wr.nodes[idx] with
                  currentWeight := wr.nodes[idx].currentWeight + wr.nodes[idx].weight
                    - loadbalance.sumWeight wr.nodes } : loadbalance.weightedNode)) }) := by
  have hnr : ¬ (time.Sub now wr.lastUpdateTime > wr.duration ∨ nodes.length ≠ wr.nodes.length) := by
    intro h
    rcases h with h | h
    · omega
    · exact h hlen
  have hSnn : 0 ≤ loadbalance.sumWeight wr.nodes := by
    unfold loadbalance.sumWeight
    apply List.sum_nonneg
    intro x hx
    obtain ⟨m, hm, rfl⟩ := List.mem_map.mp hx
    exact hw0 m hm
  have hexact := loadbalance.pickLoop_eq_exact wr.nodes 0
    { totalWeight := 0, maxWeight := 0, index := 0 }
    (fun n hn => ⟨hw0 n hn, by have := (hrange n hn).1; omega, (hrange n hn).2⟩)
    (le_refl _) (by simp only [zero_add]; exact hS)
  obtain ⟨h1, h2, h3⟩ := loadbalance.pickLoopExact_max wr.nodes 0
    { totalWeight := 0, maxWeight := 0, index := 0 }
  have htot := loadbalance.pickLoopExact_totalWeight wr.nodes 0
    { totalWeight := 0, maxWeight := 0, index := 0 }
  have hfst := loadbalance.pickLoopExact_fst wr.nodes 0
    { totalWeight := 0, maxWeight := 0, index := 0 }
  simp only [zero_add] at h1 h2 h3 htot
  obtain ⟨p, hp, hppos⟩ := loadbalance.exists_pos_of_sum_pos
    (wr.nodes.map (fun n => n.currentWeight + n.weight))
    (by rw [loadbalance.sum_addWeight]; exact hpos)
  simp only [List.length_map] at hp
  simp only [List.getElem_map] at hppos
  have hmaxpos := h2 p hp
  rcases h3 with ⟨hm, _⟩ | ⟨j, hj, hi, hv, hlt, hfirst⟩
  · omega
  · refine ⟨j, hj, ?_, by omega, ?_, ?_⟩
    · intro j2 hj2
      rw [hv]
      exact h2 j2 hj2
    · intro j2 hj2 hlt2
      rw [hv]
      exact hfirst j2 hj2 hlt2
    · have hwrap : wrapInt (wr.nodes[j].currentWeight + wr.nodes[j].weight
          - loadbalance.sumWeight wr.nodes)
          = wr.nodes[j].currentWeight + wr.nodes[j].weight
            - loadbalance.sumWeight wr.nodes := by
        have hr := hrange wr.nodes[j] (List.getElem_mem _)
        exact wrapInt_of_range _ hr.1 (by omega)
      unfold loadbalance.wRoundRobinPicker.pickAt
      rw [if_neg hne]
      simp only [if_neg hnr, hexact, hi, hfst, htot]
      have hget : (wr.nodes.map loadbalance.weightedNode.addWeight)[j]?
          = some (wr.nodes[j]).addWeight := by
        rw [List.getElem?_map, List.getElem?_eq_getElem hj]
        rfl
      simp only [hget, loadbalance.weightedNode.addWeight, hwrap]

theorem loadbalance.sum_pos_of_pos (l : List Int) (hl : ∀ x ∈ l, 0 < x) (hne : l ≠ []) :
    0 < l.sum := by
  induction l with
  | nil => exact absurd rfl hne
  | cons a l ih =>
    have ha : 0 < a := hl a (List.mem_cons_self a l)
    have hnonneg : 0 ≤ l.sum :=
      List.sum_nonneg (fun x hx => le_of_lt (hl x (List.mem_cons_of_mem a hx)))
    simp only [List.sum_cons]
    omega

theorem loadbalance.getElem_set_addWeight (ns : List loadbalance.weightedNode) (idx : Nat)
    (x : loadbalance.weightedNode) (j : Nat) (hj : j < ns.length) :
    ((ns.map loadbalance.weightedNode.addWeight).set idx x)[j]?
      = some (if idx = j then x else (ns[j]).addWeight) := by
  have hj2 : j < ((ns.map loadbalance.weightedNode.addWeight).set idx x).length := by
    simpa using hj
  rw [List.getElem?_eq_getElem hj2, List.getElem_set]
  simp

theorem loadbalance.map_set_addWeight {β : Type} (f : loadbalance.weightedNode → β)
    (ns : List loadbalance.weightedNode) (idx : Nat) (hidx : idx < ns.length)
    (x : loadbalance.weightedNode) (hf : ∀ n : loadbalance.weightedNode, f n.addWeight = f n)
    (hx : f x = f ns[idx]) :
    ((ns.map loadbalance.weightedNode.addWeight).set idx x).map f = ns.map f := by
  apply List.ext_getElem?
  intro j
  by_cases hj : j < ns.length
  · rw [List.getElem?_map, loadbalance.getElem_set_addWeight ns idx x j hj, List.getElem?_map,
      List.getElem?_eq_getElem hj]
    by_cases hij : idx = j
    · subst hij
      simp [hx]
    · simp [hij, hf]
  · rw [List.getElem?_eq_none (by simpa using hj), List.getElem?_eq_none (by simpa using hj)]

theorem loadbalance.sumCurrent_set_addWeight (ns : List loadbalance.weightedNode) (idx : Nat)
    (hidx : idx < ns.length) (x : loadbalance.weightedNode) :
    loadbalance.sumCurrent ((ns.map loadbalance.weightedNode.addWeight).set idx x)
      = loadbalance.sumCurrent ns + loadbalance.sumWeight ns
        - (ns[idx].currentWeight + ns[idx].weight) + x.currentWeight := by
  unfold loadbalance.sumCurrent
  rw [List.map_set, List.sum_set', List.map_map]
  have hlen : idx < (List.map ((fun n => n.currentWeight) ∘ loadbalance.weightedNode.addWeight)
      ns).length := by simpa using hidx
  rw [dif_pos hlen]
  have hsum : (List.map ((fun n => n.currentWeight) ∘ loadbalance.weightedNode.addWeight) ns).sum
      = loadbalance.sumCurrent ns + loadbalance.sumWeight ns := by
    rw [← loadbalance.sum_addWeight]
    rfl
  rw [hsum]
  simp only [List.getElem_map, Function.comp, loadbalance.weightedNode.addWeight,
    loadbalance.sumCurrent]
  omega

/-- One `pick` without refresh from a state described by `wrrInv`, fewer than
`sum of weights` picks into the period: the position picked has not used up its weight,
the node returned is the node of `nodes` at that position, and the new state is
described by `wrrInv` for one pick more. -/
theorem loadbalance.wRoundRobinPicker.pickAt_inv (wr : loadbalance.wRoundRobinPicker)
    (nodes : List selector.Node) (now now2 : Int) (t : Nat) (idxs : List Nat)
    (hne : nodes ≠ []) (hw : ∀ n ∈ nodes, 0 < n.Weight)
    (hinv : loadbalance.wrrInv nodes t idxs wr.nodes)
    (ht : (t : Int) < (nodes.map (fun n => n.Weight)).sum)
    (hno : time.Sub now wr.lastUpdateTime ≤ wr.duration)
    (hbound : (nodes.map (fun n => n.Weight)).sum ≤ 2 ^ 31) :
    ∃ idx : Nat, idx < nodes.length ∧
      (wr.pickAt nodes now now2).1 = some idx ∧
      (wr.pickAt nodes now now2).2.1 = Outcome.ret nodes[idx]? ∧
      (wr.pickAt nodes now now2).2.2.lastUpdateTime = wr.lastUpdateTime ∧
      (wr.pickAt nodes now now2).2.2.duration = wr.duration ∧
      loadbalance.wrrInv nodes (t + 1) (idxs ++ [idx]) (wr.pickAt nodes now now2).2.2.nodes := by
  obtain ⟨hnode, hweight, hsum, hcur, hcnt⟩ := hinv
  have hlen : nodes.length = wr.nodes.length := by
    rw [← hnode, List.length_map]
  have hlen0 : nodes.length ≠ 0 := by
    intro h
    exact hne (List.length_eq_zero.mp h)
  have hS : loadbalance.sumWeight wr.nodes = (nodes.map (fun n => n.Weight)).sum := by
    unfold loadbalance.sumWeight
    rw [hweight]
  have hwpos : ∀ x ∈ wr.nodes.map (fun n => n.weight), 0 < x := by
    intro x hx
    rw [hweight] at hx
    obtain ⟨n, hn, rfl⟩ := List.mem_map.mp hx
    exact hw n hn
  have hSpos : 0 < loadbalance.sumWeight wr.nodes :=
    loadbalance.sum_pos_of_pos _ hwpos (by
      intro h
      have h2 := congrArg List.length h
      rw [List.length_map, List.length_nil] at h2
      omega)
  have hwj : ∀ (j : Nat) (hj : j < wr.nodes.length), 0 < wr.nodes[j].weight := by
    intro j hj
    exact hwpos _ (List.mem_map.mpr ⟨wr.nodes[j], List.getElem_mem hj, rfl⟩)
  have hwle : ∀ (j : Nat) (hj : j < wr.nodes.length),
      wr.nodes[j].weight ≤ loadbalance.sumWeight wr.nodes := by
    intro j hj
    exact List.single_le_sum (fun x hx => le_of_lt (hwpos x hx)) _
      (List.mem_map.mpr ⟨wr.nodes[j], List.getElem_mem hj, rfl⟩)
  have hrange : ∀ n ∈ wr.nodes,
      -2 ^ 63 ≤ n.currentWeight + n.weight - loadbalance.sumWeight wr.nodes ∧
        n.currentWeight + n.weight < 2 ^ 63 := by
    intro n hn
    obtain ⟨j, hj, rfl⟩ := List.getElem_of_mem hn
    have hc0 : (0 : Int) ≤ (idxs.count j : Int) := Int.natCast_nonneg _
    have hcw := hcnt j hj
    have hwS := hwle j hj
    have hw0 := hwj j hj
    have ht0 : (0 : Int) ≤ (t : Int) := Int.natCast_nonneg _
    have hSle : loadbalance.sumWeight wr.nodes ≤ 2 ^ 31 := by rw [hS]; exact hbound
    have hSc : loadbalance.sumWeight wr.nodes * (idxs.count j : Int) ≤ 2 ^ 31 * 2 ^ 31 :=
      mul_le_mul hSle (by omega) hc0 (by norm_num)
    have hSc0 : 0 ≤ loadbalance.sumWeight wr.nodes * (idxs.count j : Int) :=
      mul_nonneg (le_of_lt hSpos) hc0
    have htw : ((t : Int) + 1) * wr.nodes[j].weight ≤ 2 ^ 31 * 2 ^ 31 :=
      mul_le_mul (by rw [hS] at hSle; omega) (by omega) (le_of_lt hw0) (by norm_num)
    have htw0 : 0 ≤ ((t : Int) + 1) * wr.nodes[j].weight :=
      mul_nonneg (by omega) (le_of_lt hw0)
    rw [hcur j hj]
    norm_num at hSc htw hSle ⊢
    constructor <;> linarith
  obtain ⟨idx, hidx, hmax, hvpos, _, heq⟩ :=
    loadbalance.wRoundRobinPicker.pickAt_norefresh wr nodes now now2 hlen hlen0 hno
      (by omega)
      (fun n hn => le_of_lt (hwpos n.weight (List.mem_map.mpr ⟨n, hn, rfl⟩)))
      (by rw [hS]; have h31 : (2 : Int) ^ 31 < 2 ^ 63 := by norm_num
          omega)
      hrange
  -- the picked position has not used up its weight
  have hlt : (idxs.count idx : Int) < wr.nodes[idx].weight := by
    by_contra hge
    have hc := hcnt idx hidx
    have heqc : (idxs.count idx : Int) = wr.nodes[idx].weight := by omega
    have hv : wr.nodes[idx].currentWeight + wr.nodes[idx].weight
        = ((t : Int) + 2 - loadbalance.sumWeight wr.nodes) * wr.nodes[idx].weight := by
      rw [hcur idx hidx, heqc]
      ring
    by_cases hlast : (t : Int) + 2 ≤ loadbalance.sumWeight wr.nodes
    · have : ((t : Int) + 2 - loadbalance.sumWeight wr.nodes) * wr.nodes[idx].weight ≤ 0 :=
        mul_nonpos_of_nonpos_of_nonneg (by omega) (le_of_lt (hwj idx hidx))
      omega
    · have ht1 : (t : Int) + 1 = loadbalance.sumWeight wr.nodes := by omega
      have hvidx : wr.nodes[idx].currentWeight + wr.nodes[idx].weight
          = wr.nodes[idx].weight := by
        rw [hv]
        have : (t : Int) + 2 - loadbalance.sumWeight wr.nodes = 1 := by omega
        rw [this, one_mul]
      obtain ⟨l, hl, hlpos⟩ := loadbalance.exists_pos_of_sum_pos
        (wr.nodes.map (fun n => n.currentWeight)) (by
          have : (wr.nodes.map (fun n => n.currentWeight)).sum = loadbalance.sumCurrent wr.nodes := rfl
          omega)
      simp only [List.length_map] at hl
      simp only [List.getElem_map] at hlpos
      have hcl : wr.nodes[l].currentWeight
          = loadbalance.sumWeight wr.nodes * (wr.nodes[l].weight - (idxs.count l : Int)) := by
        rw [hcur l hl, ht1]
        ring
      have hdpos : 0 < wr.nodes[l].weight - (idxs.count l : Int) := by
        rw [hcl] at hlpos
        exact (mul_pos_iff_of_pos_left hSpos).mp hlpos
      have hclge : loadbalance.sumWeight wr.nodes ≤ wr.nodes[l].currentWeight := by
        rw [hcl]
        exact le_mul_of_one_le_right (le_of_lt hSpos) (by omega)
      have h1 := hmax l hl
      have h2 := hwle idx hidx
      have h3 := hwj l hl
      omega
  have hidxn : idx < nodes.length := by omega
  have hnodeidx : nodes[idx]? = some (wr.nodes[idx].node) := by
    rw [← hnode, List.getElem?_map, List.getElem?_eq_getElem hidx]
    rfl
  rw [heq]
  refine ⟨idx, hidxn, rfl, by simp only [hnodeidx], rfl, rfl, ?_⟩
  simp only []
  have hmapnode := loadbalance.map_set_addWeight (fun n => n.node) wr.nodes idx hidx
    ({ wr.nodes[idx] with
        currentWeight := wr.nodes[idx].currentWeight + wr.nodes[idx].weight
          - loadbalance.sumWeight wr.nodes } : loadbalance.weightedNode)
    (fun _ => rfl) rfl
  have hmapweight := loadbalance.map_set_addWeight (fun n => n.weight) wr.nodes idx hidx
    ({ wr.nodes[idx] with
        currentWeight := wr.nodes[idx].currentWeight + wr.nodes[idx].weight
          - loadbalance.sumWeight wr.nodes } : loadbalance.weightedNode)
    (fun _ => rfl) rfl
  have hS2 : loadbalance.sumWeight ((wr.nodes.map loadbalance.weightedNode.addWeight).set idx
      ({ wr.nodes[idx] with
        currentWeight := wr.nodes[idx].currentWeight + wr.nodes[idx].weight
          - loadbalance.sumWeight wr.nodes } : loadbalance.weightedNode))
      = loadbalance.sumWeight wr.nodes :=
    congrArg List.sum hmapweight
  refine ⟨by rw [hmapnode, hnode], by rw [hmapweight, hweight], ?_, ?_, ?_⟩
  · rw [hS2, loadbalance.sumCurrent_set_addWeight wr.nodes idx hidx]
    simp only []
    omega
  · intro j hj
    have hj2 : j < wr.nodes.length := by simpa using hj
    have hget := loadbalance.getElem_set_addWeight wr.nodes idx
      ({ wr.nodes[idx] with
        currentWeight := wr.nodes[idx].currentWeight + wr.nodes[idx].weight
          - loadbalance.sumWeight wr.nodes } : loadbalance.weightedNode) j hj2
    rw [List.getElem?_eq_getElem hj] at hget
    have hget2 := Option.some.inj hget
    rw [hget2, hS2, List.count_append]
    by_cases hij : idx = j
    · subst hij
      simp only [if_true, List.count_singleton_self, Nat.cast_add, Nat.cast_one]
      rw [hcur idx hidx]
      ring
    · have hc0 : List.count j [idx] = 0 := by
        rw [List.count_singleton]
        simp [hij]
      simp only [if_neg hij, hc0, Nat.add_zero, loadbalance.weightedNode.addWeight]
      rw [hcur j hj2]
      push_cast
      ring
  · intro j hj
    have hj2 : j < wr.nodes.length := by simpa using hj
    have hget := loadbalance.getElem_set_addWeight wr.nodes idx
      ({ wr.nodes[idx] with
        currentWeight := wr.nodes[idx].currentWeight + wr.nodes[idx].weight
          - loadbalance.sumWeight wr.nodes } : loadbalance.weightedNode) j hj2
    rw [List.getElem?_eq_getElem hj] at hget
    have hget2 := Option.some.inj hget
    rw [hget2, List.count_append]
    by_cases hij : idx = j
    · subst hij
      simp only [if_true, List.count_singleton_self, Nat.cast_add, Nat.cast_one]
      omega
    · have hc0 : List.count j [idx] = 0 := by
        rw [List.count_singleton]
        simp [hij]
      simp only [if_neg hij, hc0, Nat.add_zero, loadbalance.weightedNode.addWeight]
      exact hcnt j hj2

theorem loadbalance.wRoundRobinPicker.picks_append (nodes : List selector.Node) :
    ∀ (ts1 ts2 : List (Int × Int)) (wr : loadbalance.wRoundRobinPicker),
      wr.picks nodes (ts1 ++ ts2)
        = ((wr.picks nodes ts1).1 ++ ((wr.picks nodes ts1).2.picks nodes ts2).1,
            ((wr.picks nodes ts1).2.picks nodes ts2).2) := by
  intro ts1
  induction ts1 with
  | nil => intro ts2 wr; rfl
  | cons t ts1 ih =>
    intro ts2 wr
    show wr.picks nodes (t :: (ts1 ++ ts2)) = _
    simp only [loadbalance.wRoundRobinPicker.picks]
    rw [ih ts2 (wr.pickAt nodes t.1 t.2).2.2]
    rfl

/-- Picks without refresh from a state described by `wrrInv`, as long as the period of
`sum of weights` picks is not over: every pick returns the node at the position it
reports, and the state stays described by `wrrInv`. -/
theorem loadbalance.wRoundRobinPicker.picks_inv (nodes : List selector.Node)
    (hne : nodes ≠ []) (hw : ∀ n ∈ nodes, 0 < n.Weight)
    (hbound : (nodes.map (fun n => n.Weight)).sum ≤ 2 ^ 31) :
    ∀ (times : List (Int × Int)) (wr : loadbalance.wRoundRobinPicker) (t : Nat)
      (idxs : List Nat),
      loadbalance.wrrInv nodes t idxs wr.nodes →
      ((t + times.length : Nat) : Int) ≤ (nodes.map (fun n => n.Weight)).sum →
      (∀ x ∈ times, time.Sub x.1 wr.lastUpdateTime ≤ wr.duration) →
      ∃ new : List Nat,
        (wr.picks nodes times).1 = new.map (fun i => (some i, Outcome.ret nodes[i]?)) ∧
        (∀ i ∈ new, i < nodes.length) ∧
        (wr.picks nodes times).2.lastUpdateTime = wr.lastUpdateTime ∧
        (wr.picks nodes times).2.duration = wr.duration ∧
        loadbalance.wrrInv nodes (t + times.length) (idxs ++ new)
          (wr.picks nodes times).2.nodes := by
  intro times
  induction times with
  | nil =>
    intro wr t idxs hinv _ _
    exact ⟨[], rfl, fun i hi => absurd hi (List.not_mem_nil i), rfl, rfl, by simpa using hinv⟩
  | cons x times ih =>
    intro wr t idxs hinv hlen hno
    simp only [List.length_cons] at hlen
    obtain ⟨idx, hidx, h1, h2, h3, h4, h5⟩ :=
      loadbalance.wRoundRobinPicker.pickAt_inv wr nodes x.1 x.2 t idxs hne hw hinv
        (by push_cast at hlen ⊢; omega) (hno x (List.mem_cons_self x times)) hbound
    obtain ⟨new, g1, g2, g3, g4, g5⟩ := ih (wr.pickAt nodes x.1 x.2).2.2 (t + 1) (idxs ++ [idx]) h5
      (by push_cast at hlen ⊢; omega)
      (fun y hy => by
        rw [h3, h4]
        exact hno y (List.mem_cons_of_mem x hy))
    refine ⟨idx :: new, ?_, ?_, ?_, ?_, ?_⟩
    · simp only [loadbalance.wRoundRobinPicker.picks, g1, h1, h2, List.map_cons]
    · intro i hi
      rcases List.mem_cons.mp hi with rfl | hi
      · exact hidx
      · exact g2 i hi
    · simp only [loadbalance.wRoundRobinPicker.picks, g3, h3]
    · simp only [loadbalance.wRoundRobinPicker.picks, g4, h4]
    · simp only [loadbalance.wRoundRobinPicker.picks]
      have e1 : t + (times.length + 1) = t + 1 + times.length := by omega
      have e2 : idxs ++ idx :: new = idxs ++ [idx] ++ new := by simp
      rw [List.length_cons, e1, e2]
      exact g5

theorem loadbalance.weight_getElem (nodes : List selector.Node)
    (ns : List loadbalance.weightedNode)
    (h : ns.map (fun n => n.weight) = nodes.map (fun n => n.Weight))
    (j : Nat) (h1 : j < ns.length) (h2 : j < nodes.length) :
    ns[j].weight = nodes[j].Weight := by
  have h3 : (ns.map (fun n => n.weight))[j]? = (nodes.map (fun n => n.Weight))[j]? := by
    rw [h]
  rw [List.getElem?_map, List.getElem?_map, List.getElem?_eq_getElem h1,
    List.getElem?_eq_getElem h2] at h3
  exact Option.some.inj h3

theorem loadbalance.getWeightedNode_inv (nodes : List selector.Node)
    (hw : ∀ n ∈ nodes, 0 < n.Weight) :
    loadbalance.wrrInv nodes 0 [] (loadbalance.getWeightedNode nodes) := by
  refine ⟨?_, ?_, ?_, ?_, ?_⟩
  · unfold loadbalance.getWeightedNode
    rw [List.map_map]
    exact List.map_id _
  · unfold loadbalance.getWeightedNode
    rw [List.map_map]
    rfl
  · unfold loadbalance.sumCurrent loadbalance.sumWeight loadbalance.getWeightedNode
    rw [List.map_map, List.map_map]
    rfl
  · intro j hj
    simp [loadbalance.getWeightedNode]
  · intro j hj
    simp only [List.count_nil, Nat.cast_zero, loadbalance.getWeightedNode, List.getElem_map]
    exact le_of_lt (hw _ (List.getElem_mem _))

/-- One full period: from a state whose current weights equal the weights, as many picks
without refresh as the weights sum to return every position exactly as often as its
weight, and end in a state whose current weights equal the weights again. -/
theorem loadbalance.wRoundRobinPicker.picks_period (nodes : List selector.Node)
    (hne : nodes ≠ []) (hw : ∀ n ∈ nodes, 0 < n.Weight)
    (hbound : (nodes.map (fun n => n.Weight)).sum ≤ 2 ^ 31)
    (times : List (Int × Int)) (wr : loadbalance.wRoundRobinPicker)
    (hinv : loadbalance.wrrInv nodes 0 [] wr.nodes)
    (hlen : (times.length : Int) = (nodes.map (fun n => n.Weight)).sum)
    (hno : ∀ x ∈ times, time.Sub x.1 wr.lastUpdateTime ≤ wr.duration) :
    ∃ idxs : List Nat,
      (wr.picks nodes times).1 = idxs.map (fun i => (some i, Outcome.ret nodes[i]?)) ∧
      (∀ i ∈ idxs, i < nodes.length) ∧
      (wr.picks nodes times).2.lastUpdateTime = wr.lastUpdateTime ∧
      (wr.picks nodes times).2.duration = wr.duration ∧
      loadbalance.wrrInv nodes 0 [] (wr.picks nodes times).2.nodes ∧
      (∀ (j : Nat) (hj : j < nodes.length), (idxs.count j : Int) = nodes[j].Weight) := by
  obtain ⟨new, g1, g2, g3, g4, g5⟩ :=
    loadbalance.wRoundRobinPicker.picks_inv nodes hne hw hbound times wr 0 [] hinv
      (by simpa using le_of_eq hlen) hno
  simp only [List.nil_append, Nat.zero_add] at g5
  obtain ⟨knode, kweight, ksum, kcur, kcnt⟩ := g5
  have kS : loadbalance.sumWeight (wr.picks nodes times).2.nodes
      = (nodes.map (fun n => n.Weight)).sum := congrArg List.sum kweight
  have klen : (wr.picks nodes times).2.nodes.length = nodes.length := by
    have h := congrArg List.length knode
    rwa [List.length_map] at h
  have hSpos : 0 < (nodes.map (fun n => n.Weight)).sum :=
    loadbalance.sum_pos_of_pos _ (fun x hx => by
      obtain ⟨n, hn, rfl⟩ := List.mem_map.mp hx
      exact hw n hn) (by
      intro h
      exact hne (List.map_eq_nil_iff.mp h))
  -- current weight = weight + S * (weight - count), and the second summand is not negative
  have hform : ∀ (j : Nat) (hj : j < (wr.picks nodes times).2.nodes.length),
      (wr.picks nodes times).2.nodes[j].currentWeight
        = (wr.picks nodes times).2.nodes[j].weight
          + (nodes.map (fun n => n.Weight)).sum
            * ((wr.picks nodes times).2.nodes[j].weight - (new.count j : Int)) := by
    intro j hj
    rw [kcur j hj, kS, hlen]
    ring
  have hle : ∀ (j : Nat) (ha : j < ((wr.picks nodes times).2.nodes.map (fun n => n.weight)).length)
      (hb : j < ((wr.picks nodes times).2.nodes.map (fun n => n.currentWeight)).length),
      ((wr.picks nodes times).2.nodes.map (fun n => n.weight))[j]
        ≤ ((wr.picks nodes times).2.nodes.map (fun n => n.currentWeight))[j] := by
    intro j ha hb
    have hj : j < (wr.picks nodes times).2.nodes.length := by simpa using ha
    simp only [List.getElem_map]
    rw [hform j hj]
    have := mul_nonneg (le_of_lt hSpos) (by have := kcnt j hj; omega :
      0 ≤ (wr.picks nodes times).2.nodes[j].weight - (new.count j : Int))
    omega
  have heq := loadbalance.eq_of_le_of_sum_eq
    ((wr.picks nodes times).2.nodes.map (fun n : loadbalance.weightedNode => n.weight))
    ((wr.picks nodes times).2.nodes.map (fun n : loadbalance.weightedNode => n.currentWeight))
    (by simp) hle ksum.symm
  have hcount : ∀ (j : Nat) (hj : j < (wr.picks nodes times).2.nodes.length),
      (new.count j : Int) = (wr.picks nodes times).2.nodes[j].weight := by
    intro j hj
    have h1 := heq j (by simpa using hj) (by simpa using hj)
    simp only [List.getElem_map] at h1
    rw [hform j hj] at h1
    have h2 : (nodes.map (fun n => n.Weight)).sum
        * ((wr.picks nodes times).2.nodes[j].weight - (new.count j : Int)) = 0 := by omega
    rcases mul_eq_zero.mp h2 with h3 | h3
    · omega
    · omega
  refine ⟨new, g1, g2, g3, g4, ⟨knode, kweight, ksum, ?_, ?_⟩, ?_⟩
  · intro j hj
    have h1 := heq j (by simpa using hj) (by simpa using hj)
    simp only [List.getElem_map] at h1
    simp only [List.count_nil, Nat.cast_zero, mul_zero, sub_zero, Nat.cast_zero, zero_add,
      one_mul]
    exact h1.symm
  · intro j hj
    simp only [List.count_nil, Nat.cast_zero]
    have := hcount j hj
    omega
  · intro j hj
    have hj2 : j < (wr.picks nodes times).2.nodes.length := by omega
    rw [hcount j hj2]
    exact loadbalance.weight_getElem nodes _ kweight j hj2 hj

theorem loadbalance.wRoundRobinPicker.picks_periods (nodes : List selector.Node)
    (hne : nodes ≠ []) (hw : ∀ n ∈ nodes, 0 < n.Weight)
    (hbound : (nodes.map (fun n => n.Weight)).sum ≤ 2 ^ 31) :
    ∀ (m : Nat) (times : List (Int × Int)) (wr : loadbalance.wRoundRobinPicker),
      loadbalance.wrrInv nodes 0 [] wr.nodes →
      (times.length : Int) = (m : Int) * (nodes.map (fun n => n.Weight)).sum →
      (∀ x ∈ times, time.Sub x.1 wr.lastUpdateTime ≤ wr.duration) →
      ∃ idxs : List Nat,
        (wr.picks nodes times).1 = idxs.map (fun i => (some i, Outcome.ret nodes[i]?)) ∧
        (∀ i ∈ idxs, i < nodes.length) ∧
        (∀ (j : Nat) (hj : j < nodes.length),
          (idxs.count j : Int) = (m : Int) * nodes[j].Weight) := by
  have hSpos : 0 < (nodes.map (fun n => n.Weight)).sum :=
    loadbalance.sum_pos_of_pos _ (fun x hx => by
      obtain ⟨n, hn, rfl⟩ := List.mem_map.mp hx
      exact hw n hn) (by
      intro h
      exact hne (List.map_eq_nil_iff.mp h))
  intro m
  induction m with
  | zero =>
    intro times wr _ hlen _
    have hnil : times = [] := by
      apply List.length_eq_zero.mp
      simp only [Nat.cast_zero, zero_mul] at hlen
      omega
    subst hnil
    exact ⟨[], rfl, fun i hi => absurd hi (List.not_mem_nil i), fun j hj => by simp⟩
  | succ m ih =>
    intro times wr hinv hlen hno
    have hlen2 : (times.length : Int)
        = (m : Int) * (nodes.map (fun n => n.Weight)).sum
          + (nodes.map (fun n => n.Weight)).sum := by
      rw [hlen]
      push_cast
      ring
    have hmS : 0 ≤ (m : Int) * (nodes.map (fun n => n.Weight)).sum :=
      mul_nonneg (Int.natCast_nonneg m) (le_of_lt hSpos)
    obtain ⟨s, hs⟩ : ∃ s : Nat, (s : Int) = (nodes.map (fun n => n.Weight)).sum :=
      ⟨Int.toNat (nodes.map (fun n : selector.Node => n.Weight)).sum, by omega⟩
    have hsplit : times = times.take s ++ times.drop s := (List.take_append_drop _ _).symm
    have hl1 : ((times.take s).length : Int) = (nodes.map (fun n => n.Weight)).sum := by
      rw [List.length_take]
      omega
    have hl2 : ((times.drop s).length : Int)
        = (m : Int) * (nodes.map (fun n => n.Weight)).sum := by
      rw [List.length_drop]
      omega
    obtain ⟨idxs1, a1, a2, a3, a4, a5, a6⟩ :=
      loadbalance.wRoundRobinPicker.picks_period nodes hne hw hbound (times.take s) wr hinv hl1
        (fun x hx => hno x (List.mem_of_mem_take hx))
    obtain ⟨idxs2, b1, b2, b3⟩ :=
      ih (times.drop s) (wr.picks nodes (times.take s)).2 a5 hl2
        (fun x hx => by
          rw [a3, a4]
          exact hno x (List.mem_of_mem_drop hx))
    refine ⟨idxs1 ++ idxs2, ?_, ?_, ?_⟩
    · rw [hsplit, loadbalance.wRoundRobinPicker.picks_append, List.map_append, ← a1, ← b1]
    · intro i hi
      rcases List.mem_append.mp hi with h | h
      · exact a2 i h
      · exact b2 i h
    · intro j hj
      rw [List.count_append]
      push_cast
      rw [a6 j hj, b3 j hj]
      ring

/-- C12 as stated fails on the code for weights near the limit of `int`: the sums wrap
around. With the weights `2^63 - 1`, `2^63 - 1` and `3`, which sum to `2^64 + 1`, the
first seven picks of a new picker return the positions 2, 0, 2, 1, 2, 0, 2: the node of
weight 3 is returned four times within the first `S` picks. -/
theorem C12_overflow_breaks_proportion :
    (((loadbalance.newWRoundRobinPicker 180000000000 hugeNodes 0).picks hugeNodes
        (List.replicate 7 (1, 1))).1.map (fun r => r.1)
      = [some 2, some 0, some 2, some 1, some 2, some 0, some 2]) ∧
      (hugeNodes.map (fun n => n.Weight)) = [2 ^ 63 - 1, 2 ^ 63 - 1, 3] ∧
      (∀ n ∈ hugeNodes, 0 < n.Weight ∧ n.Weight < 2 ^ 63) := by
  decide

/-- C12, amended: for a non-empty node list with positive weights `w_1, ..., w_k` whose
sum `S = w_1 + ... + w_k` is at most `2^31` (so that no current weight leaves the range
of `int`), starting from the picker that `Balance` creates and with no refresh, the
first `m * S` picks return the nodes at positions `idxs` (the pick that reports position
`i` returns `nodes[i]`), and every position `i` occurs in `idxs` exactly `m * w_i`
times, for every `m`. -/
theorem C12_weighted_round_robin_proportional (nodes : List selector.Node)
    (duration t0 : Int) (m : Nat) (times : List (Int × Int))
    (hne : nodes ≠ []) (hw : ∀ n ∈ nodes, 0 < n.Weight)
    (hbound : (nodes.map (fun n => n.Weight)).sum ≤ 2 ^ 31)
    (hlen : (times.length : Int) = (m : Int) * (nodes.map (fun n => n.Weight)).sum)
    (hno : ∀ x ∈ times, time.Sub x.1 t0 ≤ duration) :
    ∃ idxs : List Nat,
      ((loadbalance.newWRoundRobinPicker duration nodes t0).picks nodes times).1
        = idxs.map (fun i => (some i, Outcome.ret nodes[i]?)) ∧
      (∀ i ∈ idxs, i < nodes.length) ∧
      (∀ (i : Nat) (hi : i < nodes.length), (idxs.count i : Int) = (m : Int) * nodes[i].Weight) :=
  loadbalance.wRoundRobinPicker.picks_periods nodes hne hw hbound m times
    (loadbalance.newWRoundRobinPicker duration nodes t0)
    (loadbalance.getWeightedNode_inv nodes hw) hlen hno

/-- Witness for C12: two periods (14 picks) on nodes with the weights 5, 1 and 1. -/
theorem C12_weighted_round_robin_proportional_witness :
    threeNodes ≠ [] ∧ (∀ n ∈ threeNodes, 0 < n.Weight) ∧
      ∃ idxs : List Nat,
        ((loadbalance.newWRoundRobinPicker 180000000000 threeNodes 0).picks threeNodes
            (List.replicate 14 (1, 1))).1
          = idxs.map (fun i => (some i, Outcome.ret threeNodes[i]?)) ∧
        (∀ i ∈ idxs, i < threeNodes.length) ∧
        (∀ (i : Nat) (hi : i < threeNodes.length),
          (idxs.count i : Int) = ((2 : Nat) : Int) * threeNodes[i].Weight) :=
  ⟨by decide, by decide,
    C12_weighted_round_robin_proportional threeNodes 180000000000 0 2
      (List.replicate 14 (1, 1)) (by decide) (by decide) (by decide) (by decide) (by decide)⟩

/-- C22: for a picker with `0 ≤ lastIndex < length` and a non-empty node list of `n`
nodes, `pick` first resets the cursor to 0, the length to `n` and the last-update time
to the clock reading if `now - lastUpdateTime > duration` or `n ≠ length`; with `c` the
cursor after that, it returns `nodes[(c + 1) mod n]` and leaves `lastIndex` at
`(c + 1) mod n`, an index below `n`. For an empty list it returns nil and leaves the
picker as it was. -/
theorem C22_round_robin_pick (rp : loadbalance.roundRobinPicker)
    (nodes : List selector.Node) (now now2 : Int)
    (hne : nodes ≠ []) (h0 : 0 ≤ rp.lastIndex) (h1 : rp.lastIndex < rp.length) :
    ((time.Sub now rp.lastUpdateTime > rp.duration ∨ (nodes.length : Int) ≠ rp.length) →
        rp.pick nodes now now2
          = (Outcome.ret nodes[(0 + 1) % nodes.length]?,
              { length := nodes.length, lastUpdateTime := now2, duration := rp.duration,
                lastIndex := (((0 + 1) % nodes.length : Nat) : Int) })) ∧
      (¬ (time.Sub now rp.lastUpdateTime > rp.duration ∨ (nodes.length : Int) ≠ rp.length) →
        rp.pick nodes now now2
          = (Outcome.ret nodes[(rp.lastIndex.toNat + 1) % nodes.length]?,
              { rp with lastIndex := (((rp.lastIndex.toNat + 1) % nodes.length : Nat) : Int) })) ∧
      (0 + 1) % nodes.length < nodes.length ∧
      (rp.lastIndex.toNat + 1) % nodes.length < nodes.length ∧
      rp.pick [] now now2 = (Outcome.ret none, rp) := by
  have hpos : 0 < nodes.length := List.length_pos.mpr hne
  refine ⟨fun hr => ?_, fun hr => ?_, Nat.mod_lt _ hpos, Nat.mod_lt _ hpos, rfl⟩
  · have hlen0 : ¬ nodes.length = 0 := by omega
    unfold loadbalance.roundRobinPicker.pick
    rw [if_neg hlen0]
    simp only [if_pos hr]
    by_cases hone : nodes.length = 1
    · have hmod : (0 + 1) % nodes.length = 0 := by rw [hone]
      rw [if_pos (by omega), hmod]
      have hs : loadbalance.sliceAt nodes 0 = nodes[0]? := by simp [loadbalance.sliceAt]
      rw [hs, List.getElem?_eq_getElem hpos]
      rfl
    · have hmod : (0 + 1) % nodes.length = 1 := Nat.mod_eq_of_lt (by omega)
      rw [if_neg (by omega), hmod]
      have hs : loadbalance.sliceAt nodes (0 + 1) = nodes[1]? := by simp [loadbalance.sliceAt]
      simp only [hs]
      rw [List.getElem?_eq_getElem (by omega : 1 < nodes.length)]
      rfl
  · have hlen : rp.length = (nodes.length : Int) := by
      by_contra hc
      exact hr (Or.inr (fun h => hc h.symm))
    have hno : time.Sub now rp.lastUpdateTime ≤ rp.duration := by
      by_contra hc
      exact hr (Or.inl (by omega))
    exact loadbalance.roundRobinPicker.pick_step rp nodes now now2 rp.lastIndex.toNat
      (by omega) (by omega) hlen hno

/-- Witness for C22: a picker for three nodes with the cursor at 1, called without
refresh: it returns the node at position 2 and leaves the cursor there. -/
theorem C22_round_robin_pick_witness :
    threeNodes ≠ [] ∧
      loadbalance.roundRobinPicker.pick
          { length := 3, lastUpdateTime := 0, duration := 180000000000, lastIndex := 1 }
          threeNodes 5 6
        = (Outcome.ret threeNodes[((1 : Int).toNat + 1) % threeNodes.length]?,
            { length := 3, lastUpdateTime := 0, duration := 180000000000,
              lastIndex := ((((1 : Int).toNat + 1) % threeNodes.length : Nat) : Int) }) :=
  ⟨by decide,
    (C22_round_robin_pick
      { length := 3, lastUpdateTime := 0, duration := 180000000000, lastIndex := 1 }
      threeNodes 5 6 (by decide) (by decide) (by decide)).2.1 (by decide)⟩

theorem strings.Split_ne_nil (sep : Char) (l : List Char) : strings.Split sep l ≠ [] := by
  cases l with
  | nil => simp [strings.Split]
  | cons c cs =>
    simp only [strings.Split]
    split
    · simp
    · split <;> simp

theorem strings.Split_of_not_mem (sep : Char) (l : List Char) (h : sep ∉ l) :
    strings.Split sep l = [l] := by
  induction l with
  | nil => rfl
  | cons c cs ih =>
    have hc : ¬ c = sep := fun e => h (by simp [e])
    have hcs : sep ∉ cs := fun e => h (List.mem_cons_of_mem c e)
    simp only [strings.Split, if_neg hc, ih hcs]

/-- Splitting at a separator that is there: the pieces of what follows the separator
come last, after at least one piece. -/
theorem strings.Split_append (sep : Char) (addr : List Char) :
    ∀ pre : List Char, ∃ pieces : List (List Char), pieces ≠ [] ∧
      strings.Split sep (pre ++ sep :: addr) = pieces ++ strings.Split sep addr := by
  intro pre
  induction pre with
  | nil => exact ⟨[[]], by simp, by simp [strings.Split]⟩
  | cons c pre ih =>
    obtain ⟨pieces, hne, hsplit⟩ := ih
    cases pieces with
    | nil => exact absurd rfl hne
    | cons p ps =>
      by_cases hc : c = sep
      · exact ⟨[] :: p :: ps, by simp, by
          have hs : strings.Split sep (pre.append (sep :: addr))
              = p :: ps ++ strings.Split sep addr := hsplit
          simp only [List.cons_append, strings.Split, if_pos hc, hs]⟩
      · exact ⟨(c :: p) :: ps, by simp, by
          have hs : strings.Split sep (pre.append (sep :: addr))
              = p :: ps ++ strings.Split sep addr := hsplit
          simp only [List.cons_append, strings.Split, if_neg hc, hs]⟩

theorem consul.parseAddrFromNode_of_split (node : selector.Node) (hkey : node.Key ≠ "")
    (pieces : List (List Char)) (addr : List Char)
    (h : strings.Split '/' node.Key.data = pieces ++ [addr]) :
    consul.parseAddrFromNode node = Outcome.ret (String.mk addr, none) := by
  unfold consul.parseAddrFromNode
  rw [if_neg hkey]
  simp only [h, loadbalance.sliceAt, List.length_append, List.length_singleton]
  have hidx : ((pieces.length + 1 : Nat) : Int) - 1 = (pieces.length : Int) := by
    push_cast; omega
  rw [hidx, if_pos (by omega), Int.toNat_ofNat]
  simp

/-- C21: for a node with a non-empty key, `parseAddrFromNode` returns without error; it
returns the part of the key after its last `/`, and the whole key if the key holds no
`/`; for an empty key it returns the error `addr is empty`. Hence for every service name
and every server address without `/`, parsing the key `<service>/<address>` that
`Consul.Init` registers gives that address. -/
theorem C21_parseAddrFromNode (node : selector.Node) :
    (node.Key = "" →
      consul.parseAddrFromNode node
        = Outcome.ret ("", some (GoError.other "addr is empty"))) ∧
    (node.Key ≠ "" → ∃ addr : String, consul.parseAddrFromNode node = Outcome.ret (addr, none)) ∧
    (node.Key ≠ "" → ∀ pre addr : List Char, node.Key.data = pre ++ '/' :: addr → '/' ∉ addr →
      consul.parseAddrFromNode node = Outcome.ret (String.mk addr, none)) ∧
    (node.Key ≠ "" → '/' ∉ node.Key.data →
      consul.parseAddrFromNode node = Outcome.ret (node.Key, none)) ∧
    (∀ serviceName svrAddr : String, '/' ∉ svrAddr.data →
      consul.parseAddrFromNode { node with Key := consul.nodeName serviceName svrAddr }
        = Outcome.ret (svrAddr, none)) := by
  have hpre : ∀ (n : selector.Node), n.Key ≠ "" → ∀ pre addr : List Char,
      n.Key.data = pre ++ '/' :: addr → '/' ∉ addr →
      consul.parseAddrFromNode n = Outcome.ret (String.mk addr, none) := by
    intro n hkey pre addr hdata hno
    obtain ⟨pieces, _, hsplit⟩ := strings.Split_append '/' addr pre
    rw [strings.Split_of_not_mem '/' addr hno] at hsplit
    exact consul.parseAddrFromNode_of_split n hkey pieces addr (by rw [hdata, hsplit])
  refine ⟨fun hkey => ?_, fun hkey => ?_, hpre node, fun hkey hno => ?_, fun serviceName svrAddr hno => ?_⟩
  · simp [consul.parseAddrFromNode, hkey]
  · have hne := strings.Split_ne_nil '/' node.Key.data
    obtain ⟨pieces, addr, hsplit⟩ : ∃ pieces addr,
        strings.Split '/' node.Key.data = pieces ++ [addr] :=
      ⟨_, _, (List.dropLast_append_getLast hne).symm⟩
    exact ⟨String.mk addr, consul.parseAddrFromNode_of_split node hkey pieces addr hsplit⟩
  · exact consul.parseAddrFromNode_of_split node hkey [] node.Key.data
      (by rw [strings.Split_of_not_mem '/' _ hno]; rfl)
  · have hdata : (consul.nodeName serviceName svrAddr).data
        = serviceName.data ++ '/' :: svrAddr.data := by
      simp [consul.nodeName, String.data_append]
    have hkey : consul.nodeName serviceName svrAddr ≠ "" := by
      intro h
      have := congrArg String.data h
      rw [hdata] at this
      simp at this
    exact hpre { node with Key := consul.nodeName serviceName svrAddr } hkey
      serviceName.data svrAddr.data hdata hno

/-- C29: there are two node lists of equal length and a node of the first list that is
not in the second such that, after `Balance` was called with the first list on a new
weighted balancer, a call with the second list for the same service, at any instant
within the three minutes of the refresh duration, returns that node of the first list:
the picker selects from the list it cached at its last refresh. -/
theorem C29_weighted_balance_cached_list :
    ∃ (A B : List selector.Node) (a : selector.Node),
      A.length = B.length ∧ a ∈ A ∧ a ∉ B ∧
      ∀ t : Int, 0 ≤ t → t ≤ 180000000000 →
        ((loadbalance.newWeightedRoundRobinBalancer.Balance "svc" A 0 0 0).2.Balance
          "svc" B t t t).1 = Outcome.ret (some a) := by
  refine ⟨nodesA, nodesB, { Key := "svc/10.0.0.2:8000", Value := [], Weight := 1 },
    by decide, by decide, by decide, ?_⟩
  intro t h0 h1
  have hsub : time.Sub t 0 = t := by
    unfold time.Sub time.minDuration time.maxDuration
    rw [if_neg (by omega), if_neg (by omega)]
    omega
  have h1 : (loadbalance.newWeightedRoundRobinBalancer.Balance "svc" nodesA 0 0 0).2.pickers "svc"
      = some
          { nodes :=
              [{ node := { Key := "svc/10.0.0.1:8000", Value := [], Weight := 1 },
                 weight := 1, effectiveWeight := 1, currentWeight := 0 },
               { node := { Key := "svc/10.0.0.2:8000", Value := [], Weight := 1 },
                 weight := 1, effectiveWeight := 1, currentWeight := 2 }],
            lastUpdateTime := 0, duration := 180000000000 } := by
    decide
  have hnr : ¬ (time.Sub t 0 > 180000000000 ∨ nodesB.length ≠ 2) := by
    rw [hsub]
    intro h
    rcases h with h | h
    · omega
    · exact h rfl
  generalize (loadbalance.newWeightedRoundRobinBalancer.Balance "svc" nodesA 0 0 0).2 = w1
    at h1
  simp only [loadbalance.weightedRoundRobinBalancer.Balance, h1,
    loadbalance.wRoundRobinPicker.pick, loadbalance.wRoundRobinPicker.pickAt]
  rw [if_neg (by decide)]
  simp only [List.length_cons, List.length_nil]
  simp only [if_neg hnr]
  rfl

/-- The value of `tempDelay` after one more temporary accept error, when it was 0 or
`min(5 ms * 2^(j-1), 1 s)` after `j` of them. -/
theorem server_transport.nextTempDelay_pow (j : Nat) :
    server_transport.nextTempDelay
        (if j = 0 then 0
          else min (server_transport.initialTempDelay * 2 ^ (j - 1))
            server_transport.maxTempDelay)
      = min (server_transport.initialTempDelay * 2 ^ j) server_transport.maxTempDelay := by
  have hi : server_transport.initialTempDelay = 5000000 := by decide
  have hm : server_transport.maxTempDelay = 1000000000 := by decide
  unfold server_transport.nextTempDelay
  rw [hi, hm]
  cases j with
  | zero => simp
  | succ j =>
    have hpos : (0 : Int) < 2 ^ j := by positivity
    have hx : (5000000 : Int) * 2 ^ (j + 1) = (5000000 * 2 ^ j) * 2 := by ring
    simp only [Nat.succ_ne_zero, if_false, Nat.add_sub_cancel]
    rw [hx]
    generalize (5000000 : Int) * 2 ^ j = x at *
    have hxpos : 0 < x := by omega
    simp only [min_def]
    split_ifs <;> omega

/-- The accept loop over iterations that all continue it, entered after `j` temporary
accept errors: it sleeps once for every temporary error, the `i`-th time for
`min(5 ms * 2^(j+i), 1 s)` counting from 0, and does not return; a following accept
error that is not temporary makes it return that error. -/
theorem server_transport.serveLoop_delays (events : List server_transport.AcceptEvent)
    (hcont : ∀ e ∈ events, e.continues = true) :
    ∀ j : Nat,
      (server_transport.serveLoop events
          (if j = 0 then 0
            else min (server_transport.initialTempDelay * 2 ^ (j - 1))
              server_transport.maxTempDelay)).1
        = (List.range (events.filter server_transport.AcceptEvent.isTemporary).length).map
            (fun i => min (server_transport.initialTempDelay * 2 ^ (j + i))
              server_transport.maxTempDelay) ∧
      (server_transport.serveLoop events
          (if j = 0 then 0
            else min (server_transport.initialTempDelay * 2 ^ (j - 1))
              server_transport.maxTempDelay)).2 = none ∧
      ∀ (err : GoError) (more : List server_transport.AcceptEvent),
        server_transport.serveLoop (events ++ server_transport.AcceptEvent.failed err :: more)
            (if j = 0 then 0
              else min (server_transport.initialTempDelay * 2 ^ (j - 1))
                server_transport.maxTempDelay)
          = ((server_transport.serveLoop events
                (if j = 0 then 0
                  else min (server_transport.initialTempDelay * 2 ^ (j - 1))
                    server_transport.maxTempDelay)).1, some (some err)) := by
  induction events with
  | nil =>
    intro j
    exact ⟨rfl, rfl, fun err more => rfl⟩
  | cons e events ih =>
    intro j
    have hrest : ∀ e2 ∈ events, e2.continues = true :=
      fun e2 h2 => hcont e2 (List.mem_cons_of_mem e h2)
    have he := hcont e (List.mem_cons_self e events)
    cases e with
    | ctxDone err => simp [server_transport.AcceptEvent.continues] at he
    | failed err => simp [server_transport.AcceptEvent.continues] at he
    | temporary err =>
      obtain ⟨ih1, ih2, ih3⟩ := ih hrest (j + 1)
      simp only [Nat.succ_ne_zero, if_false, Nat.add_sub_cancel] at ih1 ih2 ih3
      have hstep := server_transport.nextTempDelay_pow j
      refine ⟨?_, ?_, ?_⟩
      · simp only [server_transport.serveLoop, hstep, ih1, List.filter_cons,
          server_transport.AcceptEvent.isTemporary, if_true, List.length_cons,
          List.range_succ_eq_map, List.map_cons, List.map_map, Nat.add_zero]
        congr 1
        apply List.map_congr_left
        intro i _
        simp only [Function.comp]
        congr 2
        congr 1
        omega
      · simp only [server_transport.serveLoop, hstep, ih2]
      · intro err2 more
        have h : server_transport.serveLoop
            (events.append (server_transport.AcceptEvent.failed err2 :: more)) _ = _ :=
          ih3 err2 more
        simp only [List.cons_append, server_transport.serveLoop, hstep, h]
    | accepted keepAliveErr =>
      cases keepAliveErr with
      | some err => simp [server_transport.AcceptEvent.continues] at he
      | none =>
        obtain ⟨ih1, ih2, ih3⟩ := ih hrest j
        refine ⟨?_, ?_, ?_⟩
        · simp only [server_transport.serveLoop, ih1, List.filter_cons,
            server_transport.AcceptEvent.isTemporary]
          rfl
        · simp only [server_transport.serveLoop, ih2]
        · intro err2 more
          have h : server_transport.serveLoop
              (events.append (server_transport.AcceptEvent.failed err2 :: more)) _ = _ :=
            ih3 err2 more
          simp only [List.cons_append, server_transport.serveLoop, h]

/-- C24 as stated fails on the code: `tempDelay` is not set back when a connection is
accepted. A temporary accept error, an accepted connection and another temporary accept
error make the loop sleep 5 ms and then 10 ms, although the second error is the first of
a new run of consecutive temporary errors. -/
theorem C24_delay_not_reset :
    (server_transport.serve (GoError.other "network not supported") true
      [server_transport.AcceptEvent.temporary (GoError.other "accept: too many open files"),
       server_transport.AcceptEvent.accepted none,
       server_transport.AcceptEvent.temporary (GoError.other "accept: too many open files")]).1
      = [5000000, 10000000] := by
  decide

/-- C24, amended: over iterations of the accept loop that all continue it (temporary
accept errors and accepted connections, in any order), the loop sleeps once for every
temporary error, and the delay slept after the `k`-th temporary accept error since
`serve` started is `min(5 ms * 2^(k-1), 1 s)`, whether or not connections were accepted
in between; the loop does not return during these iterations, and an accept error that
is not temporary ends it with that error. -/
theorem C24_backoff_since_start (networkNotSupported : GoError)
    (events : List server_transport.AcceptEvent)
    (hcont : ∀ e ∈ events, e.continues = true) :
    (server_transport.serve networkNotSupported true events).1.length
        = (events.filter server_transport.AcceptEvent.isTemporary).length ∧
      (∀ k : Nat, 1 ≤ k →
        k ≤ (events.filter server_transport.AcceptEvent.isTemporary).length →
        (server_transport.serve networkNotSupported true events).1[k - 1]?
          = some (min (server_transport.initialTempDelay * 2 ^ (k - 1))
              server_transport.maxTempDelay)) ∧
      server_transport.initialTempDelay = 5 * 1000000 ∧
      server_transport.maxTempDelay = 1000000000 ∧
      (server_transport.serve networkNotSupported true events).2 = none ∧
      ∀ (err : GoError) (more : List server_transport.AcceptEvent),
        server_transport.serve networkNotSupported true
            (events ++ server_transport.AcceptEvent.failed err :: more)
          = ((server_transport.serve networkNotSupported true events).1, some (some err)) := by
  obtain ⟨h1, h2, h3⟩ := server_transport.serveLoop_delays events hcont 0
  simp only [if_true, zero_add] at h1 h2 h3
  refine ⟨?_, ?_, rfl, rfl, ?_, ?_⟩
  · simp only [server_transport.serve, if_true, h1, List.length_map, List.length_range]
  · intro k hk1 hk2
    simp only [server_transport.serve, if_true, h1]
    rw [List.getElem?_map, List.getElem?_range (by omega)]
    rfl
  · simp only [server_transport.serve, if_true, h2]
  · intro err more
    simp only [server_transport.serve, if_true]
    exact h3 err more

/-- Witness for C24: three temporary accept errors with an accepted connection after the
first one. -/
theorem C24_backoff_since_start_witness :
    (server_transport.serve (GoError.other "network not supported") true
      [server_transport.AcceptEvent.temporary (GoError.other "accept: too many open files"),
       server_transport.AcceptEvent.accepted none,
       server_transport.AcceptEvent.temporary (GoError.other "accept: too many open files"),
       server_transport.AcceptEvent.temporary
         (GoError.other "accept: too many open files")]).1.length = 3 :=
  (C24_backoff_since_start (GoError.other "network not supported")
    [server_transport.AcceptEvent.temporary (GoError.other "accept: too many open files"),
     server_transport.AcceptEvent.accepted none,
     server_transport.AcceptEvent.temporary (GoError.other "accept: too many open files"),
     server_transport.AcceptEvent.temporary (GoError.other "accept: too many open files")]
    (by decide)).1

theorem transport.ioReadFull_buf_length (conn buf : List Byte) :
    (transport.ioReadFull conn buf).buf.length = buf.length := by
  unfold transport.ioReadFull
  split
  · rename_i h
    simp only [List.length_take]
    omega
  · rename_i h
    split
    · rfl
    · simp only [List.length_append, List.length_drop]
      omega

/-- The resize loop never shrinks the buffer and never lowers the counter. -/
theorem transport.growLoop_mono (length : Nat) :
    ∀ (fuel : Nat) (f : transport.framer),
      f.buffer.length ≤ (transport.growLoop fuel f length).buffer.length ∧
        f.counter ≤ (transport.growLoop fuel f length).counter := by
  intro fuel
  induction fuel with
  | zero => intro f; exact ⟨le_refl _, le_refl _⟩
  | succ fuel ih =>
    intro f
    simp only [transport.growLoop]
    split
    · obtain ⟨h1, h2⟩ := ih { f.Resize with counter := f.counter + 1 }
      have h3 : f.Resize.buffer.length = f.buffer.length * 2 := by
        simp only [transport.framer.Resize, List.length_replicate]
      simp only [h3] at h1 h2
      exact ⟨by omega, by omega⟩
    · exact ⟨le_refl _, le_refl _⟩

/-- One `ReadFrame` call on a framer that satisfies the invariant, whatever the stream
holds: the invariant holds afterwards, neither the buffer length nor the counter has
decreased, and the call has not panicked. -/
theorem transport.ReadFrame_inv (K : codes.Consts) (f : transport.framer)
    (conn : transport.Conn) (hf : f.inv) :
    (f.ReadFrame K conn).2.1.inv ∧
      f.buffer.length ≤ (f.ReadFrame K conn).2.1.buffer.length ∧
      f.counter ≤ (f.ReadFrame K conn).2.1.counter ∧
      ∀ msg : String, (f.ReadFrame K conn).1 ≠ Outcome.panic msg := by
  unfold transport.framer.ReadFrame
  simp only []
  generalize transport.ioReadFull conn (List.replicate codec.FrameHeadLen 0) = r
  generalize codec.bigEndianUint32 (List.take 4 (List.drop 7 r.buf)) = length
  split
  · exact ⟨hf, le_refl _, le_refl _, fun msg h => by cases h⟩
  · split
    · exact ⟨hf, le_refl _, le_refl _, fun msg h => by cases h⟩
    · split
      · exact ⟨hf, le_refl _, le_refl _, fun msg h => by cases h⟩
      · rename_i hmax
        have hl : length ≤ transport.MaxPayloadLength := by omega
        obtain ⟨hg, hgl⟩ := transport.grow_inv f length hf hl
        obtain ⟨hm1, hm2⟩ := transport.growLoop_mono length (13 - f.counter).toNat f
        have hm1b : f.buffer.length ≤ (f.grow length).buffer.length := hm1
        have hm2b : f.counter ≤ (f.grow length).counter := hm2
        generalize f.grow length = g at hg hgl hm1b hm2b ⊢
        rw [if_neg (by omega)]
        have hlen2 : ((transport.ioReadFull r.conn (g.buffer.take length)).buf
            ++ g.buffer.drop length).length = g.buffer.length := by
          rw [List.length_append, transport.ioReadFull_buf_length, List.length_take,
            List.length_drop]
          omega
        have hinv2 : transport.framer.inv
            { g with buffer := (transport.ioReadFull r.conn (g.buffer.take length)).buf
                ++ g.buffer.drop length } := by
          obtain ⟨c, hc, hcnt, hbuf⟩ := hg
          exact ⟨c, hc, hcnt, by rw [← hbuf]; exact hlen2⟩
        split
        · exact ⟨hinv2, by simp only []; rw [hlen2]; exact hm1b, hm2b,
            fun msg h => by cases h⟩
        · exact ⟨hinv2, by simp only []; rw [hlen2]; exact hm1b, hm2b,
            fun msg h => by cases h⟩

theorem transport.framerAfter_append (K : codes.Consts) (conns more : List transport.Conn) :
    ∀ f : transport.framer,
      transport.framerAfter K f (conns ++ more)
        = transport.framerAfter K (transport.framerAfter K f conns) more := by
  induction conns with
  | nil => intro f; rfl
  | cons c conns ih =>
    intro f
    exact ih (f.ReadFrame K c).2.1

/-- Any number of `ReadFrame` calls on a framer that satisfies the invariant: the
invariant holds afterwards and neither the buffer length nor the counter has decreased. -/
theorem transport.framerAfter_inv (K : codes.Consts) (conns : List transport.Conn) :
    ∀ f : transport.framer, f.inv →
      (transport.framerAfter K f conns).inv ∧
        f.buffer.length ≤ (transport.framerAfter K f conns).buffer.length ∧
        f.counter ≤ (transport.framerAfter K f conns).counter := by
  induction conns with
  | nil => intro f hf; exact ⟨hf, le_refl _, le_refl _⟩
  | cons c conns ih =>
    intro f hf
    obtain ⟨h1, h2, h3, _⟩ := transport.ReadFrame_inv K f c hf
    obtain ⟨i1, i2, i3⟩ := ih (f.ReadFrame K c).2.1 h1
    simp only [transport.framerAfter]
    exact ⟨i1, by omega, by omega⟩

/-- Successive `ReadFrame` calls on one stream are calls on the streams that the calls
before them left unread. -/
theorem transport.readFrames_framerAfter (K : codes.Consts) :
    ∀ (k : Nat) (f : transport.framer) (conn : transport.Conn),
      ∃ conns : List transport.Conn, conns.length = k ∧
        (transport.readFrames K k f conn).2.1 = transport.framerAfter K f conns := by
  intro k
  induction k with
  | zero => intro f conn; exact ⟨[], rfl, rfl⟩
  | succ k ih =>
    intro f conn
    obtain ⟨conns, hlen, h⟩ := ih (f.ReadFrame K conn).2.1 (f.ReadFrame K conn).2.2
    exact ⟨conn :: conns, by simp [hlen], by
      simp only [transport.readFrames, transport.framerAfter, h]⟩

/-- A frame whose header has the magic byte and declares the length of the body that
follows it on the stream, at most 4 MiB, read by a framer that satisfies the invariant:
`ReadFrame` returns header and body and leaves the rest of the stream. -/
theorem transport.ReadFrame_valid (K : codes.Consts) (f : transport.framer) (hf : f.inv)
    (hdr b rest : List Byte) (hlen : hdr.length = 15)
    (hmagic : (hdr.getD 0 0).val = codec.Magic)
    (hdecl : codec.bigEndianUint32 ((hdr.drop 7).take 4) = b.length)
    (hb : b.length ≤ transport.MaxPayloadLength) :
    ∃ g : transport.framer, g.inv ∧
      f.ReadFrame K (hdr ++ (b ++ rest)) = (Outcome.ret (some (hdr ++ b), none), g, rest) := by
  have hmax : transport.MaxPayloadLength = 4194304 := by decide
  obtain ⟨hg, hgl⟩ := transport.grow_inv f b.length hf hb
  have hr2 : transport.ioReadFull (b ++ rest) ((f.grow b.length).buffer.take b.length)
      = { buf := b, num := b.length, err := none, conn := rest } :=
    transport.ioReadFull_of_append b rest _ (by simp; omega)
  refine ⟨{ f.grow b.length with buffer := b ++ (f.grow b.length).buffer.drop b.length }, ?_, ?_⟩
  · obtain ⟨c, hc, hcnt, hbuf⟩ := hg
    refine ⟨c, hc, hcnt, ?_⟩
    simp only [List.length_append, List.length_drop]
    omega
  · rw [transport.ReadFrame_header K f _ _ hlen, hdecl]
    simp only [hmagic, ne_eq, not_true_eq_false, if_false, hr2]
    rw [if_neg (by omega), if_neg (by omega)]
    have h32 : b.length % 2 ^ 32 = b.length := by omega
    simp [h32]
    omega

/-- C25 as stated fails on the code: there is no sequence of `ReadFrame` calls, on any
streams, after which a framer created by `NewFramer` fails to grow its buffer to a
declared length of at most 4 MiB. The buffer is `1024 * 2^counter` bytes long, so when
the counter reaches 12 the buffer already holds 4 MiB. -/
theorem C25_growth_never_refused :
    ¬ ∃ (K : codes.Consts) (conns : List transport.Conn) (length : Nat),
      length ≤ transport.MaxPayloadLength ∧
        ((transport.framerAfter K transport.NewFramer conns).grow length).buffer.length
          < length := by
  rintro ⟨K, conns, length, hl, hlt⟩
  obtain ⟨hinv, _, _⟩ := transport.framerAfter_inv K conns transport.NewFramer
    transport.NewFramer_inv
  obtain ⟨_, hge⟩ := transport.grow_inv _ length hinv hl
  omega

/-- C26: after every sequence of `ReadFrame` calls on a framer created by `NewFramer`,
whatever the streams hold, the buffer is `1024 * 2^counter` bytes long with
`counter ≤ 12`; further calls lower neither the buffer length nor the counter; for every
declared length of at most 4 MiB the buffer is at least that long after the resize
loop, so the slice `buffer[:length]` is in range and no call panics. The same holds for
successive calls on one stream. -/
theorem C26_framer_invariant (K : codes.Consts) (conns more : List transport.Conn)
    (conn : transport.Conn) :
    (∃ c : Nat, c ≤ 12 ∧
      (transport.framerAfter K transport.NewFramer conns).counter = (c : Int) ∧
      (transport.framerAfter K transport.NewFramer conns).buffer.length = 1024 * 2 ^ c) ∧
    (transport.framerAfter K transport.NewFramer conns).buffer.length
      ≤ (transport.framerAfter K transport.NewFramer (conns ++ more)).buffer.length ∧
    (transport.framerAfter K transport.NewFramer conns).counter
      ≤ (transport.framerAfter K transport.NewFramer (conns ++ more)).counter ∧
    (∀ length : Nat, length ≤ transport.MaxPayloadLength →
      length
        ≤ ((transport.framerAfter K transport.NewFramer conns).grow length).buffer.length) ∧
    (∀ msg : String,
      ((transport.framerAfter K transport.NewFramer conns).ReadFrame K conn).1
        ≠ Outcome.panic msg) ∧
    (∀ k : Nat, (transport.readFrames K k transport.NewFramer conn).2.1.inv) := by
  obtain ⟨hinv, _, _⟩ := transport.framerAfter_inv K conns transport.NewFramer
    transport.NewFramer_inv
  obtain ⟨_, hm1, hm2⟩ := transport.framerAfter_inv K more _ hinv
  rw [← transport.framerAfter_append] at hm1 hm2
  refine ⟨hinv, hm1, hm2, fun length hl => (transport.grow_inv _ length hinv hl).2,
    (transport.ReadFrame_inv K _ conn hinv).2.2.2, fun k => ?_⟩
  obtain ⟨cs, _, h⟩ := transport.readFrames_framerAfter K k transport.NewFramer conn
  rw [h]
  exact (transport.framerAfter_inv K cs transport.NewFramer transport.NewFramer_inv).1

/-- After package initialization `GetSerialization` gives, for every name, one of the two
serializations of the package. -/
theorem serialization.GetSerialization_afterInit (name : String) :
    serialization.GetSerialization serialization.serializationMapAfterInit name
        = serialization.Serialization.pbSerialization ∨
      serialization.GetSerialization serialization.serializationMapAfterInit name
        = serialization.Serialization.MsgpackSerialization := by
  simp only [serialization.GetSerialization, serialization.serializationMapAfterInit,
    serialization.registerSerialization, GoMap.lookup, GoMap.set, GoMap.empty,
    serialization.DefaultSerialization]
  split_ifs <;> simp

/-- C30: for the protobuf and the msgpack serialization, `Unmarshal` of nil or empty
data returns the error `unmarshal nil or empty bytes` and leaves the target as it was,
whatever the decoding library would do. Hence, with the serializations registered at
package initialization and whatever serialization name is configured, the end of the
client's `invoke` returns that error for every response envelope with `ret_code = 0` and
an empty payload, and the server's closure `dec` returns it for every request envelope
with an empty payload. -/
theorem C30_unmarshal_empty_fails (O V R : Type) (L : serialization.Library V R)
    (data : Option (List Byte)) (v : V) (hempty : data = none ∨ data = some []) :
    serialization.pbUnmarshal L data v = (v, some serialization.errUnmarshalEmpty) ∧
    serialization.msgpackUnmarshal L data v = (v, some serialization.errUnmarshalEmpty) ∧
    (∀ name : String,
      serialization.Serialization.Unmarshal L
          (serialization.GetSerialization serialization.serializationMapAfterInit name) data v
        = (v, some serialization.errUnmarshalEmpty)) ∧
    (∀ (name : String) (response : protocol.Response),
      response.RetCode = 0 → response.Payload = data →
      client.invokeResponse
          (fun payload => (serialization.Serialization.Unmarshal L
            (serialization.GetSerialization serialization.serializationMapAfterInit name)
            payload v).2) response
        = some serialization.errUnmarshalEmpty) ∧
    (∀ (env : service.HandleEnv O V R) (opts : O),
      env.serializationMap = serialization.serializationMapAfterInit → env.library = L →
      service.dec env opts data v = (v, some serialization.errUnmarshalEmpty)) := by
  have hguard : data = none ∨ (data.getD []).length = 0 := by
    rcases hempty with h | h
    · exact Or.inl h
    · exact Or.inr (by rw [h]; rfl)
  have hpb : serialization.pbUnmarshal L data v = (v, some serialization.errUnmarshalEmpty) := by
    unfold serialization.pbUnmarshal
    rw [if_pos hguard]
  have hmp : serialization.msgpackUnmarshal L data v
      = (v, some serialization.errUnmarshalEmpty) := by
    unfold serialization.msgpackUnmarshal
    rw [if_pos hguard]
  have hany : ∀ name : String,
      serialization.Serialization.Unmarshal L
          (serialization.GetSerialization serialization.serializationMapAfterInit name) data v
        = (v, some serialization.errUnmarshalEmpty) := by
    intro name
    rcases serialization.GetSerialization_afterInit name with h | h
    · rw [h]; exact hpb
    · rw [h]; exact hmp
  refine ⟨hpb, hmp, hany, ?_, ?_⟩
  · intro name response hcode hpayload
    unfold client.invokeResponse
    rw [if_neg (by rw [hcode]; decide), hpayload]
    show (serialization.Serialization.Unmarshal L
      (serialization.GetSerialization serialization.serializationMapAfterInit name) data v).2 = _
    rw [hany name]
  · intro env opts hmap hlib
    unfold service.dec
    rw [hmap, hlib]
    exact hany _

/-- Witness for C30: a nil payload, with libraries that would decode anything without
error. -/
theorem C30_unmarshal_empty_fails_witness :
    serialization.pbUnmarshal
        ({ protoUnmarshal := fun _ v => (v, none), msgpackDecode := fun _ v => (v, none),
           customUnmarshal := fun _ _ v => (v, none), protoMarshal := fun _ => (none, none),
           msgpackEncode := fun _ => (none, none), customMarshal := fun _ _ => (none, none) } :
          serialization.Library Nat Nat)
        none 7
      = (7, some serialization.errUnmarshalEmpty) :=
  (C30_unmarshal_empty_fails Unit Nat Nat
    { protoUnmarshal := fun _ v => (v, none), msgpackDecode := fun _ v => (v, none),
      customUnmarshal := fun _ _ v => (v, none), protoMarshal := fun _ => (none, none),
      msgpackEncode := fun _ => (none, none), customMarshal := fun _ _ => (none, none) }
    none 7 (Or.inl rfl)).1

/-- C27: `Handle` dispatches on the method segment of the service path only. For two
request envelopes that decode without error, carry the same payload and metadata and
whose paths parse without error to the same method (whatever their service segments),
`Handle` looks up the same handler and returns the same result; the handler it calls is
the one stored under that method, and the result does not depend on the name under which
the service is registered. -/
theorem C27_dispatch_on_method {S O V R : Type} (K : codes.Consts)
    (env : service.HandleEnv O V R)
    (s : service S (Option (Handler context.Context V R (Option S))) O)
    (ctx : context.Context) (now : Int) (reqbuf1 reqbuf2 : Option (List Byte))
    (name : String)
    (h1 : (env.protoUnmarshal reqbuf1).2 = none)
    (h2 : (env.protoUnmarshal reqbuf2).2 = none)
    (hpayload : (env.protoUnmarshal reqbuf1).1.Payload = (env.protoUnmarshal reqbuf2).1.Payload)
    (hmeta : (env.protoUnmarshal reqbuf1).1.Metadata = (env.protoUnmarshal reqbuf2).1.Metadata)
    (hp1 : (env.ParseServicePath (env.protoUnmarshal reqbuf1).1.ServicePath).2.2 = none)
    (hp2 : (env.ParseServicePath (env.protoUnmarshal reqbuf2).1.ServicePath).2.2 = none)
    (hmethod : (env.ParseServicePath (env.protoUnmarshal reqbuf1).1.ServicePath).2.1
      = (env.ParseServicePath (env.protoUnmarshal reqbuf2).1.ServicePath).2.1) :
    s.handlers (env.ParseServicePath (env.protoUnmarshal reqbuf1).1.ServicePath).2.1
        = s.handlers (env.ParseServicePath (env.protoUnmarshal reqbuf2).1.ServicePath).2.1 ∧
      service.Handle K env s ctx now reqbuf1 = service.Handle K env s ctx now reqbuf2 ∧
      service.Handle K env { s with serviceName := name } ctx now reqbuf1
        = service.Handle K env s ctx now reqbuf1 ∧
      (∀ (opts : O) (handler : Handler context.Context V R (Option S)),
        s.opts = some opts →
        s.handlers (env.ParseServicePath (env.protoUnmarshal reqbuf1).1.ServicePath).2.1
          = some (some handler) →
        service.Handle K env s ctx now reqbuf2
          = Outcome.ret (service.callHandler env opts s.svr
              (if env.timeout opts ≠ 0 then
                context.WithTimeout
                  (env.WithServerMetadata ctx (env.protoUnmarshal reqbuf1).1.Metadata) now
                  (env.timeout opts)
              else env.WithServerMetadata ctx (env.protoUnmarshal reqbuf1).1.Metadata)
              (env.protoUnmarshal reqbuf1).1.Payload handler)) := by
  refine ⟨by rw [hmethod], ?_, rfl, ?_⟩
  · simp only [service.Handle, h1, h2, hp1, hp2, hmethod, hpayload, hmeta]
  · intro opts handler hopts hhandler
    rw [hmethod] at hhandler
    simp only [service.Handle, h2, hp2, hopts, hhandler, hpayload, hmeta]

/-- Witness for C27: the calls of `/a/M` and `/b/M` on a service registered as `a`; both
are answered by the handler of `M`. -/
theorem C27_dispatch_on_method_witness :
    service.Handle exampleConsts pathEnv serviceM context.Background 0 (some [1])
        = service.Handle exampleConsts pathEnv serviceM context.Background 0 (some [2]) ∧
      service.Handle exampleConsts pathEnv serviceM context.Background 0 (some [2])
        = Outcome.ret (some [2], none) :=
  ⟨(C27_dispatch_on_method exampleConsts pathEnv serviceM context.Background 0
      (some [1]) (some [2]) "b" rfl rfl rfl rfl (by decide) (by decide) (by decide)).2.1,
    by decide⟩

/-- C23 as stated fails on the code when a sum leaves the range of `int`. On the new
picker for the weights `2^63 - 1` and `1` (positive weights, current weights equal to
the weights, no refresh) the first pick returns position 1, although in the integers
the updated current weight at position 0, `2 * (2^63 - 1)`, is the greater one; and the
current weights sum to `2^63` before the pick and to `-2^63` after it. -/
theorem C23_overflow_breaks_pick :
    ((loadbalance.newWRoundRobinPicker 180000000000 maxIntNodes 0).pickAt maxIntNodes 1 1).1
        = some 1 ∧
      (loadbalance.newWRoundRobinPicker 180000000000 maxIntNodes 0).nodes.map
          (fun n => n.currentWeight + n.weight) = [2 * (2 ^ 63 - 1), 2] ∧
      loadbalance.sumCurrent (loadbalance.newWRoundRobinPicker 180000000000 maxIntNodes 0).nodes
        = 2 ^ 63 ∧
      loadbalance.sumCurrent
          ((loadbalance.newWRoundRobinPicker 180000000000 maxIntNodes 0).pick
            maxIntNodes 1 1).2.nodes = -2 ^ 63 ∧
      (∀ n ∈ (loadbalance.newWRoundRobinPicker 180000000000 maxIntNodes 0).nodes,
        0 < n.weight ∧ n.weight < 2 ^ 63) := by
  decide

/-- C23, amended: in a state of the weighted picker in which the current weights sum to
the sum of the weights (the state of a new picker, kept by every pick of a run in which
nothing overflows), with positive weights and no refresh, and as long as no value the
pick computes leaves the range of `int` (the sum of the weights is below `2^63`, every
current weight plus its weight is below `2^63`, and less the sum of the weights it is at
least `-2^63`), one `pick` adds every node's weight to its current weight, returns the
node at the first position where the new current weight is greatest, and takes the sum
of all weights off the current weight at that position only; the sum of the current
weights is the same after the pick as before. -/
theorem C23_weighted_pick_step (wr : loadbalance.wRoundRobinPicker)
    (nodes : List selector.Node) (now now2 : Int)
    (hlen : nodes.length = wr.nodes.length) (hne : nodes.length ≠ 0)
    (hno : time.Sub now wr.lastUpdateTime ≤ wr.duration)
    (hw : ∀ n ∈ wr.nodes, 0 < n.weight)
    (hsum : loadbalance.sumCurrent wr.nodes = loadbalance.sumWeight wr.nodes)
    (hS : loadbalance.sumWeight wr.nodes < 2 ^ 63)
    (hrange : ∀ n ∈ wr.nodes,
      -2 ^ 63 ≤ n.currentWeight + n.weight - loadbalance.sumWeight wr.nodes ∧
        n.currentWeight + n.weight < 2 ^ 63) :
    ∃ (idx : Nat) (hidx : idx < wr.nodes.length),
      (∀ (j : Nat) (hj : j < wr.nodes.length),
        wr.nodes[j].currentWeight + wr.nodes[j].weight
          ≤ wr.nodes[idx].currentWeight + wr.nodes[idx].weight) ∧
      (∀ (j : Nat) (hj : j < wr.nodes.length), j < idx →
        wr.nodes[j].currentWeight + wr.nodes[j].weight
          < wr.nodes[idx].currentWeight + wr.nodes[idx].weight) ∧
      (wr.pickAt nodes now now2).1 = some idx ∧
      wr.pick nodes now now2 = (wr.pickAt nodes now now2).2 ∧
      (wr.pick nodes now now2).1 = Outcome.ret (some wr.nodes[idx].node) ∧
      (wr.pick nodes now now2).2.nodes.length = wr.nodes.length ∧
      (∀ (j : Nat) (hj : j < wr.nodes.length),
        (wr.pick nodes now now2).2.nodes[j]?
          = some { wr.nodes[j] with
              currentWeight :=
                if j = idx then
                  wr.nodes[j].currentWeight + wr.nodes[j].weight
                    - loadbalance.sumWeight wr.nodes
                else wr.nodes[j].currentWeight + wr.nodes[j].weight }) ∧
      loadbalance.sumCurrent (wr.pick nodes now now2).2.nodes
        = loadbalance.sumCurrent wr.nodes := by
  have hne2 : wr.nodes ≠ [] := by
    intro h
    rw [h] at hlen
    exact hne hlen
  have hSpos : 0 < loadbalance.sumWeight wr.nodes := by
    unfold loadbalance.sumWeight
    apply loadbalance.sum_pos_of_pos
    · intro x hx
      obtain ⟨n, hn, rfl⟩ := List.mem_map.mp hx
      exact hw n hn
    · intro h
      exact hne2 (List.map_eq_nil_iff.mp h)
  obtain ⟨idx, hidx, hmax, _, hfirst, hpick⟩ :=
    loadbalance.wRoundRobinPicker.pickAt_norefresh wr nodes now now2 hlen hne hno (by omega)
      (fun n hn => le_of_lt (hw n hn)) hS hrange
  refine ⟨idx, hidx, hmax, hfirst, ?_, rfl, ?_, ?_, ?_, ?_⟩
  · rw [hpick]
  · simp only [loadbalance.wRoundRobinPicker.pick, hpick]
  · simp only [loadbalance.wRoundRobinPicker.pick, hpick, List.length_set, List.length_map]
  · intro j hj
    simp only [loadbalance.wRoundRobinPicker.pick, hpick]
    rw [loadbalance.getElem_set_addWeight wr.nodes idx _ j hj]
    by_cases hji : j = idx
    · subst hji
      simp
    · have hij : ¬ idx = j := fun h => hji h.symm
      simp [hji, hij, loadbalance.weightedNode.addWeight]
  · simp only [loadbalance.wRoundRobinPicker.pick, hpick]
    rw [loadbalance.sumCurrent_set_addWeight wr.nodes idx hidx]
    simp only []
    omega

/-- Witness for C23: the first pick on the picker that `Balance` creates for three nodes
with the weights 5, 1 and 1. -/
theorem C23_weighted_pick_step_witness :
    (∀ n ∈ (loadbalance.newWRoundRobinPicker 180000000000 threeNodes 0).nodes, 0 < n.weight) ∧
      ∃ idx : Nat,
        ((loadbalance.newWRoundRobinPicker 180000000000 threeNodes 0).pickAt threeNodes 1 2).1
          = some idx ∧
        loadbalance.sumCurrent
            ((loadbalance.newWRoundRobinPicker 180000000000 threeNodes 0).pick
              threeNodes 1 2).2.nodes
          = loadbalance.sumCurrent
              (loadbalance.newWRoundRobinPicker 180000000000 threeNodes 0).nodes := by
  refine ⟨by decide, ?_⟩
  obtain ⟨idx, _, _, _, h1, _, _, _, _, h2⟩ :=
    C23_weighted_pick_step (loadbalance.newWRoundRobinPicker 180000000000 threeNodes 0)
      threeNodes 1 2 (by decide) (by decide) (by decide) (by decide) (by decide)
      (by decide) (by decide)
  exact ⟨idx, h1, h2⟩

theorem wrapInt_zero : wrapInt 0 = 0 := by decide

/-- On weighted nodes whose weights and current weights are all 0 the loop of `pick`
changes nothing: no current weight exceeds a `maxWeight` that is not negative. -/
theorem loadbalance.pickLoop_zero (ns : List loadbalance.weightedNode)
    (hz : ∀ n ∈ ns, n.weight = 0 ∧ n.currentWeight = 0) :
    ∀ (i : Nat) (vars : loadbalance.pickVars), 0 ≤ vars.maxWeight → vars.totalWeight = 0 →
      loadbalance.pickLoop ns i vars = (ns, vars) := by
  induction ns with
  | nil => intro i vars _ _; rfl
  | cons n ns ih =>
    intro i vars hmax htot
    obtain ⟨hw, hc⟩ := hz n (List.mem_cons_self n ns)
    have hn : ({ n with currentWeight := wrapInt (n.currentWeight + n.weight) } :
        loadbalance.weightedNode) = n := by
      cases n
      simp only [] at hw hc
      simp [hw, hc, wrapInt_zero]
    have hv : ({ vars with totalWeight := wrapInt (vars.totalWeight + n.weight) } :
        loadbalance.pickVars) = vars := by
      cases vars
      simp only [] at htot
      simp [hw, htot, wrapInt_zero]
    have hcond : wrapInt (n.currentWeight + n.weight) = 0 := by
      rw [hw, hc]
      exact wrapInt_zero
    simp only [loadbalance.pickLoop, hn, hv]
    rw [if_neg (by rw [hcond]; omega)]
    rw [ih (fun m hm => hz m (List.mem_cons_of_mem n hm)) (i + 1) vars hmax htot]

/-- One `pick` on a picker whose state after the refresh test holds weighted nodes of
weight and current weight 0: the node at position 0 of these is returned and they stay
as they are. -/
theorem loadbalance.wRoundRobinPicker.pickAt_zero (wr : loadbalance.wRoundRobinPicker)
    (nodes : List selector.Node) (now now2 : Int) (hne : nodes ≠ [])
    (hz : ∀ n ∈ nodes, n.Weight = 0)
    (hzw : ∀ n ∈ wr.nodes, n.weight = 0 ∧ n.currentWeight = 0) :
    ((time.Sub now wr.lastUpdateTime > wr.duration ∨ nodes.length ≠ wr.nodes.length) →
      wr.pickAt nodes now now2
        = (some 0, Outcome.ret nodes.head?,
            { wr with nodes := loadbalance.getWeightedNode nodes, lastUpdateTime := now2 })) ∧
    (¬ (time.Sub now wr.lastUpdateTime > wr.duration ∨ nodes.length ≠ wr.nodes.length) →
      wr.pickAt nodes now now2
        = (some 0, Outcome.ret (wr.nodes.head?.map (fun n => n.node)), wr) ∧
      (wr.nodes.head?.map (fun n => n.node)).isSome = true) := by
  have hlen0 : ¬ nodes.length = 0 := fun h => hne (List.length_eq_zero.mp h)
  have hzg : ∀ n ∈ loadbalance.getWeightedNode nodes, n.weight = 0 ∧ n.currentWeight = 0 := by
    intro n hn
    obtain ⟨m, hm, rfl⟩ := List.mem_map.mp hn
    exact ⟨hz m hm, hz m hm⟩
  have hstep : ∀ (ns : List loadbalance.weightedNode) (first : loadbalance.weightedNode)
      (rest : List loadbalance.weightedNode), ns = first :: rest →
      (∀ n ∈ ns, n.weight = 0 ∧ n.currentWeight = 0) →
      loadbalance.pickLoop ns 0 { totalWeight := 0, maxWeight := 0, index := 0 }
          = (ns, { totalWeight := 0, maxWeight := 0, index := 0 }) ∧
        ns[0]? = some first ∧
        ns.set 0 { first with currentWeight := wrapInt (first.currentWeight - 0) } = ns := by
    intro ns first rest hns hzn
    refine ⟨loadbalance.pickLoop_zero ns hzn 0 _ (le_refl _) rfl, by rw [hns]; simp, ?_⟩
    have hc := (hzn first (by rw [hns]; exact List.mem_cons_self _ _)).2
    subst hns
    cases first
    simp only [] at hc
    simp [hc, wrapInt_zero]
  constructor
  · intro hr
    obtain ⟨first, rest, hnodes⟩ : ∃ first rest, nodes = first :: rest := by
      cases nodes with
      | nil => exact absurd rfl hne
      | cons a l => exact ⟨a, l, rfl⟩
    obtain ⟨h1, h2, h3⟩ := hstep (loadbalance.getWeightedNode nodes)
      { node := first, weight := first.Weight, currentWeight := first.Weight,
        effectiveWeight := first.Weight }
      (loadbalance.getWeightedNode rest) (by rw [hnodes]; rfl) hzg
    unfold loadbalance.wRoundRobinPicker.pickAt
    rw [if_neg hlen0]
    simp only [if_pos hr, h1, h2, h3]
    rw [hnodes]
    rfl
  · intro hr
    have hlen : nodes.length = wr.nodes.length := by
      by_contra h
      exact hr (Or.inr h)
    obtain ⟨first, rest, hns⟩ : ∃ first rest, wr.nodes = first :: rest := by
      cases h : wr.nodes with
      | nil => rw [h] at hlen; exact absurd hlen hlen0
      | cons a l => exact ⟨a, l, rfl⟩
    obtain ⟨h1, h2, h3⟩ := hstep wr.nodes first rest hns hzw
    constructor
    · unfold loadbalance.wRoundRobinPicker.pickAt
      rw [if_neg hlen0]
      simp only [if_neg hr, h1, h2, h3]
      obtain ⟨wn, lu, d⟩ := wr
      simp only [] at hns
      subst hns
      rfl
    · rw [hns]
      rfl

/-- C28 as stated fails on the code: the picker returns the first node of the list it
cached at its last refresh, not of the list passed to the call. After `Balance` with one
list of two nodes of weight 0, a call with another list of two nodes of weight 0 for the
same service, one nanosecond later, returns the first node of the first list. -/
theorem C28_first_node_of_cached_list :
    ((loadbalance.newWeightedRoundRobinBalancer.Balance "svc" zeroNodesA 0 0 0).2.Balance
        "svc" zeroNodesB 1 1 1).1 = Outcome.ret zeroNodesA.head? ∧
      zeroNodesA.head? ≠ zeroNodesB.head? ∧
      zeroNodesB ≠ [] ∧ (∀ n ∈ zeroNodesB, n.Weight = 0) := by
  decide

/-- C28, amended: for a non-empty list of nodes that all have weight 0, as all nodes that
`Consul.Resolve` builds have, and a weighted picker whose cached weighted nodes all have
weight and current weight 0: a `pick` without refresh returns the first node of the
cached list (position 0) and leaves the picker as it is; a `pick` with refresh caches the
list passed and returns its first node; in both cases all current weights stay at 0.
When the cached weighted nodes are those of the list passed, every pick of any sequence
returns the first node of that list, so no other node is ever selected. -/
theorem C28_zero_weights_pick_first (nodes : List selector.Node)
    (wr : loadbalance.wRoundRobinPicker) (now now2 : Int) (ts : List (Int × Int))
    (hne : nodes ≠ []) (hz : ∀ n ∈ nodes, n.Weight = 0)
    (hzw : ∀ n ∈ wr.nodes, n.weight = 0 ∧ n.currentWeight = 0) :
    (¬ (time.Sub now wr.lastUpdateTime > wr.duration ∨ nodes.length ≠ wr.nodes.length) →
      wr.pickAt nodes now now2
        = (some 0, Outcome.ret (wr.nodes.head?.map (fun n => n.node)), wr) ∧
      (wr.nodes.head?.map (fun n => n.node)).isSome = true) ∧
    ((time.Sub now wr.lastUpdateTime > wr.duration ∨ nodes.length ≠ wr.nodes.length) →
      wr.pickAt nodes now now2
        = (some 0, Outcome.ret nodes.head?,
            { wr with nodes := loadbalance.getWeightedNode nodes, lastUpdateTime := now2 })) ∧
    (∀ n ∈ (wr.pickAt nodes now now2).2.2.nodes, n.weight = 0 ∧ n.currentWeight = 0) ∧
    (wr.nodes = loadbalance.getWeightedNode nodes →
      (wr.picks nodes ts).1 = ts.map (fun _ => (some 0, Outcome.ret nodes.head?)) ∧
      (wr.picks nodes ts).2.nodes = loadbalance.getWeightedNode nodes) ∧
    (∀ pairs : List consul.KVPair, ∀ n ∈ consul.resolveNodes pairs, n.Weight = 0) := by
  have hzg : ∀ n ∈ loadbalance.getWeightedNode nodes, n.weight = 0 ∧ n.currentWeight = 0 := by
    intro n hn
    obtain ⟨m, hm, rfl⟩ := List.mem_map.mp hn
    exact ⟨hz m hm, hz m hm⟩
  obtain ⟨hyes, hno⟩ := loadbalance.wRoundRobinPicker.pickAt_zero wr nodes now now2 hne hz hzw
  have hmain : ∀ (ts : List (Int × Int)) (wr : loadbalance.wRoundRobinPicker),
      wr.nodes = loadbalance.getWeightedNode nodes →
      (wr.picks nodes ts).1 = ts.map (fun _ => (some 0, Outcome.ret nodes.head?)) ∧
        (wr.picks nodes ts).2.nodes = loadbalance.getWeightedNode nodes := by
    intro ts
    induction ts with
    | nil => intro wr hwr; exact ⟨rfl, hwr⟩
    | cons t ts ih =>
      intro wr hwr
      obtain ⟨g1, g2⟩ := loadbalance.wRoundRobinPicker.pickAt_zero wr nodes t.1 t.2 hne hz
        (by rw [hwr]; exact hzg)
      have hstep : wr.pickAt nodes t.1 t.2 = (some 0, Outcome.ret nodes.head?,
          (wr.pickAt nodes t.1 t.2).2.2) ∧
          (wr.pickAt nodes t.1 t.2).2.2.nodes = loadbalance.getWeightedNode nodes := by
        by_cases hr : time.Sub t.1 wr.lastUpdateTime > wr.duration ∨
            nodes.length ≠ wr.nodes.length
        · rw [g1 hr]
          exact ⟨rfl, rfl⟩
        · rw [(g2 hr).1, hwr]
          refine ⟨?_, rfl⟩
          have hh : (loadbalance.getWeightedNode nodes).head?.map (fun n => n.node)
              = nodes.head? := by
            cases nodes with
            | nil => rfl
            | cons a l => rfl
          rw [hh]
      obtain ⟨ih1, ih2⟩ := ih (wr.pickAt nodes t.1 t.2).2.2 hstep.2
      simp only [loadbalance.wRoundRobinPicker.picks, List.map_cons, ih1, ih2, and_true]
      rw [hstep.1]
  refine ⟨hno, hyes, ?_, hmain ts wr, ?_⟩
  · by_cases hr : time.Sub now wr.lastUpdateTime > wr.duration ∨
        nodes.length ≠ wr.nodes.length
    · rw [hyes hr]
      exact hzg
    · rw [(hno hr).1]
      exact hzw
  · intro pairs n hn
    obtain ⟨p, _, rfl⟩ := List.mem_map.mp hn
    rfl

/-- Witness for C28: the picker created for one list of two nodes of weight 0, called
without refresh with another such list, returns the first node of the list it holds. -/
theorem C28_zero_weights_pick_first_witness :
    (loadbalance.newWRoundRobinPicker 180000000000 zeroNodesA 0).pickAt zeroNodesB 1 1
      = (some 0, Outcome.ret (some { Key := "svc/10.0.0.1:8000", Value := [], Weight := 0 }),
          loadbalance.newWRoundRobinPicker 180000000000 zeroNodesA 0) :=
  ((C28_zero_weights_pick_first zeroNodesB
    (loadbalance.newWRoundRobinPicker 180000000000 zeroNodesA 0) 1 1 []
    (by decide) (by decide) (by decide)).1 (by decide)).1

theorem transport.ioReadFull_num_of_err_none (conn buf : List Byte)
    (h : (transport.ioReadFull conn buf).err = none) :
    (transport.ioReadFull conn buf).num = buf.length := by
  unfold transport.ioReadFull at h ⊢
  split
  · rfl
  · rename_i hle
    rw [if_neg hle] at h
    split at h <;> simp at h

/-- `ReadFrame` never returns a nil frame together with a nil error. -/
theorem transport.ReadFrame_ne_nil_nil (K : codes.Consts) (f : transport.framer)
    (conn : transport.Conn) :
    (f.ReadFrame K conn).1 ≠ Outcome.ret (none, none) := by
  have hmax : transport.MaxPayloadLength = 4194304 := by decide
  unfold transport.framer.ReadFrame
  simp only []
  have hnum := transport.ioReadFull_num_of_err_none conn (List.replicate codec.FrameHeadLen 0)
  rw [List.length_replicate] at hnum
  generalize transport.ioReadFull conn (List.replicate codec.FrameHeadLen 0) = r at hnum ⊢
  generalize codec.bigEndianUint32 (List.take 4 (List.drop 7 r.buf)) = length
  split
  · rename_i h
    intro heq
    simp only [Outcome.ret.injEq, Prod.mk.injEq, true_and] at heq
    rcases h with h | h
    · exact h (hnum heq)
    · exact h heq
  · split
    · intro heq
      simp at heq
    · split
      · intro heq
        simp at heq
      · rename_i hle
        generalize f.grow length = g
        split
        · intro heq
          cases heq
        · rename_i hge
          have hnum2 := transport.ioReadFull_num_of_err_none r.conn (g.buffer.take length)
          rw [List.length_take] at hnum2
          generalize transport.ioReadFull r.conn (g.buffer.take length) = r2 at hnum2 ⊢
          split
          · rename_i h
            intro heq
            simp only [Outcome.ret.injEq, Prod.mk.injEq, true_and] at heq
            rcases h with h | h
            · apply h
              rw [hnum2 heq]
              omega
            · exact h heq
          · intro heq
            simp at heq

/-- Two streams that differ only in header bytes `ReadFrame` does not look at: same
framer and same rest of the stream afterwards, same outcome apart from the header bytes
in front of a returned frame, and a returned frame starts with the header that was on the
stream. -/
theorem transport.ReadFrame_header_bits (K : codes.Consts) (f : transport.framer)
    (hdr1 hdr2 rest : List Byte) (hlen1 : hdr1.length = 15) (hlen2 : hdr2.length = 15)
    (hmagic : hdr1.getD 0 0 = hdr2.getD 0 0)
    (hlength : (hdr1.drop 7).take 4 = (hdr2.drop 7).take 4) :
    (f.ReadFrame K (hdr1 ++ rest)).2 = (f.ReadFrame K (hdr2 ++ rest)).2 ∧
      transport.withoutHeader (f.ReadFrame K (hdr1 ++ rest)).1
        = transport.withoutHeader (f.ReadFrame K (hdr2 ++ rest)).1 ∧
      (∀ (frame : List Byte) (err : Option GoError),
        (f.ReadFrame K (hdr1 ++ rest)).1 = Outcome.ret (some frame, err) →
          frame.take 15 = hdr1 ∧ err = none) := by
  rw [transport.ReadFrame_header K f hdr1 rest hlen1,
    transport.ReadFrame_header K f hdr2 rest hlen2, hmagic, hlength]
  split
  · simp [transport.withoutHeader]
  · split
    · simp [transport.withoutHeader]
    · split
      · simp [transport.withoutHeader]
      · simp only []
        split
        · simp [transport.withoutHeader]
        · refine ⟨rfl, ?_, ?_⟩
          · simp [transport.withoutHeader, codec.FrameHeadLen, hlen1, hlen2]
          · intro frame err h
            simp only [Outcome.ret.injEq, Prod.mk.injEq, Option.some.injEq] at h
            refine ⟨?_, h.2.symm⟩
            rw [← h.1]
            simp [hlen1]

/-- C20: two streams that start with fifteen-byte headers agreeing in byte 0 (magic) and
bytes 7..10 (length), whatever their bytes 1..6 and 11..14 are, and that continue with
the same bytes, read from the same framer state: `ReadFrame` leaves the same framer and
the same rest of the stream (it consumes the same number of bytes), its outcomes are the
same apart from the header bytes in front of a returned frame (same body, same error,
same panic), a returned frame starts with the header that was on the stream and comes
with a nil error, and a failure always comes with an error. The frames are accepted:
when the magic byte is right, the declared length is at most 4 MiB and the body is on
the stream, a framer in a state that `NewFramer` and `ReadFrame` can produce returns,
for each stream, its header unchanged followed by the body, with a nil error, and leaves
what follows the body. -/
theorem C20_header_bits_tolerated (K : codes.Consts) (f : transport.framer)
    (hdr1 hdr2 rest : List Byte) (hlen1 : hdr1.length = 15) (hlen2 : hdr2.length = 15)
    (hmagic : hdr1.getD 0 0 = hdr2.getD 0 0)
    (hlength : (hdr1.drop 7).take 4 = (hdr2.drop 7).take 4) :
    (f.ReadFrame K (hdr1 ++ rest)).2 = (f.ReadFrame K (hdr2 ++ rest)).2 ∧
      transport.withoutHeader (f.ReadFrame K (hdr1 ++ rest)).1
        = transport.withoutHeader (f.ReadFrame K (hdr2 ++ rest)).1 ∧
      (∀ (frame : List Byte) (err : Option GoError),
        (f.ReadFrame K (hdr1 ++ rest)).1 = Outcome.ret (some frame, err) →
          frame.take 15 = hdr1 ∧ err = none) ∧
      (f.ReadFrame K (hdr1 ++ rest)).1 ≠ Outcome.ret (none, none) ∧
      (f.ReadFrame K (hdr2 ++ rest)).1 ≠ Outcome.ret (none, none) ∧
      (∀ body rest2 : List Byte, f.inv → (hdr1.getD 0 0).val = codec.Magic →
        codec.bigEndianUint32 ((hdr1.drop 7).take 4) = body.length →
        body.length ≤ transport.MaxPayloadLength → rest = body ++ rest2 →
        (f.ReadFrame K (hdr1 ++ rest)).1 = Outcome.ret (some (hdr1 ++ body), none) ∧
          (f.ReadFrame K (hdr2 ++ rest)).1 = Outcome.ret (some (hdr2 ++ body), none) ∧
          (f.ReadFrame K (hdr1 ++ rest)).2.2 = rest2 ∧
          (f.ReadFrame K (hdr2 ++ rest)).2.2 = rest2) := by
  obtain ⟨h1, h2, h3⟩ :=
    transport.ReadFrame_header_bits K f hdr1 hdr2 rest hlen1 hlen2 hmagic hlength
  refine ⟨h1, h2, h3, transport.ReadFrame_ne_nil_nil K f _,
    transport.ReadFrame_ne_nil_nil K f _, ?_⟩
  intro body rest2 hinv hm hdecl hb hrest
  obtain ⟨g1, _, hr1⟩ := transport.ReadFrame_valid K f hinv hdr1 body rest2 hlen1 hm hdecl hb
  obtain ⟨g2, _, hr2⟩ := transport.ReadFrame_valid K f hinv hdr2 body rest2 hlen2
    (by rw [← hmagic]; exact hm) (by rw [← hlength]; exact hdecl) hb
  rw [hrest, hr1, hr2]
  exact ⟨rfl, rfl, rfl, rfl⟩

set_option maxRecDepth 100000 in
/-- Witness for C20: two headers of one frame with a body of two bytes that differ in
all the bytes `ReadFrame` does not look at; both frames are returned in full. -/
theorem C20_header_bits_tolerated_witness :
    (transport.NewFramer.ReadFrame exampleConsts
        ([0x11, 0, 0, 0, 0, 0, 0, 0, 0, 0, 2, 0, 0, 0, 0] ++ [7, 7, 9])).1
      = Outcome.ret (some ([0x11, 0, 0, 0, 0, 0, 0, 0, 0, 0, 2, 0, 0, 0, 0] ++ [7, 7]), none) ∧
    (transport.NewFramer.ReadFrame exampleConsts
        ([0x11, 1, 2, 3, 4, 5, 6, 0, 0, 0, 2, 7, 8, 9, 10] ++ [7, 7, 9])).1
      = Outcome.ret (some ([0x11, 1, 2, 3, 4, 5, 6, 0, 0, 0, 2, 7, 8, 9, 10] ++ [7, 7]), none) ∧
    (transport.NewFramer.ReadFrame exampleConsts
        ([0x11, 0, 0, 0, 0, 0, 0, 0, 0, 0, 2, 0, 0, 0, 0] ++ [7, 7, 9])).2.2 = [9] ∧
    (transport.NewFramer.ReadFrame exampleConsts
        ([0x11, 1, 2, 3, 4, 5, 6, 0, 0, 0, 2, 7, 8, 9, 10] ++ [7, 7, 9])).2.2 = [9] :=
  (C20_header_bits_tolerated exampleConsts transport.NewFramer
    [0x11, 0, 0, 0, 0, 0, 0, 0, 0, 0, 2, 0, 0, 0, 0]
    [0x11, 1, 2, 3, 4, 5, 6, 0, 0, 0, 2, 7, 8, 9, 10] [7, 7, 9]
    (by decide) (by decide) (by decide) (by decide)).2.2.2.2.2 [7, 7] [9]
    transport.NewFramer_inv (by decide) (by decide) (by decide) (by decide)

/-- The framer that reading a frame leaves, under the conditions of `ReadFrame_valid`: the
grown framer with the body at the start of its buffer. -/
theorem transport.ReadFrame_valid_framer (K : codes.Consts) (f : transport.framer)
    (hf : f.inv) (hdr b rest : List Byte) (hlen : hdr.length = 15)
    (hmagic : (hdr.getD 0 0).val = codec.Magic)
    (hdecl : codec.bigEndianUint32 ((hdr.drop 7).take 4) = b.length)
    (hb : b.length ≤ transport.MaxPayloadLength) :
    (f.ReadFrame K (hdr ++ (b ++ rest))).2.1.counter = (f.grow b.length).counter ∧
      (f.ReadFrame K (hdr ++ (b ++ rest))).2.1.buffer.length
        = (f.grow b.length).buffer.length := by
  have hmax : transport.MaxPayloadLength = 4194304 := by decide
  obtain ⟨hg, hgl⟩ := transport.grow_inv f b.length hf hb
  have hr2 : transport.ioReadFull (b ++ rest) ((f.grow b.length).buffer.take b.length)
      = { buf := b, num := b.length, err := none, conn := rest } :=
    transport.ioReadFull_of_append b rest _ (by simp; omega)
  rw [transport.ReadFrame_header K f _ _ hlen, hdecl]
  simp only [hmagic, ne_eq, not_true_eq_false, if_false, hr2]
  rw [if_neg (by omega), if_neg (by omega)]
  have h32 : b.length % 2 ^ 32 = b.length := by omega
  simp only [h32, not_true_eq_false, or_self, if_false, List.length_append, List.length_drop,
    true_and]
  omega

/-- The resize loop on a buffer that is too short for `length` but not after one
doubling: it doubles the buffer once and counts once. -/
theorem transport.grow_once (f : transport.framer) (length : Nat)
    (h1 : f.buffer.length < length) (h2 : length ≤ f.buffer.length * 2)
    (hc : f.counter ≤ 12) (h32 : f.buffer.length * 2 < 2 ^ 32) :
    (f.grow length).counter = f.counter + 1 ∧
      (f.grow length).buffer.length = f.buffer.length * 2 := by
  have hm1 : f.buffer.length % 2 ^ 32 = f.buffer.length := Nat.mod_eq_of_lt (by omega)
  rw [transport.grow_unfold, if_pos ⟨by omega, hc⟩, transport.grow_unfold]
  have hlen : f.Resize.buffer.length = f.buffer.length * 2 := by
    simp only [transport.framer.Resize, List.length_replicate]
  have hm2 : (f.buffer.length * 2) % 2 ^ 32 = f.buffer.length * 2 := Nat.mod_eq_of_lt h32
  rw [if_neg (by simp only [hlen, hm2]; omega)]
  exact ⟨rfl, hlen⟩

/-- A new framer that has read one frame with a body of 1500 bytes has doubled its
buffer once: the counter is 1 and the buffer is 2048 bytes long. -/
theorem transport.framerAfter_one_growth (K : codes.Consts) :
    (transport.framerAfter K transport.NewFramer
        [codec.headerBytes 1500 ++ (List.replicate 1500 0 ++ [])]).counter = 1 ∧
      (transport.framerAfter K transport.NewFramer
        [codec.headerBytes 1500 ++ (List.replicate 1500 0 ++ [])]).buffer.length = 2048 := by
  have hnew : transport.NewFramer.buffer.length = 1024 := by
    simp only [transport.NewFramer, List.length_replicate, transport.DefaultPayloadLength]
  have hb : (List.replicate 1500 (0 : Byte)).length = 1500 := List.length_replicate _ _
  obtain ⟨h1, h2⟩ := transport.ReadFrame_valid_framer K transport.NewFramer
    transport.NewFramer_inv (codec.headerBytes 1500) (List.replicate 1500 0) []
    (by decide) (by decide) (by rw [hb]; decide) (by rw [hb]; decide)
  obtain ⟨g1, g2⟩ := transport.grow_once transport.NewFramer 1500 (by rw [hnew]; decide)
    (by rw [hnew]; decide) (by decide) (by rw [hnew]; decide)
  rw [hb] at h1 h2
  simp only [transport.framerAfter]
  rw [h1, h2, g1, g2, hnew]
  exact ⟨rfl, rfl⟩

/-- C25, amended: the cumulative counter never stops a growth that is needed. After
every sequence of `ReadFrame` calls on a framer created by `NewFramer`, whatever the
streams held, the resize loop makes the buffer at least as long as any declared length
of at most 4 MiB, and a later frame with the magic byte and a declared length of at
most 4 MiB whose body is on the stream is returned in full, not refused; the framer is
left with the counter and the buffer length the resize loop gave it. -/
theorem C25_later_frame_is_read (K : codes.Consts) (conns : List transport.Conn)
    (hdr b rest : List Byte) (hlen : hdr.length = 15)
    (hmagic : (hdr.getD 0 0).val = codec.Magic)
    (hdecl : codec.bigEndianUint32 ((hdr.drop 7).take 4) = b.length)
    (hb : b.length ≤ transport.MaxPayloadLength) :
    b.length ≤ ((transport.framerAfter K transport.NewFramer conns).grow b.length).buffer.length ∧
      ((transport.framerAfter K transport.NewFramer conns).ReadFrame K (hdr ++ (b ++ rest))).1
        = Outcome.ret (some (hdr ++ b), none) ∧
      ((transport.framerAfter K transport.NewFramer conns).ReadFrame K (hdr ++ (b ++ rest))).2.2
        = rest ∧
      ((transport.framerAfter K transport.NewFramer conns).ReadFrame K
          (hdr ++ (b ++ rest))).2.1.counter
        = ((transport.framerAfter K transport.NewFramer conns).grow b.length).counter ∧
      ((transport.framerAfter K transport.NewFramer conns).ReadFrame K
          (hdr ++ (b ++ rest))).2.1.buffer.length
        = ((transport.framerAfter K transport.NewFramer conns).grow b.length).buffer.length := by
  obtain ⟨hinv, _, _⟩ := transport.framerAfter_inv K conns transport.NewFramer
    transport.NewFramer_inv
  obtain ⟨_, hge⟩ := transport.grow_inv _ b.length hinv hb
  obtain ⟨g, _, hread⟩ := transport.ReadFrame_valid K _ hinv hdr b rest hlen hmagic hdecl hb
  obtain ⟨hc, hl⟩ :=
    transport.ReadFrame_valid_framer K _ hinv hdr b rest hlen hmagic hdecl hb
  exact ⟨hge, by rw [hread], by rw [hread], hc, hl⟩

/-- Witness for C25: growth after growth. A new framer first reads a frame with a body
of 1500 bytes, which doubles its buffer to 2048 bytes and sets the counter to 1; a later
frame with a body of 3000 bytes does not fit, the buffer is doubled again to 4096 bytes,
the counter goes to 2, and the frame is returned in full. -/
theorem C25_later_frame_is_read_witness :
    (transport.framerAfter exampleConsts transport.NewFramer
        [codec.headerBytes 1500 ++ (List.replicate 1500 0 ++ [])]).counter = 1 ∧
    (transport.framerAfter exampleConsts transport.NewFramer
        [codec.headerBytes 1500 ++ (List.replicate 1500 0 ++ [])]).buffer.length = 2048 ∧
    ((transport.framerAfter exampleConsts transport.NewFramer
        [codec.headerBytes 1500 ++ (List.replicate 1500 0 ++ [])]).ReadFrame exampleConsts
          (codec.headerBytes 3000 ++ (List.replicate 3000 0 ++ []))).1
      = Outcome.ret (some (codec.headerBytes 3000 ++ List.replicate 3000 0), none) ∧
    ((transport.framerAfter exampleConsts transport.NewFramer
        [codec.headerBytes 1500 ++ (List.replicate 1500 0 ++ [])]).ReadFrame exampleConsts
          (codec.headerBytes 3000 ++ (List.replicate 3000 0 ++ []))).2.1.counter = 2 ∧
    ((transport.framerAfter exampleConsts transport.NewFramer
        [codec.headerBytes 1500 ++ (List.replicate 1500 0 ++ [])]).ReadFrame exampleConsts
          (codec.headerBytes 3000 ++ (List.replicate 3000 0 ++ []))).2.1.buffer.length
      = 4096 := by
  have hb : (List.replicate 3000 (0 : Byte)).length = 3000 := List.length_replicate _ _
  obtain ⟨a1, a2⟩ := transport.framerAfter_one_growth exampleConsts
  obtain ⟨_, t2, _, t4, t5⟩ := C25_later_frame_is_read exampleConsts
    [codec.headerBytes 1500 ++ (List.replicate 1500 0 ++ [])]
    (codec.headerBytes 3000) (List.replicate 3000 0) []
    (by decide) (by decide) (by rw [hb]; decide) (by rw [hb]; decide)
  obtain ⟨g1, g2⟩ := transport.grow_once
    (transport.framerAfter exampleConsts transport.NewFramer
      [codec.headerBytes 1500 ++ (List.replicate 1500 0 ++ [])]) 3000
    (by rw [a2]; decide) (by rw [a2]; decide) (by rw [a1]; decide) (by rw [a2]; decide)
  rw [hb] at t4 t5
  refine ⟨a1, a2, t2, ?_, ?_⟩
  · rw [t4, g1, a1]
    rfl
  · rw [t5, g2, a2]

end Lrpcx
